import Mathlib

/-!
# ICMPv6 codec of libtins (`src/icmpv6.cpp`)

A shallow embedding of the ICMPv6 protocol data unit: the parsing constructor,
`write_serialization`, the option list and the typed option setters.

Conventions of the embedding.

* An octet is a natural number; a buffer is a `List Nat`.  Buffers handed to the
  code hold octets (`Bytes`), and every place where the C++ narrows a value to
  `uint8_t`, `uint16_t` or `uint32_t` reduces it explicitly with `%`.
* A multi-octet field that the C++ keeps in network byte order in memory is
  modelled by its octets in memory order, so the model does not depend on the
  byte order of the host.
* Exceptions are values of `Error`; a throwing function returns `Except Error _`.
* Code of the library that is not part of `icmpv6.cpp` (the byte streams, the option
  record class, the PDU base class, the checksum helpers, the extension container)
  is modelled from the specification and marked as such.
* The typed option decoders (`from_option`) take the option record and return the value or
  the exception.  Integers read with `memcpy` and `Endian::be_to_host` are the big-endian
  reading of the bytes; the one integer that is read with `memcpy` alone
  (`map_type::from_option`) takes the byte order of the host as a parameter.
-/

namespace Tins

/-- The exception kinds of the library that the codec can raise. -/
inductive Error where
  | malformed_packet
  | malformed_option
  | option_not_found
  | serialization_error
deriving DecidableEq, Repr

/-- Every element of the buffer is an octet. -/
def Bytes (b : List Nat) : Prop := ∀ x ∈ b, x < 256

instance (b : List Nat) : Decidable (Bytes b) := by
  unfold Bytes; infer_instance

/-- A byte array of fixed size `n` (`HWAddress<6>`, `IPv6Address`, `uint8_t[n]`,
and the memory image of a `uint32_t`). -/
structure ByteVec (n : Nat) where
  data : List Nat
  size_eq : data.length = n
deriving DecidableEq, Repr

/-- The all-zero array: a default-constructed address, a zeroed integer. -/
def ByteVec.zero (n : Nat) : ByteVec n := ⟨List.replicate n 0, by simp⟩

abbrev ipaddress_type := ByteVec 16
abbrev hwaddress_type := ByteVec 6

/-! ## Endian helpers -/

/-- Memory image of `Endian::host_to_be(v)` for a `uint16_t`. -/
def host_to_be16 (v : Nat) : List Nat := [v / 256 % 256, v % 256]

/-- Memory image of `Endian::host_to_be(v)` for a `uint32_t`. -/
def host_to_be32 (v : Nat) : List Nat :=
  [v / 16777216 % 256, v / 65536 % 256, v / 256 % 256, v % 256]

/-- Memory image of `Endian::host_to_be(v)` for a `uint64_t`. -/
def host_to_be64 (v : Nat) : List Nat :=
  host_to_be32 (v / 4294967296) ++ host_to_be32 v

/-- The `Endian::be_to_host` reading of a big-endian memory image. -/
def be_to_host (bs : List Nat) : Nat := bs.foldl (fun acc b => acc * 256 + b) 0

/-! ## Message types -/

/-- Modelled from the spec: the `Types` enumeration of `icmpv6.h` (section 6, wire values). -/
def DEST_UNREACHABLE : Nat := 1
/-- Modelled from the spec: see `DEST_UNREACHABLE`. -/
def TIME_EXCEEDED : Nat := 3
/-- Modelled from the spec: see `DEST_UNREACHABLE`. -/
def ECHO_REQUEST : Nat := 128
/-- Modelled from the spec: see `DEST_UNREACHABLE`. -/
def ECHO_REPLY : Nat := 129
/-- Modelled from the spec: see `DEST_UNREACHABLE`. -/
def ROUTER_SOLICIT : Nat := 133
/-- Modelled from the spec: see `DEST_UNREACHABLE`. -/
def ROUTER_ADVERT : Nat := 134
/-- Modelled from the spec: see `DEST_UNREACHABLE`. -/
def NEIGHBOUR_SOLICIT : Nat := 135
/-- Modelled from the spec: see `DEST_UNREACHABLE`. -/
def NEIGHBOUR_ADVERT : Nat := 136
/-- Modelled from the spec: see `DEST_UNREACHABLE`. -/
def REDIRECT : Nat := 137

/-! ## Option records -/

/-- Modelled from the spec: the option record class `PDUOption<uint8_t, ICMPv6>`
(section 3, "Option record"): a kind octet and the payload bytes. -/
structure PDUOption where
  option : Nat
  data : List Nat
deriving DecidableEq, Repr

/-- Modelled from the spec: `data_size()`, the number of payload bytes. -/
def PDUOption.data_size (o : PDUOption) : Nat := o.data.length

/-- Modelled from the spec: `length_field()`; every record of this file is built with
its payload length as length field. -/
def PDUOption.length_field (o : PDUOption) : Nat := o.data.length

/-! ## Byte streams -/

/-- Modelled from the spec: `InputMemoryStream` (section 4.1), the bytes not yet read. -/
abbrev InputMemoryStream := List Nat

/-- Modelled from the spec: `can_read(n)`. -/
def InputMemoryStream.can_read (s : InputMemoryStream) (n : Nat) : Bool := decide (n ≤ s.length)

/-- Modelled from the spec: `read<T>()` for a `T` of `n` octets (an address, a `uint32_t`);
a read past the end fails `malformed_packet`. -/
def InputMemoryStream.read_vec (s : InputMemoryStream) (n : Nat) :
    Except Error (ByteVec n × InputMemoryStream) :=
  if h : n ≤ s.length then
    .ok (⟨s.take n, by simp [List.length_take, h]⟩, s.drop n)
  else .error .malformed_packet

/-- Modelled from the spec: `OutputMemoryStream` (section 4.1): the caller's buffer and the
write cursor. -/
structure OutputMemoryStream where
  buffer : List Nat
  pos : Nat
deriving DecidableEq, Repr

/-- Bytes `bs` stored at offset `off` of `buf` (`memcpy`/`memset` into the buffer); the
buffer keeps its size. -/
def store (buf : List Nat) (off : Nat) (bs : List Nat) : List Nat :=
  (buf.take off ++ bs ++ buf.drop (off + bs.length)).take buf.length

/-- Modelled from the spec: a write of the bytes `bs` through the cursor; the write fails
when the buffer has fewer than `|bs|` bytes left. -/
def OutputMemoryStream.write (s : OutputMemoryStream) (bs : List Nat) :
    Except Error OutputMemoryStream :=
  if s.buffer.length - s.pos < bs.length then .error .serialization_error
  else .ok { buffer := store s.buffer s.pos bs, pos := s.pos + bs.length }

/-! ## The PDU -/

/-- The fixed header `icmp6hdr` as its eight octets in memory: `type`, `code`, the two
octets of `cksum` (network byte order), and the four octets of the union that follows
(`u_echo`, `u_nd_advt`, `u_nd_ra`, `rfc4884`). -/
structure icmp6hdr where
  type : Nat
  code : Nat
  cksum0 : Nat
  cksum1 : Nat
  u0 : Nat
  u1 : Nat
  u2 : Nat
  u3 : Nat
deriving DecidableEq, Repr

/-- The memory image of the header, `sizeof(icmp6hdr)` = 8 octets. -/
def icmp6hdr.bytes (h : icmp6hdr) : List Nat :=
  [h.type, h.code, h.cksum0, h.cksum1, h.u0, h.u1, h.u2, h.u3]

/-- Modelled from the spec: the RFC 4884 extension container `ICMPExtensionsStructure`, an
external collaborator of which the codec uses three things: whether it holds extension
objects, the bytes its serializer writes, and their number. -/
structure ICMPExtensionsStructure where
  extensions : List (List Nat)
  serialized : List Nat
deriving DecidableEq, Repr

/-- Modelled from the spec: `ICMPExtensionsStructure::size()`. -/
def ICMPExtensionsStructure.size (e : ICMPExtensionsStructure) : Nat := e.serialized.length

/-- Modelled from the spec: the extension parser collaborator.  It receives the unread bytes
and the declared size of the inner payload and returns the container it recognised together
with the bytes that remain for the inner payload. -/
abbrev ExtensionParser := InputMemoryStream → Nat → ICMPExtensionsStructure × InputMemoryStream

/-- A collaborator that never recognises an extension structure. -/
def ExtensionParser.none : ExtensionParser := fun s _ => (⟨[], []⟩, s)

/-- The state of an `ICMPv6` object.  `inner_pdu` is the child PDU, consumed only through
its size and its serialized bytes. -/
structure ICMPv6 where
  header : icmp6hdr
  target_address : ipaddress_type
  dest_address : ipaddress_type
  options : List PDUOption
  options_size : Nat
  reach_time : ByteVec 4
  retrans_timer : ByteVec 4
  extensions : ICMPExtensionsStructure
  inner_pdu : Option (List Nat)
deriving DecidableEq, Repr

namespace ICMPv6

/-- `ICMPv6::ICMPv6(Types tp)`: zeroed header with the type set, no options. -/
def from_type (tp : Nat) : ICMPv6 :=
  { header := ⟨tp % 256, 0, 0, 0, 0, 0, 0, 0⟩
    target_address := ByteVec.zero 16
    dest_address := ByteVec.zero 16
    options := []
    options_size := 0
    reach_time := ByteVec.zero 4
    retrans_timer := ByteVec.zero 4
    extensions := ⟨[], []⟩
    inner_pdu := none }

/-- Modelled from the spec: `type()`. -/
def type (p : ICMPv6) : Nat := p.header.type

/-- Modelled from the spec: `length()`, the RFC 4884 length octet, first octet after the
checksum. -/
def length (p : ICMPv6) : Nat := p.header.u0

/-- Modelled from the spec: `has_target_addr()` (section 3, "Body addresses"). -/
def has_target_addr (p : ICMPv6) : Bool :=
  p.type == NEIGHBOUR_SOLICIT || p.type == NEIGHBOUR_ADVERT || p.type == REDIRECT

/-- Modelled from the spec: `has_dest_addr()` (section 3, "Body addresses"). -/
def has_dest_addr (p : ICMPv6) : Bool := p.type == REDIRECT

/-- Modelled from the spec: `has_extensions()`, the container holds an extension object. -/
def has_extensions (p : ICMPv6) : Bool := !p.extensions.extensions.isEmpty

/-- `ICMPv6::has_options`. -/
def has_options (p : ICMPv6) : Bool :=
  p.type == NEIGHBOUR_SOLICIT || p.type == NEIGHBOUR_ADVERT || p.type == ROUTER_SOLICIT
    || p.type == ROUTER_ADVERT || p.type == REDIRECT

/-- `ICMPv6::are_extensions_allowed`. -/
def are_extensions_allowed (p : ICMPv6) : Bool := p.type == TIME_EXCEEDED

/-- `ICMPv6::internal_add_option`: the `uint32_t` counter grows by the record size. -/
def internal_add_option (p : ICMPv6) (o : PDUOption) : ICMPv6 :=
  { p with options_size := (p.options_size + (o.data_size + 2) % 4294967296) % 4294967296 }

/-- `ICMPv6::add_option`. -/
def add_option (p : ICMPv6) (o : PDUOption) : ICMPv6 :=
  let p1 := p.internal_add_option o
  { p1 with options := p1.options ++ [o] }

/-- `ICMPv6::search_option_iterator` followed by dereference: the first record of that kind. -/
def search_option (p : ICMPv6) (type : Nat) : Option PDUOption :=
  p.options.find? (fun o => o.option == type)

/-- `ICMPv6::remove_option`: the returned flag and the new state. -/
def remove_option (p : ICMPv6) (type : Nat) : Bool × ICMPv6 :=
  match p.options.find? (fun o => o.option == type) with
  | none => (false, p)
  | some o =>
    (true,
      { p with
        options_size :=
          (p.options_size + 4294967296 - (o.data_size + 2) % 4294967296) % 4294967296
        options := p.options.eraseP (fun o => o.option == type) })

/-- `ICMPv6::parse_options`.  The loop ends when the stream is empty; the two
`read<uint8_t>()` calls take the first two bytes and fail with `malformed_packet` when the
stream ends before the second; after a successful `can_read` the `skip` cannot fail. -/
def parse_options : InputMemoryStream → ICMPv6 → Except Error (ICMPv6 × InputMemoryStream)
  | [], p => .ok (p, [])
  | [_], _ => .error .malformed_packet
  | opt_type :: len :: stream, p =>
    let opt_size := len * 8 % 4294967296
    if opt_size < 2 then .error .malformed_packet
    else
      let payload_size := opt_size - 2
      if !InputMemoryStream.can_read stream payload_size then .error .malformed_packet
      else
        parse_options (stream.drop payload_size)
          (p.add_option ⟨opt_type, stream.take payload_size⟩)
termination_by s => s.length
decreasing_by simp [List.length_drop]; omega

/-- Modelled from the spec: `Internals::try_parse_icmp_extensions` (section 4.3, step 7): when the
declared length is non-zero the remaining bytes are handed to the extension parser. -/
def try_parse_icmp_extensions (E : ExtensionParser) (stream : InputMemoryStream)
    (payload_length : Nat) (extensions : ICMPExtensionsStructure) :
    ICMPExtensionsStructure × InputMemoryStream :=
  if payload_length = 0 then (extensions, stream) else E stream payload_length

/-- `ICMPv6::try_parse_extensions`. -/
def try_parse_extensions (E : ExtensionParser) (p : ICMPv6) (stream : InputMemoryStream) :
    ICMPv6 × InputMemoryStream :=
  if p.are_extensions_allowed then
    let r := try_parse_icmp_extensions E stream (p.length * 8 % 4294967296) p.extensions
    ({ p with extensions := r.1 }, r.2)
  else (p, stream)

/-- Modelled from the spec: `stream.read(_header)`, the eight header octets. -/
def read_header : InputMemoryStream → Except Error (icmp6hdr × InputMemoryStream)
  | t :: c :: k0 :: k1 :: a0 :: a1 :: a2 :: a3 :: rest => .ok (⟨t, c, k0, k1, a0, a1, a2, a3⟩, rest)
  | _ => .error .malformed_packet

/-- `ICMPv6::ICMPv6(const uint8_t *buffer, uint32_t total_sz)`, the parsing constructor. -/
def from_buffer (E : ExtensionParser) (buffer : List Nat) : Except Error ICMPv6 := do
  let (hdr, s0) ← read_header buffer
  let p0 : ICMPv6 := { from_type 0 with header := hdr }
  let (target, s1) ←
    (if p0.has_target_addr then InputMemoryStream.read_vec s0 16
      else pure (p0.target_address, s0))
  let (dest, s2) ←
    (if p0.has_dest_addr then InputMemoryStream.read_vec s1 16
      else pure (p0.dest_address, s1))
  let (reach, retrans, s3) ←
    (if p0.type == ROUTER_ADVERT then
      (InputMemoryStream.read_vec s2 4 >>= fun (r, t) =>
        InputMemoryStream.read_vec t 4 >>= fun (r2, t2) => pure (r, r2, t2))
      else pure (p0.reach_time, p0.retrans_timer, s2))
  let p1 : ICMPv6 :=
    { p0 with target_address := target, dest_address := dest,
              reach_time := reach, retrans_timer := retrans }
  let (p2, s4) ← (if p1.has_options then parse_options s3 p1 else pure (p1, s3))
  let (p3, s5) := try_parse_extensions E p2 s4
  pure (if s5 ≠ [] then { p3 with inner_pdu := some s5 } else p3)

end ICMPv6

/-! ## Checksum helpers -/

/-- The 16-bit big-endian words of a byte string; an odd final byte is the high octet of
a final word. -/
def words16 : List Nat → List Nat
  | [] => []
  | [a] => [a * 256]
  | a :: b :: rest => (a * 256 + b) :: words16 rest

/-- One's-complement addition of two 16-bit words: the carry is added back in. -/
def ones_add (a b : Nat) : Nat := (a + b) % 65536 + (a + b) / 65536

/-- Modelled from the spec: `Utils::do_checksum` (section 4.5): "the 16-bit one's-complement
sum of the serialized ICMPv6 bytes with an odd final byte treated as the high octet of a
final 16-bit word". -/
def do_checksum (bytes : List Nat) : Nat := (words16 bytes).foldl ones_add 0

/-- Modelled from the spec: `Utils::pseudoheader_checksum` (section 4.5): the 16-bit words of
both addresses, the upper-layer length as two 16-bit words, and the next-header value, in a
32-bit accumulator. -/
def pseudoheader_checksum (src dst : ipaddress_type) (len flag : Nat) : Nat :=
  ((words16 src.data).sum + (words16 dst.data).sum
    + len % 4294967296 / 65536 + len % 65536 + flag % 4294967296) % 4294967296

/-- The loop `while (checksum >> 16) checksum = (checksum & 0xffff) + (checksum >> 16);`. -/
def fold_carries (checksum : Nat) : Nat :=
  if h : checksum / 65536 = 0 then checksum
  else fold_carries (checksum % 65536 + checksum / 65536)
termination_by checksum
decreasing_by omega

/-- Modelled from the spec: `Constants::IP::PROTO_ICMPV6` (section 6). -/
def PROTO_ICMPV6 : Nat := 58

/-- Modelled from the spec: the enclosing IPv6 datagram, consumed through `src_addr()` and
`dst_addr()`. -/
structure IPv6 where
  src_addr : ipaddress_type
  dst_addr : ipaddress_type
deriving DecidableEq, Repr

/-- Modelled from the spec: `Internals::get_padded_icmp_inner_pdu_size`, the size of the inner
payload padded to the next multiple of `pad_alignment`, zero without inner payload. -/
def get_padded_icmp_inner_pdu_size (inner_pdu : Option (List Nat)) (pad_alignment : Nat) : Nat :=
  match inner_pdu with
  | none => 0
  | some inner =>
    let inner_pdu_size := inner.length % 4294967296
    let padding := inner_pdu_size % pad_alignment
    (if padding ≠ 0 then inner_pdu_size - padding + pad_alignment else inner_pdu_size)
      % 4294967296

namespace ICMPv6

/-- Modelled from the spec: `inner_pdu()->size()` as a `uint32_t`, zero without inner payload. -/
def inner_size (p : ICMPv6) : Nat :=
  match p.inner_pdu with
  | none => 0
  | some inner => inner.length % 4294967296

/-- `ICMPv6::get_adjusted_inner_pdu_size`. -/
def get_adjusted_inner_pdu_size (p : ICMPv6) : Nat :=
  get_padded_icmp_inner_pdu_size p.inner_pdu 8

/-- `ICMPv6::header_size`. -/
def header_size (p : ICMPv6) : Nat :=
  let extra := if p.type == ROUTER_ADVERT then 8 else 0
  (8 + p.options_size + extra + (if p.has_target_addr then 16 else 0)
    + (if p.has_dest_addr then 16 else 0)) % 4294967296

/-- `ICMPv6::trailer_size`. -/
def trailer_size (p : ICMPv6) : Nat :=
  if p.has_extensions then
    let output := p.extensions.size % 4294967296
    if p.inner_pdu.isSome then
      let upper_bound := max p.get_adjusted_inner_pdu_size 128
      (output + (upper_bound + 4294967296 - p.inner_size) % 4294967296) % 4294967296
    else output
  else 0

/-- Modelled from the spec: `PDU::size()`, header, inner payload and trailer (section 4.1). -/
def size (p : ICMPv6) : Nat :=
  (p.header_size + p.trailer_size + p.inner_size) % 4294967296

/-- `ICMPv6::use_length_field`. -/
def use_length_field (p : ICMPv6) (value : Bool) : ICMPv6 :=
  { p with header := { p.header with u0 := if value then 1 else 0 } }

/-- `ICMPv6::checksum(uint16_t)`: the value is stored in network byte order. -/
def checksum (p : ICMPv6) (new_cksum : Nat) : ICMPv6 :=
  { p with header :=
      { p.header with cksum0 := new_cksum % 65536 / 256 % 256, cksum1 := new_cksum % 256 } }

/-- The reinterpretation `(const icmp6hdr*)ptr` of the first eight bytes of a buffer. -/
def hdr_at (ptr : List Nat) : icmp6hdr :=
  ⟨ptr.getD 0 0, ptr.getD 1 0, ptr.getD 2 0, ptr.getD 3 0,
   ptr.getD 4 0, ptr.getD 5 0, ptr.getD 6 0, ptr.getD 7 0⟩

/-- `ICMPv6::matches_response`; the `uint16_t` fields `u_echo.identifier` and
`u_echo.sequence` are compared through their memory images. -/
def matches_response (p : ICMPv6) (ptr : List Nat) : Bool :=
  if ptr.length < 8 then false
  else
    let hdr_ptr := hdr_at ptr
    if p.type == ECHO_REQUEST && hdr_ptr.type == ECHO_REPLY then
      ([hdr_ptr.u0, hdr_ptr.u1] == [p.header.u0, p.header.u1])
        && ([hdr_ptr.u2, hdr_ptr.u3] == [p.header.u2, p.header.u3])
    else false

/-- `ICMPv6::write_option`. -/
def write_option (opt : PDUOption) (stream : OutputMemoryStream) :
    Except Error OutputMemoryStream := do
  let s1 ← stream.write [opt.option]
  let s2 ← s1.write [(opt.length_field + 2) / 8 % 256]
  s2.write opt.data

/-- The loop over `_options` in `write_serialization`. -/
def write_options : List PDUOption → OutputMemoryStream → Except Error OutputMemoryStream
  | [], stream => .ok stream
  | opt :: rest, stream => do
    let s ← write_option opt stream
    write_options rest s

/-- First part of `write_serialization`: the RFC 4884 length octet is recomputed when
extensions are allowed. -/
def set_length_field (p : ICMPv6) : ICMPv6 :=
  if p.are_extensions_allowed then
    let length_value := p.get_adjusted_inner_pdu_size
    if p.length ≠ 0 ∨ length_value > 128 then
      let length_value := if length_value ≠ 0 then max length_value 128 else 0
      { p with header := { p.header with u0 := length_value / 8 % 256 } }
    else p
  else p

/-- The assignment `_header.cksum = 0` of `write_serialization`. -/
def zero_cksum (p : ICMPv6) : ICMPv6 :=
  { p with header := { p.header with cksum0 := 0, cksum1 := 0 } }

/-- Second part of `write_serialization`: header, addresses, timers and options go through
the output stream. -/
def write_fields (p : ICMPv6) (stream : OutputMemoryStream) : Except Error OutputMemoryStream := do
  let s0 ← stream.write p.header.bytes
  let s1 ← (if p.has_target_addr then s0.write p.target_address.data else pure s0)
  let s2 ← (if p.has_dest_addr then s1.write p.dest_address.data else pure s1)
  let s3 ←
    (if p.type == ROUTER_ADVERT then
      (s2.write p.reach_time.data >>= fun t => t.write p.retrans_timer.data)
      else pure s2)
  write_options p.options s3

/-- Third part of `write_serialization`: the inner payload region is padded and the
extension structure is serialized behind it.  `stream` is the cursor after the options. -/
def write_extensions (p : ICMPv6) (stream : OutputMemoryStream) : List Nat :=
  if p.has_extensions then
    let extensions_ptr := stream.pos
    let r : List Nat × Nat :=
      if p.inner_pdu.isSome then
        let inner_pdu_size := p.get_adjusted_inner_pdu_size
        if inner_pdu_size < 128 then
          (store stream.buffer (extensions_ptr + inner_pdu_size)
              (List.replicate (128 - inner_pdu_size) 0),
            extensions_ptr + 128)
        else
          let diff := inner_pdu_size - p.inner_size
          (store stream.buffer (extensions_ptr + inner_pdu_size) (List.replicate diff 0),
            extensions_ptr + inner_pdu_size)
      else (stream.buffer, extensions_ptr)
    store r.1 r.2 p.extensions.serialized
  else stream.buffer

/-- `ICMPv6::write_serialization`: the new state of the object and the buffer contents. -/
def write_serialization (p : ICMPv6) (buffer : List Nat) (parent : Option IPv6) :
    Except Error (ICMPv6 × List Nat) := do
  let p1 := p.set_length_field
  let p2 := p1.zero_cksum
  let stream ← write_fields p2 ⟨buffer, 0⟩
  let buffer1 := write_extensions p2 stream
  match parent with
  | some ipv6 =>
    let checksum :=
      (pseudoheader_checksum ipv6.src_addr ipv6.dst_addr p2.size PROTO_ICMPV6
        + do_checksum buffer1) % 4294967296
    let checksum := fold_carries checksum
    let p3 := p2.checksum (4294967295 - checksum)
    pure (p3, store buffer1 2 [p3.header.cksum0, p3.header.cksum1])
  | none => pure (p2, buffer1)

/-- Modelled from the spec: `PDU::serialize` (section 4.1): the caller sizes a zeroed buffer to
`size()`, the inner payload is serialized at offset `header_size()`, then
`write_serialization` runs over the whole buffer. -/
def serialize (p : ICMPv6) (parent : Option IPv6) : Except Error (ICMPv6 × List Nat) :=
  let buffer := List.replicate p.size 0
  let buffer :=
    match p.inner_pdu with
    | some inner => store buffer p.header_size inner
    | none => buffer
  p.write_serialization buffer parent

end ICMPv6

/-! ## Typed option setters -/

/-- Modelled from the spec: the `OptionTypes` enumeration of `icmpv6.h`; the numbers are those
of the Neighbor Discovery option registry, of which the specification shows kind 1 (source
link-layer address) and kind 0x1F (DNS search list). -/
inductive OptionTypes where
  | SOURCE_ADDRESS | TARGET_ADDRESS | PREFIX_INFO | REDIRECT_HEADER | MTU
  | NBMA_SHORT_LIMIT | ADVERT_INTERVAL | HOME_AGENT_INFO | S_ADDRESS_LIST | T_ADDRESS_LIST
  | RSA_SIGN | TIMESTAMP | NONCE | IP_PREFIX | LINK_ADDRESS | NAACK | MAP | ROUTE_INFO
  | RECURSIVE_DNS_SERV | HANDOVER_KEY_REQ | HANDOVER_KEY_REPLY | HANDOVER_ASSIST_INFO
  | MOBILE_NODE_ID | DNS_SEARCH_LIST
deriving DecidableEq, Repr

/-- Modelled from the spec: the octet of an option kind. -/
def OptionTypes.code : OptionTypes → Nat
  | .SOURCE_ADDRESS => 1 | .TARGET_ADDRESS => 2 | .PREFIX_INFO => 3 | .REDIRECT_HEADER => 4
  | .MTU => 5 | .NBMA_SHORT_LIMIT => 6 | .ADVERT_INTERVAL => 7 | .HOME_AGENT_INFO => 8
  | .S_ADDRESS_LIST => 9 | .T_ADDRESS_LIST => 10 | .RSA_SIGN => 12 | .TIMESTAMP => 13
  | .NONCE => 14 | .IP_PREFIX => 17 | .LINK_ADDRESS => 19 | .NAACK => 20 | .MAP => 23
  | .ROUTE_INFO => 24 | .RECURSIVE_DNS_SERV => 25 | .HANDOVER_KEY_REQ => 27
  | .HANDOVER_KEY_REPLY => 28 | .HANDOVER_ASSIST_INFO => 29 | .MOBILE_NODE_ID => 30
  | .DNS_SEARCH_LIST => 31

/-- The value type of the PREFIX_INFO option; `A` and `L` are `small_uint<1>`. -/
structure prefix_info_type where
  prefix_len : Nat
  A : Nat
  L : Nat
  valid_lifetime : Nat
  preferred_lifetime : Nat
  prefix_ : ipaddress_type
deriving DecidableEq, Repr

/-- The value type of the MTU option, `std::pair<uint16_t, uint32_t>`. -/
abbrev mtu_type := Nat × Nat

/-- The value type of the NBMA_SHORT_LIMIT option. -/
structure shortcut_limit_type where
  limit : Nat
  reserved1 : Nat
  reserved2 : Nat
deriving DecidableEq, Repr

/-- The value type of the ADVERT_INTERVAL option. -/
structure new_advert_interval_type where
  reserved : Nat
  interval : Nat
deriving DecidableEq, Repr

/-- The value type of the address list options. -/
structure addr_list_type where
  reserved : ByteVec 6
  addresses : List ipaddress_type
deriving DecidableEq, Repr

/-- The value type of the RSA_SIGN option. -/
structure rsa_sign_type where
  key_hash : ByteVec 16
  signature : List Nat
deriving DecidableEq, Repr

/-- The value type of the TIMESTAMP option. -/
structure timestamp_type where
  reserved : ByteVec 6
  timestamp : Nat
deriving DecidableEq, Repr

/-- The value type of the IP_PREFIX option. -/
structure ip_prefix_type where
  option_code : Nat
  prefix_len : Nat
  address : ipaddress_type
deriving DecidableEq, Repr

/-- The value type of the LINK_ADDRESS option. -/
structure lladdr_type where
  option_code : Nat
  address : List Nat
deriving DecidableEq, Repr

/-- The value type of the NAACK option. -/
structure naack_type where
  code : Nat
  status : Nat
  reserved : ByteVec 4
deriving DecidableEq, Repr

/-- The value type of the MAP option; `dist`, `pref` are `small_uint<4>`, `r` is
`small_uint<1>`. -/
structure map_type where
  dist : Nat
  pref : Nat
  r : Nat
  valid_lifetime : Nat
  address : ipaddress_type
deriving DecidableEq, Repr

/-- The value type of the ROUTE_INFO option; `pref` is `small_uint<2>`. -/
structure route_info_type where
  prefix_len : Nat
  pref : Nat
  route_lifetime : Nat
  prefix_ : List Nat
deriving DecidableEq, Repr

/-- The value type of the RECURSIVE_DNS_SERV option. -/
structure recursive_dns_type where
  lifetime : Nat
  servers : List ipaddress_type
deriving DecidableEq, Repr

/-- The value type of the HANDOVER_KEY_REQ option; `AT` is `small_uint<4>`. -/
structure handover_key_req_type where
  AT : Nat
  key : List Nat
deriving DecidableEq, Repr

/-- The value type of the HANDOVER_KEY_REPLY option. -/
structure handover_key_reply_type where
  AT : Nat
  key : List Nat
  lifetime : Nat
deriving DecidableEq, Repr

/-- The value type of the HANDOVER_ASSIST_INFO option. -/
structure handover_assist_info_type where
  option_code : Nat
  hai : List Nat
deriving DecidableEq, Repr

/-- The value type of the MOBILE_NODE_ID option. -/
structure mobile_node_id_type where
  option_code : Nat
  mn : List Nat
deriving DecidableEq, Repr

/-- The value type of the DNS_SEARCH_LIST option; a domain is its string of characters. -/
structure dns_search_list_type where
  lifetime : Nat
  domains : List (List Nat)
deriving DecidableEq, Repr

/-- The computation `uint8_t padding = 8 - n % 8; if (padding == 8) padding = 0;`. -/
def padding8 (n : Nat) : Nat :=
  let padding := (8 - n % 8) % 256
  if padding = 8 then 0 else padding

/-- The `do ... while` loop of `dns_search_list` over one domain: every label is written as
its length octet followed by its characters; `cur` is the label read so far. -/
def encode_labels : List Nat → List Nat → List Nat
  | [], cur => (cur.length % 256) :: cur
  | c :: rest, cur =>
    if c = 46 then ((cur.length % 256) :: cur) ++ encode_labels rest []
    else encode_labels rest (cur ++ [c])

namespace ICMPv6

/-- `ICMPv6::source_link_layer_addr` (setter). -/
def source_link_layer_addr (p : ICMPv6) (addr : hwaddress_type) : ICMPv6 :=
  p.add_option ⟨OptionTypes.SOURCE_ADDRESS.code, addr.data⟩

/-- `ICMPv6::target_link_layer_addr` (setter). -/
def target_link_layer_addr (p : ICMPv6) (addr : hwaddress_type) : ICMPv6 :=
  p.add_option ⟨OptionTypes.TARGET_ADDRESS.code, addr.data⟩

/-- `ICMPv6::prefix_info` (setter). -/
def prefix_info (p : ICMPv6) (info : prefix_info_type) : ICMPv6 :=
  let buffer : List Nat :=
    [info.prefix_len % 256, ((info.L <<< 7) ||| (info.A <<< 6)) % 256]
      ++ host_to_be32 info.valid_lifetime ++ host_to_be32 info.preferred_lifetime
      ++ host_to_be32 0 ++ info.prefix_.data
  p.add_option ⟨OptionTypes.PREFIX_INFO.code, buffer⟩

/-- `ICMPv6::redirect_header` (setter). -/
def redirect_header (p : ICMPv6) (data : List Nat) : ICMPv6 :=
  p.add_option ⟨OptionTypes.REDIRECT_HEADER.code, data⟩

/-- `ICMPv6::mtu` (setter). -/
def mtu (p : ICMPv6) (value : mtu_type) : ICMPv6 :=
  let u16_tmp := value.1 % 65536
  let u32_tmp := value.2 % 4294967296
  let buffer : List Nat :=
    [u16_tmp >>> 8 % 256, (u16_tmp &&& 0xff) % 256, u32_tmp >>> 24 % 256, u32_tmp >>> 16 % 256,
      u32_tmp >>> 8 % 256, (u32_tmp &&& 0xff) % 256]
  p.add_option ⟨OptionTypes.MTU.code, buffer⟩

/-- `ICMPv6::shortcut_limit` (setter). -/
def shortcut_limit (p : ICMPv6) (value : shortcut_limit_type) : ICMPv6 :=
  let u32_tmp := value.reserved2 % 4294967296
  let buffer : List Nat :=
    [value.limit % 256, value.reserved1 % 256, u32_tmp >>> 24 % 256, u32_tmp >>> 16 % 256,
      u32_tmp >>> 8 % 256, (u32_tmp &&& 0xff) % 256]
  p.add_option ⟨OptionTypes.NBMA_SHORT_LIMIT.code, buffer⟩

/-- `ICMPv6::new_advert_interval` (setter). -/
def new_advert_interval (p : ICMPv6) (value : new_advert_interval_type) : ICMPv6 :=
  let u16_tmp := value.reserved % 65536
  let u32_tmp := value.interval % 4294967296
  let buffer : List Nat :=
    [u16_tmp >>> 8 % 256, (u16_tmp &&& 0xff) % 256, u32_tmp >>> 24 % 256, u32_tmp >>> 16 % 256,
      u32_tmp >>> 8 % 256, (u32_tmp &&& 0xff) % 256]
  p.add_option ⟨OptionTypes.ADVERT_INTERVAL.code, buffer⟩

/-- `ICMPv6::new_home_agent_info` (setter); the value is a `std::vector<uint16_t>`. -/
def new_home_agent_info (p : ICMPv6) (value : List Nat) : Except Error ICMPv6 :=
  if value.length ≠ 3 then .error .malformed_option
  else
    let buffer : List Nat := List.replicate 6 0
    let buffer := store buffer 2 (host_to_be16 (value.getD 0 0))
    let buffer := store buffer 2 (host_to_be16 (value.getD 1 0))
    let buffer := store buffer 4 (host_to_be16 (value.getD 2 0))
    .ok (p.add_option ⟨OptionTypes.HOME_AGENT_INFO.code, buffer⟩)

/-- `ICMPv6::add_addr_list`. -/
def add_addr_list (p : ICMPv6) (type : Nat) (value : addr_list_type) : ICMPv6 :=
  let buffer : List Nat := value.reserved.data
  let buffer := value.addresses.foldl (fun buf it => buf ++ it.data) buffer
  p.add_option ⟨type % 256, buffer⟩

/-- `ICMPv6::source_addr_list` (setter). -/
def source_addr_list (p : ICMPv6) (value : addr_list_type) : ICMPv6 :=
  p.add_addr_list OptionTypes.S_ADDRESS_LIST.code value

/-- `ICMPv6::target_addr_list` (setter). -/
def target_addr_list (p : ICMPv6) (value : addr_list_type) : ICMPv6 :=
  p.add_addr_list OptionTypes.T_ADDRESS_LIST.code value

/-- `ICMPv6::rsa_signature` (setter). -/
def rsa_signature (p : ICMPv6) (value : rsa_sign_type) : ICMPv6 :=
  let total_sz := (4 + 16 + value.signature.length) % 4294967296
  let padding := padding8 total_sz
  let buffer : List Nat :=
    List.replicate 2 0 ++ value.key_hash.data ++ value.signature ++ List.replicate padding 0
  p.add_option ⟨OptionTypes.RSA_SIGN.code, buffer⟩

/-- `ICMPv6::timestamp` (setter). -/
def timestamp (p : ICMPv6) (value : timestamp_type) : ICMPv6 :=
  let buffer : List Nat := value.reserved.data ++ host_to_be64 value.timestamp
  p.add_option ⟨OptionTypes.TIMESTAMP.code, buffer⟩

/-- `ICMPv6::nonce` (setter). -/
def nonce (p : ICMPv6) (value : List Nat) : ICMPv6 :=
  p.add_option ⟨OptionTypes.NONCE.code, value⟩

/-- `ICMPv6::ip_prefix` (setter). -/
def ip_prefix (p : ICMPv6) (value : ip_prefix_type) : ICMPv6 :=
  let buffer : List Nat :=
    [value.option_code % 256, value.prefix_len % 256] ++ List.replicate 4 0 ++ value.address.data
  p.add_option ⟨OptionTypes.IP_PREFIX.code, buffer⟩

/-- `ICMPv6::link_layer_addr`. -/
def link_layer_addr (p : ICMPv6) (value : lladdr_type) : ICMPv6 :=
  let address := (value.option_code % 256) :: value.address
  let padding := padding8 (2 + address.length)
  let address := address ++ List.replicate padding 0
  p.add_option ⟨OptionTypes.LINK_ADDRESS.code, address⟩

/-- `ICMPv6::naack` (setter). -/
def naack (p : ICMPv6) (value : naack_type) : ICMPv6 :=
  let buffer : List Nat := [value.code % 256, value.status % 256] ++ value.reserved.data
  p.add_option ⟨OptionTypes.NAACK.code, buffer⟩

/-- `ICMPv6::map` (setter). -/
def map (p : ICMPv6) (value : map_type) : ICMPv6 :=
  let buffer : List Nat :=
    [((value.dist <<< 4) ||| value.pref) % 256, (value.r <<< 7) % 256]
      ++ host_to_be32 value.valid_lifetime ++ value.address.data
  p.add_option ⟨OptionTypes.MAP.code, buffer⟩

/-- `ICMPv6::route_info` (setter): the vector is created with room for the padding, and
`buffer.insert` then adds `padding` more zero bytes behind the copied bytes. -/
def route_info (p : ICMPv6) (value : route_info_type) : ICMPv6 :=
  let padding := padding8 value.prefix_.length
  let buffer : List Nat := List.replicate (2 + 4 + value.prefix_.length + padding) 0
  let buffer := store buffer 0 [value.prefix_len % 256]
  let buffer := store buffer 1 [(value.pref <<< 3) % 256]
  let buffer := store buffer 2 (host_to_be32 value.route_lifetime)
  let buffer := store buffer (2 + 4) value.prefix_
  let out := 2 + 4 + value.prefix_.length
  let buffer := buffer.take out ++ List.replicate padding 0 ++ buffer.drop out
  p.add_option ⟨OptionTypes.ROUTE_INFO.code, buffer⟩

/-- `ICMPv6::recursive_dns_servers` (setter). -/
def recursive_dns_servers (p : ICMPv6) (value : recursive_dns_type) : ICMPv6 :=
  let buffer : List Nat := List.replicate (2 + 4 + value.servers.length * 16) 0
  let buffer := store buffer 2 (host_to_be32 value.lifetime)
  let r := value.servers.foldl
    (fun (acc : List Nat × Nat) it => (store acc.1 acc.2 it.data, acc.2 + 16)) (buffer, 2 + 4)
  p.add_option ⟨OptionTypes.RECURSIVE_DNS_SERV.code, r.1⟩

/-- `ICMPv6::handover_key_request` (setter). -/
def handover_key_request (p : ICMPv6) (value : handover_key_req_type) : ICMPv6 :=
  let padding := padding8 (value.key.length + 4)
  let buffer : List Nat := List.replicate (2 + value.key.length + padding) 0
  let buffer := store buffer 0 [padding]
  let buffer := store buffer 1 [(value.AT <<< 4) % 256]
  let buffer := store buffer 2 value.key
  let out := 2 + value.key.length
  let buffer := buffer.take out ++ List.replicate (buffer.length - out) 0
  p.add_option ⟨OptionTypes.HANDOVER_KEY_REQ.code, buffer⟩

/-- `ICMPv6::handover_key_reply` (setter). -/
def handover_key_reply (p : ICMPv6) (value : handover_key_reply_type) : ICMPv6 :=
  let data_size := (value.key.length + 2 + 2) % 4294967296
  let padding := padding8 (data_size + 2)
  let buffer : List Nat := List.replicate (data_size + padding) 0
  let buffer := store buffer 0 [padding]
  let buffer := store buffer 1 [(value.AT <<< 4) % 256]
  let buffer := store buffer 2 (host_to_be16 value.lifetime)
  let buffer := store buffer (2 + 2) value.key
  let out := 2 + 2 + value.key.length
  let buffer := buffer.take out ++ List.replicate (buffer.length - out) 0
  p.add_option ⟨OptionTypes.HANDOVER_KEY_REPLY.code, buffer⟩

/-- `ICMPv6::handover_assist_info` (setter): as in `route_info`, `buffer.insert` adds
`padding` zero bytes to a vector that already has room for the padding. -/
def handover_assist_info (p : ICMPv6) (value : handover_assist_info_type) : ICMPv6 :=
  let data_size := (value.hai.length + 2) % 4294967296
  let padding := padding8 (data_size + 2)
  let buffer : List Nat := List.replicate (data_size + padding) 0
  let buffer := store buffer 0 [value.option_code % 256]
  let buffer := store buffer 1 [value.hai.length % 256]
  let buffer := store buffer 2 value.hai
  let out := 2 + value.hai.length
  let buffer := buffer.take out ++ List.replicate padding 0 ++ buffer.drop out
  p.add_option ⟨OptionTypes.HANDOVER_ASSIST_INFO.code, buffer⟩

/-- `ICMPv6::mobile_node_identifier` (setter), the same code shape as `handover_assist_info`. -/
def mobile_node_identifier (p : ICMPv6) (value : mobile_node_id_type) : ICMPv6 :=
  let data_size := (value.mn.length + 2) % 4294967296
  let padding := padding8 (data_size + 2)
  let buffer : List Nat := List.replicate (data_size + padding) 0
  let buffer := store buffer 0 [value.option_code % 256]
  let buffer := store buffer 1 [value.mn.length % 256]
  let buffer := store buffer 2 value.mn
  let out := 2 + value.mn.length
  let buffer := buffer.take out ++ List.replicate padding 0 ++ buffer.drop out
  p.add_option ⟨OptionTypes.MOBILE_NODE_ID.code, buffer⟩

/-- `ICMPv6::dns_search_list` (setter). -/
def dns_search_list (p : ICMPv6) (value : dns_search_list_type) : ICMPv6 :=
  let buffer : List Nat := List.replicate (2 + 4) 0
  let buffer := store buffer 2 (host_to_be32 value.lifetime)
  let buffer := value.domains.foldl (fun buf it => buf ++ encode_labels it [] ++ [0]) buffer
  let padding := padding8 (buffer.length + 2)
  let buffer := buffer ++ List.replicate padding 0
  p.add_option ⟨OptionTypes.DNS_SEARCH_LIST.code, buffer⟩

end ICMPv6

/-! ## Wire images used to state the properties -/

/-- The octets `write_option` emits for one record: kind, length octet, payload. -/
def option_wire (o : PDUOption) : List Nat :=
  [o.option, (o.length_field + 2) / 8 % 256] ++ o.data

/-- The octets of a list of records, in list order. -/
def options_wire : List PDUOption → List Nat
  | [] => []
  | o :: os => option_wire o ++ options_wire os

/-- The sum over the records of `|payload| + 2`. -/
def options_total : List PDUOption → Nat
  | [] => 0
  | o :: os => (o.data.length + 2) + options_total os

/-- A record as the wire format requires it: `|payload| + 2` is a multiple of eight and
fits the one-octet length field (at most 255 units of eight octets). -/
def PDUOption.padded (o : PDUOption) : Prop :=
  (o.data.length + 2) % 8 = 0 ∧ o.data.length + 2 ≤ 2040

instance (o : PDUOption) : Decidable o.padded := by
  unfold PDUOption.padded; infer_instance

/-- The option-bearing message types. -/
def option_bearing (t : Nat) : Bool :=
  t == ROUTER_SOLICIT || t == ROUTER_ADVERT || t == NEIGHBOUR_SOLICIT
    || t == NEIGHBOUR_ADVERT || t == REDIRECT

/-- The size of the fixed part of a message of type `t`: header and tail, target address,
destination address, router-advert timers. -/
def fixed_part_size (t : Nat) : Nat :=
  8 + (if t = NEIGHBOUR_SOLICIT ∨ t = NEIGHBOUR_ADVERT ∨ t = REDIRECT then 16 else 0)
    + (if t = REDIRECT then 16 else 0) + (if t = ROUTER_ADVERT then 8 else 0)

/-- The octets of the fixed part of a PDU. -/
def ICMPv6.fixed_wire (p : ICMPv6) : List Nat :=
  p.header.bytes
    ++ (if p.has_target_addr then p.target_address.data else [])
    ++ (if p.has_dest_addr then p.dest_address.data else [])
    ++ (if p.type == ROUTER_ADVERT then p.reach_time.data ++ p.retrans_timer.data else [])

/-- The octets `write_serialization` emits before the inner payload: header, target and
destination address, timers, options. -/
def ICMPv6.fields_wire (p : ICMPv6) : List Nat :=
  p.fixed_wire ++ options_wire p.options

/-- The first part of the parsing constructor, up to the timers. -/
def ICMPv6.read_fixed (buffer : List Nat) : Except Error (ICMPv6 × InputMemoryStream) := do
  let (hdr, s0) ← ICMPv6.read_header buffer
  let p0 : ICMPv6 := { ICMPv6.from_type 0 with header := hdr }
  let (target, s1) ←
    (if p0.has_target_addr then InputMemoryStream.read_vec s0 16
      else pure (p0.target_address, s0))
  let (dest, s2) ←
    (if p0.has_dest_addr then InputMemoryStream.read_vec s1 16
      else pure (p0.dest_address, s1))
  let (reach, retrans, s3) ←
    (if p0.type == ROUTER_ADVERT then
      (InputMemoryStream.read_vec s2 4 >>= fun (r, t) =>
        InputMemoryStream.read_vec t 4 >>= fun (r2, t2) => pure (r, r2, t2))
      else pure (p0.reach_time, p0.retrans_timer, s2))
  let p1 : ICMPv6 :=
    { p0 with target_address := target, dest_address := dest,
              reach_time := reach, retrans_timer := retrans }
  pure (p1, s3)

/-- The last part of the parsing constructor: extensions and inner payload. -/
def ICMPv6.read_rest (E : ExtensionParser) (p2 : ICMPv6) (s4 : InputMemoryStream) : ICMPv6 :=
  let r := ICMPv6.try_parse_extensions E p2 s4
  if r.2 ≠ [] then { r.1 with inner_pdu := some r.2 } else r.1

/-- The cached counter agrees with the option list (as a `uint32_t`). -/
def ICMPv6.counter_ok (p : ICMPv6) : Prop :=
  p.options_size = options_total p.options % 4294967296

instance (p : ICMPv6) : Decidable p.counter_ok := by
  unfold ICMPv6.counter_ok; infer_instance

/-- The inner payload bytes, none when there is no inner PDU. -/
def ICMPv6.inner_bytes (p : ICMPv6) : List Nat := p.inner_pdu.getD []

/-- The inner payload size rounded up to a multiple of eight. -/
def pad8 (n : Nat) : Nat := (n + 7) / 8 * 8

/-- The inner payload size padded to a multiple of eight; zero without inner payload. -/
def ICMPv6.padded_inner (p : ICMPv6) : Nat :=
  match p.inner_pdu with
  | none => 0
  | some inner => pad8 inner.length

/-- The number of octets of the serialized PDU, computed without machine arithmetic:
emitted fields, inner payload, and (with extensions) padding and extension structure. -/
def ICMPv6.wire_size (p : ICMPv6) : Nat :=
  p.fields_wire.length + p.inner_bytes.length
    + (if p.has_extensions then
        p.extensions.serialized.length
          + (if p.inner_pdu.isSome then max (pad8 p.inner_bytes.length) 128 - p.inner_bytes.length
             else 0)
       else 0)

/-- Every number stored in the PDU is an octet. -/
def ICMPv6.octets (p : ICMPv6) : Prop :=
  Bytes p.header.bytes ∧ Bytes p.target_address.data ∧ Bytes p.dest_address.data
    ∧ Bytes p.reach_time.data ∧ Bytes p.retrans_timer.data
    ∧ (∀ o ∈ p.options, o.option < 256 ∧ Bytes o.data)
    ∧ Bytes p.extensions.serialized ∧ Bytes p.inner_bytes

instance (p : ICMPv6) : Decidable p.octets := by
  unfold ICMPv6.octets; infer_instance

/-- The 40-octet IPv6 pseudo-header: source address, destination address, upper-layer
length as a 32-bit big-endian value, three zero octets and the next-header value. -/
def pseudo_header (src dst : ipaddress_type) (len next_header : Nat) : List Nat :=
  src.data ++ dst.data ++ host_to_be32 len ++ [0, 0, 0, next_header]

/-- The 16-bit one's-complement sum of a byte string: the sum of its 16-bit big-endian
words with the carries folded back in. -/
def ones_complement_sum (bytes : List Nat) : Nat := fold_carries (words16 bytes).sum

/-- The setter call that leads from `p` to `q` appended one record whose size
`|payload| + 2` is a multiple of eight. -/
def appends_padded (p q : ICMPv6) : Prop :=
  ∃ rec : PDUOption, q.options = p.options ++ [rec] ∧ (rec.data.length + 2) % 8 = 0

/-- The PDUs that can be built: from a type alone or by a successful parse, then by any
sequence of `add_option`, `remove_option` and typed option setters. -/
inductive Reachable (E : ExtensionParser) : ICMPv6 → Prop where
  | from_type (tp : Nat) : Reachable E (ICMPv6.from_type tp)
  | from_buffer (b : List Nat) (p : ICMPv6) : ICMPv6.from_buffer E b = .ok p → Reachable E p
  | add_option (p : ICMPv6) (o : PDUOption) : Reachable E p → Reachable E (p.add_option o)
  | remove_option (p : ICMPv6) (t : Nat) : Reachable E p → Reachable E (p.remove_option t).2
  | source_link_layer_addr (p : ICMPv6) (v : hwaddress_type) :
      Reachable E p → Reachable E (p.source_link_layer_addr v)
  | target_link_layer_addr (p : ICMPv6) (v : hwaddress_type) :
      Reachable E p → Reachable E (p.target_link_layer_addr v)
  | prefix_info (p : ICMPv6) (v : prefix_info_type) :
      Reachable E p → Reachable E (p.prefix_info v)
  | redirect_header (p : ICMPv6) (v : List Nat) :
      Reachable E p → Reachable E (p.redirect_header v)
  | mtu (p : ICMPv6) (v : mtu_type) : Reachable E p → Reachable E (p.mtu v)
  | shortcut_limit (p : ICMPv6) (v : shortcut_limit_type) :
      Reachable E p → Reachable E (p.shortcut_limit v)
  | new_advert_interval (p : ICMPv6) (v : new_advert_interval_type) :
      Reachable E p → Reachable E (p.new_advert_interval v)
  | new_home_agent_info (p q : ICMPv6) (v : List Nat) :
      Reachable E p → p.new_home_agent_info v = .ok q → Reachable E q
  | source_addr_list (p : ICMPv6) (v : addr_list_type) :
      Reachable E p → Reachable E (p.source_addr_list v)
  | target_addr_list (p : ICMPv6) (v : addr_list_type) :
      Reachable E p → Reachable E (p.target_addr_list v)
  | rsa_signature (p : ICMPv6) (v : rsa_sign_type) :
      Reachable E p → Reachable E (p.rsa_signature v)
  | timestamp (p : ICMPv6) (v : timestamp_type) :
      Reachable E p → Reachable E (p.timestamp v)
  | nonce (p : ICMPv6) (v : List Nat) : Reachable E p → Reachable E (p.nonce v)
  | ip_prefix_option (p : ICMPv6) (v : ip_prefix_type) :
      Reachable E p → Reachable E (ICMPv6.ip_prefix p v)
  | link_layer_addr (p : ICMPv6) (v : lladdr_type) :
      Reachable E p → Reachable E (p.link_layer_addr v)
  | naack (p : ICMPv6) (v : naack_type) : Reachable E p → Reachable E (p.naack v)
  | map (p : ICMPv6) (v : map_type) : Reachable E p → Reachable E (p.map v)
  | route_info (p : ICMPv6) (v : route_info_type) :
      Reachable E p → Reachable E (p.route_info v)
  | recursive_dns_servers (p : ICMPv6) (v : recursive_dns_type) :
      Reachable E p → Reachable E (p.recursive_dns_servers v)
  | handover_key_request (p : ICMPv6) (v : handover_key_req_type) :
      Reachable E p → Reachable E (p.handover_key_request v)
  | handover_key_reply (p : ICMPv6) (v : handover_key_reply_type) :
      Reachable E p → Reachable E (p.handover_key_reply v)
  | handover_assist_info (p : ICMPv6) (v : handover_assist_info_type) :
      Reachable E p → Reachable E (p.handover_assist_info v)
  | mobile_node_identifier (p : ICMPv6) (v : mobile_node_id_type) :
      Reachable E p → Reachable E (p.mobile_node_identifier v)
  | dns_search_list (p : ICMPv6) (v : dns_search_list_type) :
      Reachable E p → Reachable E (p.dns_search_list v)

/-! ## Typed option decoders -/

/-- The fixed-size array copied from the first `n` bytes at `ptr`; every caller has checked
that the bytes exist, so the zero fill is never seen. -/
def ByteVec.read (n : Nat) (ptr : List Nat) : ByteVec n :=
  ⟨(ptr ++ List.replicate n 0).take n, by simp [List.length_take]⟩

/-- The value of a `uint32_t` whose memory image is `bs`, on a host of the given byte order:
the result of `memcpy(&x, ptr, sizeof(uint32_t))` without conversion. -/
def memcpy_uint (little_endian : Bool) (bs : List Nat) : Nat :=
  if little_endian then be_to_host bs.reverse else be_to_host bs

/-- The loop `while (ptr < end) { addresses.push_back(ptr); ptr += 16; }` of
`addr_list_type::from_option`; the argument is the bytes from `ptr` to `end`. -/
def read_addresses : List Nat → List ipaddress_type
  | [] => []
  | b :: rest => ByteVec.read 16 (b :: rest) :: read_addresses ((b :: rest).drop 16)
termination_by s => s.length
decreasing_by simp [List.length_drop]; omega

/-- `ICMPv6::addr_list_type::from_option`. -/
def addr_list_type.from_option (opt : PDUOption) : Except Error addr_list_type :=
  if opt.data_size < 6 + 16 ∨ (opt.data_size - 6) % 16 ≠ 0 then .error .malformed_option
  else .ok ⟨ByteVec.read 6 opt.data, read_addresses (opt.data.drop 6)⟩

/-- `ICMPv6::naack_type::from_option`; the constructor `naack_type(code, status)` leaves
`reserved` zeroed. -/
def naack_type.from_option (opt : PDUOption) : Except Error naack_type :=
  if opt.data_size ≠ 6 then .error .malformed_option
  else .ok ⟨opt.data.getD 0 0, opt.data.getD 1 0, ByteVec.zero 4⟩

/-- `ICMPv6::lladdr_type::from_option`. -/
def lladdr_type.from_option (opt : PDUOption) : Except Error lladdr_type :=
  if opt.data_size < 2 then .error .malformed_option
  else .ok ⟨opt.data.getD 0 0, opt.data.drop 1⟩

/-- `ICMPv6::prefix_info_type::from_option`. -/
def prefix_info_type.from_option (opt : PDUOption) : Except Error prefix_info_type :=
  if opt.data_size ≠ 2 + 4 * 3 + 16 then .error .malformed_option
  else
    let ptr := opt.data
    let prefix_len := ptr.getD 0 0
    let ptr := ptr.drop 1
    let L := (ptr.getD 0 0 >>> 7) &&& 1
    let A := (ptr.getD 0 0 >>> 6) &&& 1
    let ptr := ptr.drop 1
    let valid_lifetime := be_to_host (ptr.take 4)
    let ptr := ptr.drop 4
    let preferred_lifetime := be_to_host (ptr.take 4)
    .ok ⟨prefix_len, A, L, valid_lifetime, preferred_lifetime, ByteVec.read 16 (ptr.drop (4 * 2))⟩

/-- `ICMPv6::rsa_sign_type::from_option`. -/
def rsa_sign_type.from_option (opt : PDUOption) : Except Error rsa_sign_type :=
  if opt.data_size < 2 + 16 + 1 then .error .malformed_option
  else
    let ptr := opt.data.drop 2
    .ok ⟨ByteVec.read 16 ptr, ptr.drop 16⟩

/-- `ICMPv6::ip_prefix_type::from_option`. -/
def ip_prefix_type.from_option (opt : PDUOption) : Except Error ip_prefix_type :=
  if opt.data_size ≠ 2 + 4 + 16 then .error .malformed_option
  else
    let ptr := opt.data
    .ok ⟨ptr.getD 0 0, ptr.getD 1 0, ByteVec.read 16 (ptr.drop (2 + 4))⟩

/-- `ICMPv6::map_type::from_option`.  The four lifetime bytes are copied into the `uint32_t`
with `memcpy` and not converted, so the value depends on the byte order of the host. -/
def map_type.from_option (little_endian : Bool) (opt : PDUOption) : Except Error map_type :=
  if opt.data_size ≠ 2 + 4 + 16 then .error .malformed_option
  else
    let ptr := opt.data
    let dist := (ptr.getD 0 0 >>> 4) &&& 0x0f
    let pref := ptr.getD 0 0 &&& 0x0f
    let ptr := ptr.drop 1
    let r := (ptr.getD 0 0 >>> 7) &&& 0x01
    let ptr := ptr.drop 1
    let valid_lifetime := memcpy_uint little_endian (ptr.take 4)
    let ptr := ptr.drop 4
    .ok ⟨dist, pref, r, valid_lifetime, ByteVec.read 16 ptr⟩

/-- `ICMPv6::route_info_type::from_option`. -/
def route_info_type.from_option (opt : PDUOption) : Except Error route_info_type :=
  if opt.data_size < 2 + 4 then .error .malformed_option
  else
    let ptr := opt.data
    let prefix_len := ptr.getD 0 0
    let ptr := ptr.drop 1
    let pref := (ptr.getD 0 0 >>> 3) &&& 0x3
    let ptr := ptr.drop 1
    let route_lifetime := be_to_host (ptr.take 4)
    let ptr := ptr.drop 4
    .ok ⟨prefix_len, pref, route_lifetime, ptr⟩

/-- The loop of `recursive_dns_type::from_option` over the bytes from `ptr` to `end`. -/
def read_servers : List Nat → List ipaddress_type → Except Error (List ipaddress_type)
  | [], servers => .ok servers
  | b :: rest, servers =>
    if (b :: rest).length < 16 then .error .option_not_found
    else read_servers ((b :: rest).drop 16) (servers ++ [ByteVec.read 16 (b :: rest)])
termination_by s => s.length
decreasing_by simp [List.length_drop]; omega

/-- `ICMPv6::recursive_dns_type::from_option`. -/
def recursive_dns_type.from_option (opt : PDUOption) : Except Error recursive_dns_type :=
  if opt.data_size < 2 + 4 + 16 then .error .malformed_option
  else
    let ptr := opt.data.drop 2
    let lifetime := be_to_host (ptr.take 4)
    let ptr := ptr.drop 4
    match read_servers ptr [] with
    | .error e => .error e
    | .ok servers => .ok ⟨lifetime, servers⟩

/-- `ICMPv6::handover_key_req_type::from_option`. -/
def handover_key_req_type.from_option (opt : PDUOption) : Except Error handover_key_req_type :=
  if opt.data_size < 2 + 4 then .error .option_not_found
  else
    let ptr := opt.data.drop 1
    let AT := (ptr.getD 0 0 >>> 4) &&& 0x3
    let ptr := ptr.drop 1
    if ptr.length < opt.data.getD 0 0 then .error .malformed_option
    else .ok ⟨AT, ptr.take (ptr.length - opt.data.getD 0 0)⟩

/-- `ICMPv6::handover_key_reply_type::from_option`. -/
def handover_key_reply_type.from_option (opt : PDUOption) :
    Except Error handover_key_reply_type :=
  if opt.data_size < 2 + 4 then .error .malformed_option
  else
    let ptr := opt.data.drop 1
    let AT := (ptr.getD 0 0 >>> 4) &&& 0x3
    let ptr := ptr.drop 1
    let lifetime := be_to_host (ptr.take 2)
    let ptr := ptr.drop 2
    if ptr.length < opt.data.getD 0 0 then .error .malformed_option
    else .ok ⟨AT, ptr.take (ptr.length - opt.data.getD 0 0), lifetime⟩

/-- `ICMPv6::handover_assist_info_type::from_option`. -/
def handover_assist_info_type.from_option (opt : PDUOption) :
    Except Error handover_assist_info_type :=
  if opt.data_size < 2 then .error .malformed_option
  else
    let ptr := opt.data
    let option_code := ptr.getD 0 0
    let ptr := ptr.drop 1
    if ptr.length - 1 < ptr.getD 0 0 then .error .malformed_option
    else .ok ⟨option_code, (ptr.drop 1).take (ptr.getD 0 0)⟩

/-- `ICMPv6::mobile_node_id_type::from_option`. -/
def mobile_node_id_type.from_option (opt : PDUOption) : Except Error mobile_node_id_type :=
  if opt.data_size < 2 then .error .malformed_option
  else
    let ptr := opt.data
    let option_code := ptr.getD 0 0
    let ptr := ptr.drop 1
    if ptr.length - 1 < ptr.getD 0 0 then .error .malformed_option
    else .ok ⟨option_code, (ptr.drop 1).take (ptr.getD 0 0)⟩

/-- The two nested loops of `dns_search_list_type::from_option` over the bytes from `ptr` to
`end`.  With `domain = none` the function stands at the test of the outer `while`, with
`domain = some d` at the test of the inner `while`, `d` being the domain read so far.  When
the inner loop ends the decoder throws if a non-zero length octet is left, else it stores the
domain, steps over one byte and returns to the outer test. -/
def read_domains : List Nat → Option (List Nat) → List (List Nat) →
    Except Error (List (List Nat))
  | [], none, domains => .ok domains
  | [], some domain, domains => .ok (domains ++ [domain])
  | len :: rest, none, domains =>
    if len = 0 then .ok domains
    else if len < (len :: rest).length then
      read_domains (rest.drop len) (some (rest.take len)) domains
    else .error .option_not_found
  | len :: rest, some domain, domains =>
    if len ≠ 0 ∧ len < (len :: rest).length then
      read_domains (rest.drop len)
        (some ((if domain ≠ [] then domain ++ [46] else domain) ++ rest.take len)) domains
    else if len ≠ 0 then .error .option_not_found
    else read_domains rest none (domains ++ [domain])
termination_by s => s.length
decreasing_by all_goals (simp [List.length_drop]; try omega)

/-- `ICMPv6::dns_search_list_type::from_option`. -/
def dns_search_list_type.from_option (opt : PDUOption) : Except Error dns_search_list_type :=
  if opt.data_size < 2 + 4 then .error .malformed_option
  else
    let ptr := opt.data
    let lifetime := be_to_host ((ptr.drop 2).take 4)
    let ptr := ptr.drop (2 + 4)
    match read_domains ptr none [] with
    | .error e => .error e
    | .ok domains => .ok ⟨lifetime, domains⟩

/-- `ICMPv6::timestamp_type::from_option`. -/
def timestamp_type.from_option (opt : PDUOption) : Except Error timestamp_type :=
  if opt.data_size ≠ 6 + 8 then .error .malformed_option
  else .ok ⟨ByteVec.read 6 opt.data, be_to_host ((opt.data.drop 6).take 8)⟩

/-- `ICMPv6::shortcut_limit_type::from_option`. -/
def shortcut_limit_type.from_option (opt : PDUOption) : Except Error shortcut_limit_type :=
  if opt.data_size ≠ 6 then .error .malformed_option
  else
    let ptr := opt.data
    .ok ⟨ptr.getD 0 0, ptr.getD 1 0, be_to_host ((ptr.drop 2).take 4)⟩

/-- `ICMPv6::new_advert_interval_type::from_option`. -/
def new_advert_interval_type.from_option (opt : PDUOption) :
    Except Error new_advert_interval_type :=
  if opt.data_size ≠ 6 then .error .malformed_option
  else .ok ⟨be_to_host (opt.data.take 2), be_to_host ((opt.data.drop 2).take 4)⟩

/-! ## Domain names on the wire -/

/-- A domain name that consists of labels of 1 to 255 characters separated by single dots:
the name is not empty, has no empty label (no leading, trailing or doubled dot) and every
label is shorter than 256 characters.  The second argument is the number of characters of
the current label read so far. -/
def well_formed_name : List Nat → Nat → Bool
  | [], n => decide (0 < n ∧ n < 256)
  | c :: rest, n =>
    if c = 46 then decide (0 < n ∧ n < 256) && well_formed_name rest 0
    else well_formed_name rest (n + 1)

/-- The octets the `dns_search_list` setter writes for a list of names: for every name its
labels and the zero delimiter. -/
def names_wire : List (List Nat) → List Nat
  | [] => []
  | name :: rest => encode_labels name [] ++ [0] ++ names_wire rest

/-! ## The DNS search list decoder with its memory reads -/

/-- The two nested loops of `dns_search_list_type::from_option` with the pointer as an index
into the payload (`end` is the payload size) and the list of the indices the code reads:
every `*ptr` the tests evaluate, and the bytes `ptr + 1 .. ptr + *ptr` of a copied label.
`domain` has the meaning it has in `read_domains`. -/
def read_domains_at (data : List Nat) (ptr : Nat) (domain : Option (List Nat))
    (domains : List (List Nat)) (reads : List Nat) :
    Except Error (List (List Nat)) × List Nat :=
  if _h : ptr < data.length then
    let len := data.getD ptr 0
    match domain with
    | none =>
      if len = 0 then (.ok domains, reads ++ [ptr])
      else if len < data.length - ptr then
        read_domains_at data (ptr + len + 1) (some ((data.drop (ptr + 1)).take len)) domains
          (reads ++ [ptr] ++ List.range' (ptr + 1) len)
      else (.error .option_not_found, reads ++ [ptr])
    | some domain =>
      if len ≠ 0 ∧ len < data.length - ptr then
        read_domains_at data (ptr + len + 1)
          (some ((if domain ≠ [] then domain ++ [46] else domain)
            ++ (data.drop (ptr + 1)).take len)) domains
          (reads ++ [ptr] ++ List.range' (ptr + 1) len)
      else if len ≠ 0 then (.error .option_not_found, reads ++ [ptr])
      else read_domains_at data (ptr + 1) none (domains ++ [domain]) (reads ++ [ptr])
  else
    match domain with
    | none => (.ok domains, reads)
    | some domain => (.ok (domains ++ [domain]), reads)
termination_by data.length + 1 - ptr
decreasing_by all_goals omega

/-- `ICMPv6::dns_search_list_type::from_option` with the indices of the payload it reads; the
`memcpy` of the lifetime reads the indices 2 to 5. -/
def dns_search_list_type.from_option_reads (opt : PDUOption) :
    Except Error dns_search_list_type × List Nat :=
  if opt.data_size < 2 + 4 then (.error .malformed_option, [])
  else
    let lifetime := be_to_host ((opt.data.drop 2).take 4)
    let r := read_domains_at opt.data (2 + 4) none [] [2, 3, 4, 5]
    match r.1 with
    | .error e => (.error e, r.2)
    | .ok domains => (.ok ⟨lifetime, domains⟩, r.2)

/-! ## Sample values -/

/-- A TIME_EXCEEDED message with a zero length octet and 130 payload bytes. -/
def time_exceeded_sample : List Nat := [3, 0, 0, 0, 0, 0, 0, 0] ++ List.replicate 130 7

/-- The loopback address `::1`. -/
def loopback : ipaddress_type := ⟨[0, 0, 0, 0, 0, 0, 0, 0, 0, 0, 0, 0, 0, 0, 0, 1], rfl⟩

/-- The echo request of identifier 0x1234 and sequence 7. -/
def echo_request_sample : ICMPv6 :=
  { ICMPv6.from_type ECHO_REQUEST with header := ⟨128, 0, 0, 0, 18, 52, 0, 7⟩ }

/-- An extension structure of eight octets: the four-octet header and one extension object
of four octets. -/
def extension_sample : ICMPExtensionsStructure :=
  ⟨[[0, 4, 1, 1]], [32, 0, 222, 250, 0, 4, 1, 1]⟩

/-- A TIME_EXCEEDED message with a 40-byte inner payload, an 8-byte extension structure and
a zero length octet. -/
def time_exceeded_ext_sample : ICMPv6 :=
  { ICMPv6.from_type TIME_EXCEEDED with
    extensions := extension_sample, inner_pdu := some (List.replicate 40 7) }

/-- A TIME_EXCEEDED message with an extension structure and one byte of inner payload. -/
def time_exceeded_one_byte : ICMPv6 :=
  { ICMPv6.from_type TIME_EXCEEDED with extensions := extension_sample, inner_pdu := some [69] }

/-- A TIME_EXCEEDED message with an extension structure and 129 bytes of inner payload. -/
def time_exceeded_129_bytes : ICMPv6 :=
  { ICMPv6.from_type TIME_EXCEEDED with
    extensions := extension_sample, inner_pdu := some (List.replicate 129 69) }

/-- A neighbour solicitation for `fe80::1` with a source link-layer address option and a
stored checksum 0xABCD. -/
def neighbour_solicit_sample : ICMPv6 :=
  { ICMPv6.from_type NEIGHBOUR_SOLICIT with
    header := ⟨135, 0, 171, 205, 0, 0, 0, 0⟩
    target_address := ⟨[254, 128, 0, 0, 0, 0, 0, 0, 0, 0, 0, 0, 0, 0, 0, 1], rfl⟩
    options := [⟨1, [0, 17, 34, 51, 68, 85]⟩]
    options_size := 8 }

/-- A redirect with target `fe80::2` and destination `2001:db8::1`, no options. -/
def redirect_sample : ICMPv6 :=
  { ICMPv6.from_type REDIRECT with
    target_address := ⟨[254, 128, 0, 0, 0, 0, 0, 0, 0, 0, 0, 0, 0, 0, 0, 2], rfl⟩
    dest_address := ⟨[32, 1, 13, 184, 0, 0, 0, 0, 0, 0, 0, 0, 0, 0, 0, 1], rfl⟩ }

/-! # Theorems -/

open ICMPv6

/-! ## Output stream -/

theorem store_length (buf : List Nat) (off : Nat) (bs : List Nat) :
    (store buf off bs).length = buf.length := by
  simp only [store, List.length_take, List.length_append, List.length_drop]
  omega

theorem store_append (w bs rest : List Nat) (h : bs.length ≤ rest.length) :
    store (w ++ rest) w.length bs = w ++ bs ++ rest.drop bs.length := by
  unfold store
  have h1 : (w ++ rest).take w.length = w := by simp
  have h2 : (w ++ rest).drop (w.length + bs.length) = rest.drop bs.length := by
    rw [List.drop_append]
  rw [h1, h2]
  apply List.take_of_length_le
  simp only [List.length_append, List.length_drop]
  omega

theorem write_append (w bs rest : List Nat) :
    OutputMemoryStream.write ⟨w ++ rest, w.length⟩ bs =
      if bs.length ≤ rest.length then
        .ok ⟨(w ++ bs) ++ rest.drop bs.length, (w ++ bs).length⟩
      else .error .serialization_error := by
  unfold OutputMemoryStream.write
  by_cases h : bs.length ≤ rest.length
  · have h3 : ¬ ((w ++ rest).length - w.length < bs.length) := by
      simp only [List.length_append]; omega
    rw [if_neg h3, if_pos h, store_append w bs rest h]
    simp
  · have h3 : (w ++ rest).length - w.length < bs.length := by
      simp only [List.length_append]; omega
    rw [if_pos h3, if_neg h]


theorem store_nil (buf : List Nat) (off : Nat) : store buf off [] = buf := by
  unfold store
  simp

theorem write_nil (s : OutputMemoryStream) : s.write [] = .ok s := by
  unfold OutputMemoryStream.write
  simp [store_nil]

/-- Two writes in a row are one write of the concatenation. -/
theorem write_write (s : OutputMemoryStream) (a b : List Nat) :
    (s.write a >>= fun t => t.write b) = s.write (a ++ b) := by
  by_cases hp : s.pos ≤ s.buffer.length
  · obtain ⟨buf, pos⟩ := s
    simp only at hp
    have hb : buf = buf.take pos ++ buf.drop pos := (List.take_append_drop pos buf).symm
    have hl : (buf.take pos).length = pos := by simp [List.length_take, hp]
    generalize buf.take pos = w at hb hl
    generalize buf.drop pos = rest at hb
    subst hb hl
    rw [write_append, write_append]
    by_cases h1 : a.length ≤ rest.length
    · rw [if_pos h1]
      simp only [bind, Except.bind]
      rw [write_append]
      by_cases h2 : b.length ≤ (rest.drop a.length).length
      · have h3 : (a ++ b).length ≤ rest.length := by
          simp only [List.length_append, List.length_drop] at *; omega
        rw [if_pos h2, if_pos h3]
        simp [List.append_assoc, Nat.add_comm]
      · have h3 : ¬ (a ++ b).length ≤ rest.length := by
          simp only [List.length_append, List.length_drop] at *; omega
        rw [if_neg h2, if_neg h3]
    · have h3 : ¬ (a ++ b).length ≤ rest.length := by
        simp only [List.length_append] at *; omega
      rw [if_neg h1, if_neg h3]
      rfl
  · have h0 : s.buffer.length - s.pos = 0 := by omega
    unfold OutputMemoryStream.write
    simp only [h0, List.length_append]
    cases a with
    | nil =>
      cases b with
      | nil => simp [bind, Except.bind, store_nil, store_length, h0]
      | cons y b => simp [bind, Except.bind, store_nil, store_length, h0]
    | cons x a => simp [bind, Except.bind]


theorem write_option_eq (o : PDUOption) (s : OutputMemoryStream) :
    write_option o s = s.write (option_wire o) := by
  unfold write_option option_wire
  simp only [write_write]
  rfl

theorem write_options_eq (os : List PDUOption) (s : OutputMemoryStream) :
    write_options os s = s.write (options_wire os) := by
  induction os generalizing s with
  | nil => simp [write_options, options_wire, write_nil]
  | cons o os ih =>
    simp only [write_options, options_wire, write_option_eq]
    rw [← write_write]
    simp only [ih]

theorem write_if (c : Bool) (s : OutputMemoryStream) (x : List Nat) :
    (if c then s.write x else pure s) = s.write (if c then x else []) := by
  cases c <;> simp [write_nil, pure, Except.pure]

theorem write_fields_eq (p : ICMPv6) (s : OutputMemoryStream) :
    write_fields p s = s.write p.fields_wire := by
  unfold write_fields fields_wire fixed_wire
  simp only [write_options_eq]
  split_ifs <;>
    simp only [pure_bind, write_write, List.append_assoc, List.append_nil, List.nil_append]

/-! ## Parsing -/

theorem parse_options_step (o : PDUOption) (rest : List Nat) (p : ICMPv6) (h : o.padded) :
    parse_options (option_wire o ++ rest) p = parse_options rest (p.add_option o) := by
  obtain ⟨h1, h2⟩ := h
  unfold option_wire PDUOption.length_field
  simp only [List.cons_append, List.nil_append]
  rw [parse_options]
  have hL : (o.data.length + 2) / 8 % 256 * 8 % 4294967296 = o.data.length + 2 := by omega
  simp only [hL, InputMemoryStream.can_read]
  have h3 : ¬ (o.data.length + 2 < 2) := by omega
  simp [h3]

theorem parse_options_wire (os : List PDUOption) (p : ICMPv6) (h : ∀ o ∈ os, o.padded) :
    parse_options (options_wire os) p = .ok (os.foldl add_option p, []) := by
  induction os generalizing p with
  | nil => simp [options_wire, parse_options]
  | cons o os ih =>
    simp only [options_wire, List.foldl_cons]
    rw [parse_options_step o _ p (h o (by simp))]
    exact ih _ (fun o' ho' => h o' (by simp [ho']))

theorem parse_options_bad (os : List PDUOption) (kind len : Nat) (tail : List Nat) (p : ICMPv6)
    (h : ∀ o ∈ os, o.padded) (hlen : len < 256) (hbad : len = 0 ∨ tail.length < len * 8 - 2) :
    parse_options (options_wire os ++ kind :: len :: tail) p = .error .malformed_packet := by
  induction os generalizing p with
  | nil =>
    simp only [options_wire, List.nil_append]
    rw [parse_options]
    have hL : len * 8 % 4294967296 = len * 8 := by omega
    simp only [hL, InputMemoryStream.can_read]
    rcases hbad with h0 | h1
    · simp [h0]
    · by_cases h2 : len * 8 < 2
      · simp [h2]
      · simp [h2]
        omega
  | cons o os ih =>
    simp only [options_wire, List.append_assoc]
    rw [parse_options_step o _ p (h o (by simp))]
    exact ih _ (fun o' ho' => h o' (by simp [ho']))

theorem parse_options_inv (n : Nat) : ∀ (s : List Nat) (p p' : ICMPv6) (s' : List Nat),
    s.length ≤ n → Bytes s → parse_options s p = .ok (p', s') →
    ∃ os : List PDUOption, (∀ o ∈ os, o.padded) ∧ s = options_wire os
      ∧ p' = os.foldl add_option p ∧ s' = [] := by
  induction n with
  | zero =>
    intro s p p' s' hn _ h
    have hs : s = [] := List.length_eq_zero.mp (by omega)
    subst hs
    rw [parse_options] at h
    simp only [Except.ok.injEq, Prod.mk.injEq] at h
    exact ⟨[], by simp, by simp [options_wire], by simp [h.1], h.2.symm⟩
  | succ n ih =>
    intro s p p' s' hn hb h
    match s, hn, hb, h with
    | [], _, _, h =>
      rw [parse_options] at h
      simp only [Except.ok.injEq, Prod.mk.injEq] at h
      exact ⟨[], by simp, by simp [options_wire], by simp [h.1], h.2.symm⟩
    | [_], _, _, h =>
      rw [parse_options] at h
      simp at h
    | a :: b :: stream, hn, hb, h =>
      rw [parse_options] at h
      have hb256 : b < 256 := hb b (by simp)
      have hL : b * 8 % 4294967296 = b * 8 := by omega
      simp only [hL, InputMemoryStream.can_read] at h
      by_cases h1 : b * 8 < 2
      · simp [h1] at h
      · by_cases h2 : b * 8 - 2 ≤ stream.length
        · simp only [h1, if_false, h2, decide_True, Bool.not_true] at h
          simp only [Bool.false_eq_true, if_false] at h
          have hlen : (stream.drop (b * 8 - 2)).length ≤ n := by
            simp only [List.length_drop, List.length_cons] at *
            omega
          have hbs : Bytes (stream.drop (b * 8 - 2)) := by
            intro x hx
            exact hb x (by simp [List.mem_of_mem_drop hx])
          obtain ⟨os, hos, hw, hp, hs'⟩ := ih _ _ _ _ hlen hbs h
          have htl : (stream.take (b * 8 - 2)).length = b * 8 - 2 := by
            simp [List.length_take, h2]
          refine ⟨⟨a, stream.take (b * 8 - 2)⟩ :: os, ?_, ?_, ?_, hs'⟩
          · intro o ho
            rcases List.mem_cons.mp ho with rfl | ho
            · simp only [PDUOption.padded, htl]; omega
            · exact hos o ho
          · simp only [options_wire, option_wire, PDUOption.length_field, htl]
            have : (b * 8 - 2 + 2) / 8 % 256 = b := by omega
            rw [this, ← hw]
            simp
          · simp [hp]
        · simp [h1, h2] at h

theorem bind_ok {α β : Type} (x : Except Error α) (f : α → Except Error β) (r : β)
    (h : (x >>= f) = .ok r) : ∃ a, x = .ok a ∧ f a = .ok r := by
  cases x with
  | error e => simp [bind, Except.bind] at h
  | ok a => exact ⟨a, rfl, h⟩

theorem read_header_ok (b : List Nat) (hdr : icmp6hdr) (s : List Nat)
    (h : read_header b = .ok (hdr, s)) : b = hdr.bytes ++ s := by
  unfold read_header at h
  split at h
  · simp only [Except.ok.injEq, Prod.mk.injEq] at h
    obtain ⟨rfl, rfl⟩ := h
    simp [icmp6hdr.bytes]
  · simp at h

theorem read_header_total (b : List Nat) (h : 8 ≤ b.length) :
    ∃ hdr, read_header b = .ok (hdr, b.drop 8) := by
  match b, h with
  | t :: c :: k0 :: k1 :: a0 :: a1 :: a2 :: a3 :: rest, _ =>
    exact ⟨⟨t, c, k0, k1, a0, a1, a2, a3⟩, rfl⟩

theorem read_header_err (b : List Nat) (h : b.length < 8) :
    read_header b = .error .malformed_packet := by
  unfold read_header
  split
  · simp only [List.length_cons] at h
    omega
  · rfl

theorem read_vec_ok (s : List Nat) (n : Nat) (v : ByteVec n) (s' : List Nat)
    (h : InputMemoryStream.read_vec s n = .ok (v, s')) : s = v.data ++ s' := by
  unfold InputMemoryStream.read_vec at h
  split at h
  · simp only [Except.ok.injEq, Prod.mk.injEq] at h
    obtain ⟨rfl, rfl⟩ := h
    simp
  · simp at h

theorem read_vec_total (s : List Nat) (n : Nat) (h : n ≤ s.length) :
    ∃ v, InputMemoryStream.read_vec s n = .ok (v, s.drop n) := by
  unfold InputMemoryStream.read_vec
  simp [h]

theorem read_vec_err (s : List Nat) (n : Nat) (h : s.length < n) :
    InputMemoryStream.read_vec s n = .error .malformed_packet := by
  unfold InputMemoryStream.read_vec
  have : ¬ n ≤ s.length := by omega
  simp [this]

theorem fixed_wire_length (p : ICMPv6) : p.fixed_wire.length = fixed_part_size p.type := by
  unfold fixed_wire fixed_part_size has_target_addr has_dest_addr
  simp only [List.length_append, icmp6hdr.bytes, List.length_cons, List.length_nil]
  simp only [NEIGHBOUR_SOLICIT, NEIGHBOUR_ADVERT, REDIRECT, ROUTER_ADVERT, Bool.or_eq_true,
    beq_iff_eq]
  split_ifs <;> simp [ByteVec.size_eq] <;> omega

theorem cond_read_ok (c : Bool) (s : List Nat) (n : Nat) (d v : ByteVec n) (s' : List Nat)
    (h : (if c = true then InputMemoryStream.read_vec s n else pure (d, s)) = .ok (v, s')) :
    s = (if c = true then v.data else []) ++ s' := by
  cases c with
  | true => simpa using read_vec_ok _ _ _ _ h
  | false =>
    simp only [pure, Except.pure, Except.ok.injEq, Prod.mk.injEq, Bool.false_eq_true,
      if_false] at h
    simp [h.2]

theorem cond_read2_ok (c : Bool) (s : List Nat) (d1 d2 v1 v2 : ByteVec 4) (s' : List Nat)
    (h : (if c = true then
          (InputMemoryStream.read_vec s 4 >>= fun (r, t) =>
            InputMemoryStream.read_vec t 4 >>= fun (r2, t2) =>
              (pure (r, r2, t2) : Except Error (ByteVec 4 × ByteVec 4 × InputMemoryStream)))
        else pure (d1, d2, s)) = .ok (v1, v2, s')) :
    s = (if c = true then v1.data ++ v2.data else []) ++ s' := by
  cases c with
  | true =>
    simp only [if_true] at h
    obtain ⟨⟨r, t⟩, h4, h⟩ := bind_ok _ _ _ h
    dsimp only at h
    obtain ⟨⟨r2, t2⟩, h5, h⟩ := bind_ok _ _ _ h
    simp only [pure, Except.pure, Except.ok.injEq, Prod.mk.injEq] at h
    obtain ⟨rfl, rfl, rfl⟩ := h
    have e4 := read_vec_ok _ _ _ _ h4
    have e5 := read_vec_ok _ _ _ _ h5
    subst e5
    simpa using e4
  | false =>
    simp only [pure, Except.pure, Except.ok.injEq, Prod.mk.injEq, Bool.false_eq_true,
      if_false] at h
    simp [h.2.2]

theorem read_fixed_ok (b : List Nat) (p1 : ICMPv6) (s3 : List Nat)
    (h : read_fixed b = .ok (p1, s3)) :
    b = p1.fixed_wire ++ s3 ∧ p1.options = [] ∧ p1.options_size = 0
      ∧ p1.extensions = ⟨[], []⟩ ∧ p1.inner_pdu = none := by
  unfold read_fixed at h
  obtain ⟨⟨hdr, s0⟩, h0, h⟩ := bind_ok _ _ _ h
  dsimp only at h
  obtain ⟨⟨target, s1⟩, h1, h⟩ := bind_ok _ _ _ h
  dsimp only at h
  obtain ⟨⟨dest, s2⟩, h2, h⟩ := bind_ok _ _ _ h
  dsimp only at h
  obtain ⟨⟨reach, retrans, s3'⟩, h3, h⟩ := bind_ok _ _ _ h
  dsimp only at h
  simp only [pure, Except.pure, Except.ok.injEq, Prod.mk.injEq] at h
  obtain ⟨rfl, rfl⟩ := h
  have e0 := read_header_ok _ _ _ h0
  refine ⟨?_, rfl, rfl, rfl, rfl⟩
  subst e0
  have g1 := cond_read_ok _ _ _ _ _ _ h1
  have g2 := cond_read_ok _ _ _ _ _ _ h2
  have g3 := cond_read2_ok _ _ _ _ _ _ _ h3
  rw [g1, g2, g3]
  simp only [fixed_wire, has_target_addr, has_dest_addr, ICMPv6.type, List.append_assoc]

theorem bind_err {α β : Type} (x : Except Error α) (f : α → Except Error β) (e : Error)
    (h : (x >>= f) = .error e) : x = .error e ∨ ∃ a, x = .ok a ∧ f a = .error e := by
  cases x with
  | error e' =>
    simp only [bind, Except.bind, Except.error.injEq] at h
    exact Or.inl (by rw [h])
  | ok a => exact Or.inr ⟨a, rfl, h⟩

theorem read_header_err_inv (b : List Nat) (e : Error) (h : read_header b = .error e) :
    e = .malformed_packet ∧ b.length < 8 := by
  by_cases h8 : 8 ≤ b.length
  · obtain ⟨hdr, hh⟩ := read_header_total b h8
    rw [hh] at h
    simp at h
  · rw [read_header_err b (by omega)] at h
    simp only [Except.error.injEq] at h
    exact ⟨h.symm, by omega⟩

theorem read_vec_err_inv (s : List Nat) (n : Nat) (e : Error)
    (h : InputMemoryStream.read_vec s n = .error e) : e = .malformed_packet ∧ s.length < n := by
  by_cases hn : n ≤ s.length
  · obtain ⟨v, hh⟩ := read_vec_total s n hn
    rw [hh] at h
    simp at h
  · rw [read_vec_err s n (by omega)] at h
    simp only [Except.error.injEq] at h
    exact ⟨h.symm, by omega⟩

theorem cond_read_err (c : Bool) (s : List Nat) (n : Nat) (d : ByteVec n) (e : Error)
    (h : (if c = true then InputMemoryStream.read_vec s n else pure (d, s)) = .error e) :
    e = .malformed_packet ∧ c = true ∧ s.length < n := by
  cases c with
  | true =>
    simp only [if_true] at h
    exact ⟨(read_vec_err_inv _ _ _ h).1, rfl, (read_vec_err_inv _ _ _ h).2⟩
  | false => simp [pure, Except.pure] at h

theorem cond_read2_err (c : Bool) (s : List Nat) (d1 d2 : ByteVec 4) (e : Error)
    (h : (if c = true then
          (InputMemoryStream.read_vec s 4 >>= fun (r, t) =>
            InputMemoryStream.read_vec t 4 >>= fun (r2, t2) =>
              (pure (r, r2, t2) : Except Error (ByteVec 4 × ByteVec 4 × InputMemoryStream)))
        else pure (d1, d2, s)) = .error e) :
    e = .malformed_packet ∧ c = true ∧ s.length < 8 := by
  cases c with
  | true =>
    simp only [if_true] at h
    rcases bind_err _ _ _ h with h4 | ⟨⟨r, t⟩, h4, h⟩
    · have := read_vec_err_inv _ _ _ h4
      exact ⟨this.1, rfl, by omega⟩
    · dsimp only at h
      have e4 := read_vec_ok _ _ _ _ h4
      rcases bind_err _ _ _ h with h5 | ⟨⟨r2, t2⟩, h5, h⟩
      · have := read_vec_err_inv _ _ _ h5
        refine ⟨this.1, rfl, ?_⟩
        rw [e4]
        simp only [List.length_append, r.size_eq]
        omega
      · simp [pure, Except.pure] at h
  | false => simp [pure, Except.pure] at h

theorem headD_fixed_wire (p : ICMPv6) (s : List Nat) : (p.fixed_wire ++ s).headD 0 = p.type := by
  simp [fixed_wire, icmp6hdr.bytes, ICMPv6.type]

theorem read_fixed_err (b : List Nat) (e : Error) (h : read_fixed b = .error e) :
    e = .malformed_packet ∧ b.length < fixed_part_size (b.headD 0) := by
  unfold read_fixed at h
  rcases bind_err _ _ _ h with h0 | ⟨⟨hdr, s0⟩, h0, h⟩
  · have := read_header_err_inv _ _ h0
    exact ⟨this.1, by unfold fixed_part_size; omega⟩
  dsimp only at h
  have e0 := read_header_ok _ _ _ h0
  have hd : b.headD 0 = hdr.type := by rw [e0]; simp [icmp6hdr.bytes]
  have hl : b.length = 8 + s0.length := by rw [e0]; simp [icmp6hdr.bytes]; omega
  rw [hd, hl]
  simp only [has_target_addr, has_dest_addr, ICMPv6.type] at h
  rcases bind_err _ _ _ h with h1 | ⟨⟨target, s1⟩, h1, h⟩
  · obtain ⟨he, hc, hlt⟩ := cond_read_err _ _ _ _ _ h1
    refine ⟨he, ?_⟩
    simp only [Bool.or_eq_true, beq_iff_eq] at hc
    simp only [fixed_part_size, NEIGHBOUR_SOLICIT, NEIGHBOUR_ADVERT, REDIRECT,
      ROUTER_ADVERT] at hc ⊢
    split_ifs <;> omega
  dsimp only at h
  have g1 := cond_read_ok _ _ _ _ _ _ h1
  have l1 : s0.length = (if (hdr.type == NEIGHBOUR_SOLICIT || hdr.type == NEIGHBOUR_ADVERT
      || hdr.type == REDIRECT) = true then 16 else 0) + s1.length := by
    rw [g1]; split <;> simp [target.size_eq]
  rcases bind_err _ _ _ h with h2 | ⟨⟨dest, s2⟩, h2, h⟩
  · obtain ⟨he, hc, hlt⟩ := cond_read_err _ _ _ _ _ h2
    refine ⟨he, ?_⟩
    simp only [Bool.or_eq_true, beq_iff_eq] at hc l1
    simp only [fixed_part_size, NEIGHBOUR_SOLICIT, NEIGHBOUR_ADVERT, REDIRECT,
      ROUTER_ADVERT] at hc l1 ⊢
    split_ifs at l1 ⊢ <;> omega
  dsimp only at h
  have g2 := cond_read_ok _ _ _ _ _ _ h2
  have l2 : s1.length = (if (hdr.type == REDIRECT) = true then 16 else 0) + s2.length := by
    rw [g2]; split <;> simp [dest.size_eq]
  rcases bind_err _ _ _ h with h3 | ⟨⟨reach, retrans, s3⟩, h3, h⟩
  · obtain ⟨he, hc, hlt⟩ := cond_read2_err _ _ _ _ _ h3
    refine ⟨he, ?_⟩
    simp only [Bool.or_eq_true, beq_iff_eq] at hc l1 l2
    simp only [fixed_part_size, NEIGHBOUR_SOLICIT, NEIGHBOUR_ADVERT, REDIRECT,
      ROUTER_ADVERT] at hc l1 l2 ⊢
    split_ifs at l1 l2 ⊢ <;> omega
  · simp [pure, Except.pure] at h

theorem from_buffer_eq (E : ExtensionParser) (b : List Nat) :
    from_buffer E b =
      (read_fixed b >>= fun x =>
        (if x.1.has_options then parse_options x.2 x.1 else pure x) >>= fun y =>
          pure (read_rest E y.1 y.2)) := by
  unfold from_buffer read_fixed read_rest
  simp only [bind_assoc, pure_bind]

theorem read_fixed_short (b : List Nat) (h : b.length < fixed_part_size (b.headD 0)) :
    read_fixed b = .error .malformed_packet := by
  cases hr : read_fixed b with
  | error e => rw [(read_fixed_err b e hr).1]
  | ok x =>
    obtain ⟨p1, s3⟩ := x
    have hb := (read_fixed_ok b p1 s3 hr).1
    have h1 : b.headD 0 = p1.type := by rw [hb]; exact headD_fixed_wire p1 s3
    have h2 : b.length = fixed_part_size p1.type + s3.length := by
      rw [hb, List.length_append, fixed_wire_length]
    rw [h1] at h
    omega

theorem read_fixed_long (b : List Nat) (h : fixed_part_size (b.headD 0) ≤ b.length) :
    ∃ p1, read_fixed b = .ok (p1, b.drop (fixed_part_size (b.headD 0)))
      ∧ p1.type = b.headD 0 ∧ b = p1.fixed_wire ++ b.drop (fixed_part_size (b.headD 0))
      ∧ p1.options = [] ∧ p1.options_size = 0
      ∧ p1.extensions = ⟨[], []⟩ ∧ p1.inner_pdu = none := by
  cases hr : read_fixed b with
  | error e =>
    have := (read_fixed_err b e hr).2
    omega
  | ok x =>
    obtain ⟨p1, s3⟩ := x
    obtain ⟨hb, ho, hs, he, hi⟩ := read_fixed_ok b p1 s3 hr
    have h1 : b.headD 0 = p1.type := by rw [hb]; exact headD_fixed_wire p1 s3
    have h3 : b.drop (fixed_part_size (b.headD 0)) = s3 := by
      rw [h1, ← fixed_wire_length]
      conv_lhs => rw [hb]
      simp
    rw [h3]
    exact ⟨p1, rfl, h1.symm, hb, ho, hs, he, hi⟩

/-! ## Option list -/

theorem add_option_options (p : ICMPv6) (o : PDUOption) :
    (p.add_option o).options = p.options ++ [o] := rfl

theorem foldl_add_option (os : List PDUOption) (p : ICMPv6) :
    os.foldl add_option p =
      { p with options := p.options ++ os,
               options_size := os.foldl
                 (fun n o => (n + (o.data_size + 2) % 4294967296) % 4294967296) p.options_size } := by
  induction os generalizing p with
  | nil => simp
  | cons o os ih =>
    rw [List.foldl_cons, ih]
    simp [add_option, internal_add_option]

theorem options_total_append (xs ys : List PDUOption) :
    options_total (xs ++ ys) = options_total xs + options_total ys := by
  induction xs with
  | nil => simp [options_total]
  | cons x xs ih => simp [options_total, ih]; omega

theorem add_option_counter (p : ICMPv6) (o : PDUOption) (h : p.counter_ok) :
    (p.add_option o).counter_ok := by
  unfold counter_ok at *
  simp only [add_option, internal_add_option, options_total_append, options_total,
    PDUOption.data_size, h]
  omega

theorem foldl_add_option_counter (os : List PDUOption) (p : ICMPv6) (h : p.counter_ok) :
    (os.foldl add_option p).counter_ok := by
  induction os generalizing p with
  | nil => exact h
  | cons o os ih => exact ih _ (add_option_counter p o h)

theorem has_options_eq (p : ICMPv6) : p.has_options = option_bearing p.type := by
  unfold has_options option_bearing
  cases p.type == NEIGHBOUR_SOLICIT <;> cases p.type == NEIGHBOUR_ADVERT <;>
    cases p.type == ROUTER_SOLICIT <;> cases p.type == ROUTER_ADVERT <;>
    cases p.type == REDIRECT <;> rfl

theorem option_bearing_not_ext (p : ICMPv6) (h : option_bearing p.type = true) :
    p.are_extensions_allowed = false := by
  unfold option_bearing at h
  unfold are_extensions_allowed
  simp only [ROUTER_SOLICIT, ROUTER_ADVERT, NEIGHBOUR_SOLICIT, NEIGHBOUR_ADVERT, REDIRECT,
    TIME_EXCEEDED, Bool.or_eq_true, beq_iff_eq, beq_eq_false_iff_ne] at *
  omega

theorem read_rest_plain (E : ExtensionParser) (p : ICMPv6) (s : List Nat)
    (h : p.are_extensions_allowed = false) :
    read_rest E p s = if s ≠ [] then { p with inner_pdu := some s } else p := by
  unfold read_rest try_parse_extensions
  simp [h]

theorem foldl_add_option_type (os : List PDUOption) (p : ICMPv6) :
    (os.foldl add_option p).type = p.type := by
  rw [foldl_add_option]
  rfl

/-- For an option-bearing type the parser reads the fixed part and hands the rest of the
buffer to `parse_options`. -/
theorem from_buffer_options (E : ExtensionParser) (b : List Nat)
    (ht : option_bearing (b.headD 0) = true) (hl : fixed_part_size (b.headD 0) ≤ b.length) :
    ∃ p1 : ICMPv6, p1.type = b.headD 0
      ∧ b = p1.fixed_wire ++ b.drop (fixed_part_size (b.headD 0))
      ∧ p1.options = [] ∧ p1.options_size = 0
      ∧ p1.extensions = ⟨[], []⟩ ∧ p1.inner_pdu = none
      ∧ from_buffer E b =
          (parse_options (b.drop (fixed_part_size (b.headD 0))) p1 >>= fun y =>
            pure (read_rest E y.1 y.2)) := by
  obtain ⟨p1, hr, hty, hb, ho, hs, he, hi⟩ := read_fixed_long b hl
  refine ⟨p1, hty, hb, ho, hs, he, hi, ?_⟩
  rw [from_buffer_eq, hr]
  have : p1.has_options = true := by rw [has_options_eq, hty]; exact ht
  simp only [bind, Except.bind, this, if_true]

/-! ## Claims on the parser -/

/-- C8: in a buffer of an option-bearing type whose option region starts with well-formed
options followed by an option with length octet 0, the parsing constructor fails with
`malformed_packet`. -/
theorem parse_rejects_zero_length_option (E : ExtensionParser) (b : List Nat)
    (os : List PDUOption) (kind : Nat) (tail : List Nat)
    (ht : option_bearing (b.headD 0) = true)
    (hl : fixed_part_size (b.headD 0) ≤ b.length)
    (hos : ∀ o ∈ os, o.padded)
    (hb : b.drop (fixed_part_size (b.headD 0)) = options_wire os ++ kind :: 0 :: tail) :
    from_buffer E b = .error .malformed_packet := by
  obtain ⟨p1, -, -, -, -, -, -, hf⟩ := from_buffer_options E b ht hl
  rw [hf, hb, parse_options_bad os kind 0 tail p1 hos (by omega) (Or.inl rfl)]
  rfl

theorem parse_rejects_zero_length_option_witness :
    from_buffer ExtensionParser.none
      [135, 0, 0, 0, 0, 0, 0, 0, 254, 128, 0, 0, 0, 0, 0, 0, 0, 0, 0, 0, 0, 0, 0, 1,
        31, 0, 1, 2, 3, 4, 5, 6] = .error .malformed_packet :=
  parse_rejects_zero_length_option ExtensionParser.none _ [] 31 [1, 2, 3, 4, 5, 6]
    (by decide) (by decide) (by simp) (by decide)

/-- C9: the parsing constructor fails with `malformed_packet` when the buffer is shorter
than the fixed part of its type, and when, after well-formed options, an option with length
octet `len` declares `len * 8 - 2` payload bytes but fewer bytes remain. -/
theorem parse_rejects_short_buffer (E : ExtensionParser) (b : List Nat) :
    (b.length < fixed_part_size (b.headD 0) → from_buffer E b = .error .malformed_packet)
    ∧ (∀ (os : List PDUOption) (kind len : Nat) (tail : List Nat),
        option_bearing (b.headD 0) = true →
        fixed_part_size (b.headD 0) ≤ b.length →
        (∀ o ∈ os, o.padded) →
        b.drop (fixed_part_size (b.headD 0)) = options_wire os ++ kind :: len :: tail →
        1 ≤ len → len < 256 → tail.length < len * 8 - 2 →
        from_buffer E b = .error .malformed_packet) := by
  constructor
  · intro h
    rw [from_buffer_eq, read_fixed_short b h]
    rfl
  · intro os kind len tail ht hl hos hb _ h256 hshort
    obtain ⟨p1, -, -, -, -, -, -, hf⟩ := from_buffer_options E b ht hl
    rw [hf, hb, parse_options_bad os kind len tail p1 hos h256 (Or.inr hshort)]
    rfl

theorem parse_rejects_short_buffer_witness :
    from_buffer ExtensionParser.none [137, 0, 0, 0, 0, 0, 0, 0, 1, 2, 3] = .error .malformed_packet
    ∧ from_buffer ExtensionParser.none
        [133, 0, 0, 0, 0, 0, 0, 0, 1, 1, 0, 0, 0, 0, 0, 0, 5, 2, 9, 9, 9]
        = .error .malformed_packet :=
  ⟨(parse_rejects_short_buffer ExtensionParser.none _).1 (by decide),
   (parse_rejects_short_buffer ExtensionParser.none _).2 [⟨1, [0, 0, 0, 0, 0, 0]⟩] 5 2 [9, 9, 9]
     (by decide) (by decide) (by decide) (by decide) (by decide) (by decide) (by decide)⟩

/-- C10: when the bytes after the fixed part of an option-bearing buffer are the wire image
of well-formed options, the parsing constructor succeeds and the option list of the result
is exactly these records (kind and payload verbatim) in wire order. -/
theorem parse_reads_wellformed_options (E : ExtensionParser) (b : List Nat)
    (os : List PDUOption)
    (ht : option_bearing (b.headD 0) = true)
    (hl : fixed_part_size (b.headD 0) ≤ b.length)
    (hos : ∀ o ∈ os, o.padded)
    (hb : b.drop (fixed_part_size (b.headD 0)) = options_wire os) :
    ∃ p : ICMPv6, from_buffer E b = .ok p ∧ p.options = os := by
  obtain ⟨p1, hty, -, ho, -, -, -, hf⟩ := from_buffer_options E b ht hl
  refine ⟨os.foldl add_option p1, ?_, ?_⟩
  · rw [hf, hb, parse_options_wire os p1 hos]
    have hx : (os.foldl add_option p1).are_extensions_allowed = false :=
      option_bearing_not_ext _ (by rw [foldl_add_option_type, hty]; exact ht)
    simp only [bind, Except.bind, pure, Except.pure]
    rw [read_rest_plain E _ _ hx]
    simp
  · rw [foldl_add_option]
    simp [ho]

theorem parse_reads_wellformed_options_witness :
    ∃ p : ICMPv6,
      from_buffer ExtensionParser.none
        [133, 0, 0, 0, 0, 0, 0, 0, 1, 1, 0, 17, 34, 51, 68, 85, 5, 1, 0, 0, 0, 0, 5, 220]
        = .ok p
      ∧ p.options = [⟨1, [0, 17, 34, 51, 68, 85]⟩, ⟨5, [0, 0, 0, 0, 5, 220]⟩] :=
  parse_reads_wellformed_options ExtensionParser.none _
    [⟨1, [0, 17, 34, 51, 68, 85]⟩, ⟨5, [0, 0, 0, 0, 5, 220]⟩]
    (by decide) (by decide) (by decide) (by decide)

/-! ## Sizes -/

theorem options_wire_length (os : List PDUOption) :
    (options_wire os).length = options_total os := by
  induction os with
  | nil => rfl
  | cons o os ih =>
    simp only [options_wire, option_wire, options_total, List.length_append, List.length_cons,
      List.length_nil, ih]
    omega

theorem fields_wire_length (p : ICMPv6) :
    p.fields_wire.length = fixed_part_size p.type + options_total p.options := by
  unfold fields_wire
  rw [List.length_append, fixed_wire_length, options_wire_length]

theorem header_size_formula (p : ICMPv6) :
    p.header_size = (fixed_part_size p.type + p.options_size) % 4294967296 := by
  unfold header_size fixed_part_size has_target_addr has_dest_addr
  simp only [NEIGHBOUR_SOLICIT, NEIGHBOUR_ADVERT, REDIRECT, ROUTER_ADVERT, Bool.or_eq_true,
    beq_iff_eq]
  split_ifs <;> omega

theorem header_size_eq (p : ICMPv6) (hc : p.counter_ok)
    (hw : p.fields_wire.length < 4294967296) : p.header_size = p.fields_wire.length := by
  rw [header_size_formula, fields_wire_length, hc]
  rw [fields_wire_length] at hw
  omega

/-! ## Shape of a parsed PDU -/

theorem ext_allowed_iff (p : ICMPv6) :
    p.are_extensions_allowed = false ↔ p.type ≠ TIME_EXCEEDED := by
  unfold are_extensions_allowed
  simp

theorem fixed_wire_congr (p q : ICMPv6) (h1 : q.header = p.header)
    (h2 : q.target_address = p.target_address) (h3 : q.dest_address = p.dest_address)
    (h4 : q.reach_time = p.reach_time) (h5 : q.retrans_timer = p.retrans_timer) :
    q.fixed_wire = p.fixed_wire := by
  unfold fixed_wire has_target_addr has_dest_addr ICMPv6.type
  rw [h1, h2, h3, h4, h5]

/-- What a successful parse of a buffer that is not TIME_EXCEEDED yields: the buffer is
the wire image of the fields followed by the inner payload. -/
theorem from_buffer_shape (E : ExtensionParser) (b : List Nat) (p : ICMPv6)
    (h : from_buffer E b = .ok p) (hb : Bytes b) (hte : b.headD 0 ≠ TIME_EXCEEDED) :
    b = p.fields_wire ++ p.inner_bytes ∧ p.counter_ok ∧ p.extensions = ⟨[], []⟩
      ∧ p.type = b.headD 0 := by
  rw [from_buffer_eq] at h
  obtain ⟨⟨p1, s3⟩, hr, h⟩ := bind_ok _ _ _ h
  obtain ⟨⟨p2, s4⟩, hp, h⟩ := bind_ok _ _ _ h
  simp only [pure, Except.pure, Except.ok.injEq] at h
  obtain ⟨hb1, ho, hs, he, hi⟩ := read_fixed_ok b p1 s3 hr
  have hty : p1.type = b.headD 0 := by
    conv_rhs => rw [hb1]
    rw [headD_fixed_wire]
  have hc1 : p1.counter_ok := by
    unfold counter_ok; rw [ho, hs]; rfl
  dsimp only at hp
  by_cases hopt : p1.has_options = true
  · rw [if_pos hopt] at hp
    have hbs : Bytes s3 := by
      intro x hx
      exact hb x (by rw [hb1]; exact List.mem_append_right _ hx)
    obtain ⟨os, -, hw, hp2, hs4⟩ := parse_options_inv s3.length s3 p1 p2 s4 (le_refl _) hbs hp
    subst hs4
    have hx : p2.are_extensions_allowed = false := by
      rw [ext_allowed_iff, hp2, foldl_add_option_type, hty]; exact hte
    rw [read_rest_plain E _ _ hx] at h
    simp only [ne_eq, not_true_eq_false, if_false] at h
    subst h
    subst hp2
    refine ⟨?_, foldl_add_option_counter os p1 hc1, ?_, ?_⟩
    · unfold fields_wire inner_bytes
      rw [fixed_wire_congr p1 (os.foldl add_option p1) (by rw [foldl_add_option])
        (by rw [foldl_add_option]) (by rw [foldl_add_option]) (by rw [foldl_add_option])
        (by rw [foldl_add_option])]
      have e1 : (os.foldl add_option p1).options = os := by
        rw [foldl_add_option]; simp [ho]
      have e2 : (os.foldl add_option p1).inner_pdu = none := by
        rw [foldl_add_option]; exact hi
      rw [e1, e2, ← hw]
      simpa using hb1
    · rw [foldl_add_option]; exact he
    · rw [foldl_add_option_type]; exact hty
  · rw [if_neg hopt] at hp
    simp only [pure, Except.pure, Except.ok.injEq, Prod.mk.injEq] at hp
    obtain ⟨rfl, rfl⟩ := hp
    have hx : p1.are_extensions_allowed = false := by
      rw [ext_allowed_iff, hty]; exact hte
    rw [read_rest_plain E _ _ hx] at h
    subst h
    by_cases hs3 : s3 = []
    · subst hs3
      simp only [ne_eq, not_true_eq_false, if_false]
      refine ⟨?_, hc1, he, hty⟩
      unfold fields_wire inner_bytes
      rw [ho, hi]
      simpa [options_wire] using hb1
    · simp only [ne_eq, hs3, not_false_eq_true, if_true]
      refine ⟨?_, ?_, he, hty⟩
      · unfold fields_wire inner_bytes
        have e := fixed_wire_congr p1 { p1 with inner_pdu := some s3 } rfl rfl rfl rfl rfl
        rw [e]
        simp only [ho, options_wire, List.append_nil, Option.getD_some]
        exact hb1
      · unfold counter_ok at hc1 ⊢
        exact hc1

/-! ## Shape of the serializer -/

/-- `set_length_field` changes the RFC 4884 length octet only. -/
theorem set_length_field_eq (p : ICMPv6) :
    p.set_length_field =
      { p with header := { p.header with u0 := p.set_length_field.header.u0 } } := by
  unfold set_length_field
  dsimp only
  split_ifs <;> rfl

theorem set_length_field_type (p : ICMPv6) : p.set_length_field.type = p.type := by
  rw [set_length_field_eq]
  rfl

theorem prepared_fields_length (p : ICMPv6) :
    p.set_length_field.zero_cksum.fields_wire.length = p.fields_wire.length := by
  rw [fields_wire_length, fields_wire_length]
  have h1 : p.set_length_field.zero_cksum.type = p.type := set_length_field_type p
  have h2 : p.set_length_field.zero_cksum.options = p.options := by
    rw [set_length_field_eq]
    rfl
  rw [h1, h2]

/-- `write_serialization` in closed form: it fails exactly when the buffer is shorter than
the emitted fields; otherwise the fields overwrite the start of the buffer, the extension
part is written, and with an IPv6 parent the checksum is patched in. -/
theorem write_serialization_eq (p : ICMPv6) (buffer : List Nat) (parent : Option IPv6) :
    p.write_serialization buffer parent =
      if p.fields_wire.length ≤ buffer.length then
        let p2 := p.set_length_field.zero_cksum
        let buffer1 := write_extensions p2
          ⟨p2.fields_wire ++ buffer.drop p2.fields_wire.length, p2.fields_wire.length⟩
        match parent with
        | some ipv6 =>
          let p3 := p2.checksum (4294967295 - fold_carries
            ((pseudoheader_checksum ipv6.src_addr ipv6.dst_addr p2.size PROTO_ICMPV6
              + do_checksum buffer1) % 4294967296))
          .ok (p3, store buffer1 2 [p3.header.cksum0, p3.header.cksum1])
        | none => .ok (p2, buffer1)
      else .error .serialization_error := by
  unfold write_serialization
  dsimp only
  rw [write_fields_eq]
  have hw := write_append [] p.set_length_field.zero_cksum.fields_wire buffer
  simp only [List.nil_append, List.length_nil] at hw
  rw [hw, prepared_fields_length]
  by_cases hl : p.fields_wire.length ≤ buffer.length
  · rw [if_pos hl, if_pos hl]
    cases parent <;> rfl
  · rw [if_neg hl, if_neg hl]
    rfl

/-! ## Sizes of a PDU that fits a 32-bit buffer -/

theorem inner_size_eq (p : ICMPv6) (hw : p.wire_size < 4294967296) :
    p.inner_size = p.inner_bytes.length := by
  unfold wire_size at hw
  unfold inner_size inner_bytes at *
  cases hi : p.inner_pdu with
  | none => rfl
  | some inner =>
    rw [hi] at hw
    simp only [Option.getD_some] at hw ⊢
    omega

theorem adjusted_size_eq (p : ICMPv6) (hw : p.wire_size < 4294967296) :
    p.get_adjusted_inner_pdu_size = if p.inner_pdu.isSome then pad8 p.inner_bytes.length else 0 := by
  have h8 : 8 ≤ p.fields_wire.length := by
    rw [fields_wire_length]; unfold fixed_part_size; omega
  unfold wire_size at hw
  unfold get_adjusted_inner_pdu_size get_padded_icmp_inner_pdu_size inner_bytes pad8 at *
  cases hi : p.inner_pdu with
  | none => rfl
  | some inner =>
    rw [hi] at hw
    simp only [Option.getD_some, Option.isSome_some, if_true] at hw ⊢
    split_ifs <;> omega

theorem trailer_size_eq (p : ICMPv6) (hw : p.wire_size < 4294967296) :
    p.trailer_size =
      if p.has_extensions then
        p.extensions.serialized.length
          + (if p.inner_pdu.isSome then max (pad8 p.inner_bytes.length) 128 - p.inner_bytes.length
             else 0)
      else 0 := by
  unfold trailer_size
  rw [adjusted_size_eq p hw, inner_size_eq p hw]
  unfold wire_size at hw
  unfold ICMPExtensionsStructure.size
  have hp : p.inner_bytes.length ≤ pad8 p.inner_bytes.length := by unfold pad8; omega
  by_cases he : p.has_extensions = true
  · rw [if_pos he] at hw
    simp only [he, if_true]
    by_cases hi : p.inner_pdu.isSome = true
    · rw [if_pos hi] at hw
      simp only [hi, if_true]
      have : max (pad8 p.inner_bytes.length) 128 ≥ p.inner_bytes.length := by omega
      omega
    · rw [if_neg hi] at hw
      simp only [hi]
      simp only [Bool.false_eq_true, if_false] 
      omega
  · simp only [he]
    rfl

theorem size_eq (p : ICMPv6) (hc : p.counter_ok) (hw : p.wire_size < 4294967296) :
    p.size = p.wire_size := by
  have hf : p.fields_wire.length < 4294967296 := by unfold wire_size at hw; omega
  unfold size
  rw [header_size_eq p hc hf, trailer_size_eq p hw, inner_size_eq p hw]
  unfold wire_size at hw ⊢
  omega

/-- The buffer that `serialize` hands to `write_serialization`: zeroes where the fields go,
the inner payload, zeroes for the trailer. -/
theorem serialize_eq (p : ICMPv6) (parent : Option IPv6) (hc : p.counter_ok)
    (hw : p.wire_size < 4294967296) :
    p.serialize parent =
      p.write_serialization
        (List.replicate p.fields_wire.length 0 ++ p.inner_bytes
          ++ List.replicate p.trailer_size 0) parent := by
  have hf : p.fields_wire.length < 4294967296 := by unfold wire_size at hw; omega
  have hsz : p.size = p.fields_wire.length + (p.inner_bytes.length + p.trailer_size) := by
    rw [size_eq p hc hw, trailer_size_eq p hw]
    unfold wire_size
    omega
  unfold serialize
  rw [hsz, header_size_eq p hc hf]
  rw [List.replicate_add]
  unfold inner_bytes
  cases hi : p.inner_pdu with
  | none => simp
  | some inner =>
    simp only [Option.getD_some]
    have h1 := store_append (List.replicate p.fields_wire.length 0) inner
      (List.replicate (inner.length + p.trailer_size) 0) (by simp)
    simp only [List.length_replicate] at h1
    rw [h1]
    simp [List.append_assoc]

/-- Serialization of a PDU without extensions whose type does not allow them. -/
theorem serialize_plain (p : ICMPv6) (hc : p.counter_ok) (hw : p.wire_size < 4294967296)
    (hx : p.has_extensions = false) (ha : p.are_extensions_allowed = false) :
    p.serialize none = .ok (p.zero_cksum, p.zero_cksum.fields_wire ++ p.inner_bytes) := by
  have ht : p.trailer_size = 0 := by unfold trailer_size; simp [hx]
  have hs : p.set_length_field = p := by unfold set_length_field; simp [ha]
  rw [serialize_eq p none hc hw, write_serialization_eq, ht]
  have hl : p.fields_wire.length ≤
      (List.replicate p.fields_wire.length 0 ++ p.inner_bytes ++ List.replicate 0 0).length := by
    simp
  rw [if_pos hl]
  dsimp only
  rw [hs]
  have hlen : p.zero_cksum.fields_wire.length = p.fields_wire.length := by
    have := prepared_fields_length p
    rwa [hs] at this
  have hx2 : p.zero_cksum.has_extensions = false := hx
  unfold write_extensions
  simp only [hx2, Bool.false_eq_true, if_false, hlen]
  simp

theorem zero_cksum_fields_wire (p : ICMPv6) :
    p.zero_cksum.fields_wire = p.fields_wire.take 2 ++ [0, 0] ++ p.fields_wire.drop 4 := by
  unfold fields_wire fixed_wire zero_cksum has_target_addr has_dest_addr ICMPv6.type
    icmp6hdr.bytes
  simp

/-- C1 (amended): for every byte string whose type octet is not TIME_EXCEEDED and on which
the parsing constructor succeeds, serializing the parsed PDU without IPv6 parent succeeds
and yields the byte string itself with the two checksum octets at offsets 2 and 3 zeroed. -/
theorem parse_serialize_roundtrip (E : ExtensionParser) (b : List Nat) (p : ICMPv6)
    (hb : Bytes b) (hl : b.length < 4294967296) (hte : b.headD 0 ≠ TIME_EXCEEDED)
    (h : from_buffer E b = .ok p) :
    ∃ p' : ICMPv6, p.serialize none = .ok (p', b.take 2 ++ [0, 0] ++ b.drop 4) := by
  obtain ⟨hshape, hc, hext, hty⟩ := from_buffer_shape E b p h hb hte
  have hx : p.has_extensions = false := by unfold has_extensions; rw [hext]; rfl
  have ha : p.are_extensions_allowed = false := by rw [ext_allowed_iff, hty]; exact hte
  have hw : p.wire_size < 4294967296 := by
    unfold wire_size
    rw [hx]
    simp only [Bool.false_eq_true, if_false, Nat.add_zero]
    rw [← List.length_append, ← hshape]
    exact hl
  refine ⟨p.zero_cksum, ?_⟩
  rw [serialize_plain p hc hw hx ha, zero_cksum_fields_wire]
  have h8 : 8 ≤ p.fields_wire.length := by
    rw [fields_wire_length]; unfold fixed_part_size; omega
  conv_rhs => rw [hshape]
  rw [List.take_append_of_le_length (by omega), List.drop_append_of_le_length (by omega)]
  simp [List.append_assoc]

theorem parse_serialize_roundtrip_witness :
    ∃ p' : ICMPv6,
      (⟨⟨135, 0, 171, 205, 0, 0, 0, 0⟩,
        ⟨[254, 128, 0, 0, 0, 0, 0, 0, 0, 0, 0, 0, 0, 0, 0, 1], rfl⟩, ByteVec.zero 16,
        [⟨1, [0, 17, 34, 51, 68, 85]⟩], 8, ByteVec.zero 4, ByteVec.zero 4, ⟨[], []⟩, none⟩
          : ICMPv6).serialize none
        = .ok (p', [135, 0, 0, 0, 0, 0, 0, 0, 254, 128, 0, 0, 0, 0, 0, 0, 0, 0, 0, 0, 0, 0, 0, 1,
                    1, 1, 0, 17, 34, 51, 68, 85]) :=
  parse_serialize_roundtrip ExtensionParser.none
    [135, 0, 171, 205, 0, 0, 0, 0, 254, 128, 0, 0, 0, 0, 0, 0, 0, 0, 0, 0, 0, 0, 0, 1,
      1, 1, 0, 17, 34, 51, 68, 85] _ (by decide) (by decide) (by decide)
    (by simp [from_buffer, read_header, from_type, has_target_addr, has_dest_addr, has_options,
      ICMPv6.type, InputMemoryStream.read_vec, parse_options, try_parse_extensions,
      are_extensions_allowed, add_option, internal_add_option, InputMemoryStream.can_read,
      PDUOption.data_size, ByteVec.zero,
      NEIGHBOUR_SOLICIT, NEIGHBOUR_ADVERT, REDIRECT, ROUTER_ADVERT, ROUTER_SOLICIT, TIME_EXCEEDED,
      bind, Except.bind, pure, Except.pure])

set_option maxRecDepth 100000 in
/-- C1 (counterexample): the sample parses, and serializing the parsed PDU changes the octet at
offset 4, which is not a checksum octet: the length octet 0 becomes 17. -/
theorem parse_serialize_changes_length_octet :
    ∃ p p' : ICMPv6, ∃ out : List Nat,
      from_buffer ExtensionParser.none time_exceeded_sample = .ok p
      ∧ p.serialize none = .ok (p', out)
      ∧ out = [3, 0, 0, 0, 17, 0, 0, 0] ++ List.replicate 130 7 :=
  ⟨_, _, _, rfl, rfl, rfl⟩

/-! ## The cached option counter -/

theorem parse_options_counter (n : Nat) : ∀ (s : List Nat) (p p' : ICMPv6) (s' : List Nat),
    s.length ≤ n → parse_options s p = .ok (p', s') → p.counter_ok → p'.counter_ok := by
  induction n with
  | zero =>
    intro s p p' s' hn h hc
    have hs : s = [] := List.length_eq_zero.mp (by omega)
    subst hs
    rw [parse_options] at h
    simp only [Except.ok.injEq, Prod.mk.injEq] at h
    rw [← h.1]; exact hc
  | succ n ih =>
    intro s p p' s' hn h hc
    match s, hn, h with
    | [], _, h =>
      rw [parse_options] at h
      simp only [Except.ok.injEq, Prod.mk.injEq] at h
      rw [← h.1]; exact hc
    | [_], _, h =>
      rw [parse_options] at h
      simp at h
    | a :: b :: stream, hn, h =>
      rw [parse_options] at h
      dsimp only at h
      split_ifs at h
      refine ih _ _ _ _ ?_ h (add_option_counter p _ hc)
      simp only [List.length_drop, List.length_cons] at *
      omega

theorem read_rest_options (E : ExtensionParser) (p : ICMPv6) (s : List Nat) :
    (read_rest E p s).options = p.options ∧ (read_rest E p s).options_size = p.options_size := by
  unfold read_rest try_parse_extensions
  dsimp only
  split_ifs <;> exact ⟨rfl, rfl⟩

theorem from_buffer_counter (E : ExtensionParser) (b : List Nat) (p : ICMPv6)
    (h : from_buffer E b = .ok p) : p.counter_ok := by
  rw [from_buffer_eq] at h
  obtain ⟨⟨p1, s3⟩, hr, h⟩ := bind_ok _ _ _ h
  obtain ⟨⟨p2, s4⟩, hp, h⟩ := bind_ok _ _ _ h
  simp only [pure, Except.pure, Except.ok.injEq] at h
  obtain ⟨-, ho, hs, -, -⟩ := read_fixed_ok b p1 s3 hr
  have hc1 : p1.counter_ok := by
    unfold counter_ok; rw [ho, hs]; rfl
  have hc2 : p2.counter_ok := by
    dsimp only at hp
    split_ifs at hp
    · exact parse_options_counter _ _ _ _ _ (le_refl _) hp hc1
    · simp only [pure, Except.pure, Except.ok.injEq, Prod.mk.injEq] at hp
      rw [← hp.1]; exact hc1
  subst h
  unfold counter_ok at hc2 ⊢
  rw [(read_rest_options E p2 s4).1, (read_rest_options E p2 s4).2]
  exact hc2

theorem options_total_eraseP (f : PDUOption → Bool) (l : List PDUOption) (o : PDUOption)
    (h : l.find? f = some o) :
    options_total l = options_total (l.eraseP f) + (o.data.length + 2) := by
  induction l with
  | nil => simp at h
  | cons x xs ih =>
    by_cases hx : f x = true
    · simp only [List.find?_cons, hx, Option.some.injEq] at h
      subst h
      simp only [List.eraseP_cons, hx, cond_true, options_total]
      omega
    · have hx' : f x = false := by simpa using hx
      simp only [List.find?_cons, hx'] at h
      simp only [List.eraseP_cons, hx', cond_false, options_total, ih h]
      omega

theorem remove_option_counter (p : ICMPv6) (t : Nat) (h : p.counter_ok) :
    (p.remove_option t).2.counter_ok := by
  unfold remove_option
  cases hf : p.options.find? (fun o => o.option == t) with
  | none => exact h
  | some o =>
    unfold counter_ok at *
    simp only [PDUOption.data_size]
    rw [h, options_total_eraseP _ _ _ hf]
    omega

/-- The counter invariant holds in every reachable state. -/
theorem reachable_counter (E : ExtensionParser) (p : ICMPv6) (h : Reachable E p) :
    p.counter_ok := by
  induction h with
  | from_type tp => unfold counter_ok; rfl
  | from_buffer b p hb => exact from_buffer_counter E b p hb
  | add_option p o _ ih => exact add_option_counter p o ih
  | remove_option p t _ ih => exact remove_option_counter p t ih
  | new_home_agent_info p q v _ hq ih =>
    unfold new_home_agent_info at hq
    split_ifs at hq
    simp only [Except.ok.injEq] at hq
    rw [← hq]
    exact add_option_counter p _ ih
  | _ p v _ ih => exact add_option_counter p _ ih

/-- C3: in every state reached from a PDU built from a type alone or by a successful parse
through `add_option`, `remove_option` and the typed option setters, the cached counter
`options_size` equals the sum of `|payload| + 2` over the current option records (the sum
being representable in the 32-bit counter). -/
theorem options_size_is_sum (E : ExtensionParser) (p : ICMPv6) (h : Reachable E p)
    (h32 : options_total p.options < 4294967296) :
    p.options_size = options_total p.options := by
  have hc := reachable_counter E p h
  unfold counter_ok at hc
  rw [hc]
  exact Nat.mod_eq_of_lt h32

theorem options_size_is_sum_witness :
    (((from_type ROUTER_ADVERT).mtu (0, 1500)).add_option ⟨14, [1, 2, 3, 4, 5, 6]⟩
        |>.remove_option 5).2.options_size = 8 :=
  options_size_is_sum ExtensionParser.none _
    (Reachable.remove_option _ 5
      (Reachable.add_option _ _ (Reachable.mtu _ _ (Reachable.from_type ROUTER_ADVERT))))
    (by decide)

/-! ## Request and response -/

/-- C6: `matches_response` returns true exactly when the buffer has at least 8 bytes, this
PDU is an ECHO_REQUEST, the type octet of the buffer is ECHO_REPLY, and the identifier
octets (offsets 4, 5) and sequence octets (offsets 6, 7) of the buffer equal those this PDU
holds in wire order; in every other case it returns false. -/
theorem matches_response_iff (p : ICMPv6) (ptr : List Nat) :
    p.matches_response ptr = true ↔
      (8 ≤ ptr.length ∧ p.type = ECHO_REQUEST ∧ ptr.getD 0 0 = ECHO_REPLY
        ∧ ptr.getD 4 0 = p.header.u0 ∧ ptr.getD 5 0 = p.header.u1
        ∧ ptr.getD 6 0 = p.header.u2 ∧ ptr.getD 7 0 = p.header.u3) := by
  unfold matches_response hdr_at
  dsimp only
  split_ifs with h8 hc
  · simp only [Bool.false_eq_true, false_iff]
    intro h
    omega
  · simp only [Bool.and_eq_true, beq_iff_eq, List.cons.injEq, and_true] at hc ⊢
    constructor
    · rintro ⟨⟨a, b⟩, c, d⟩
      exact ⟨by omega, hc.1, hc.2, a, b, c, d⟩
    · rintro ⟨-, -, -, a, b, c, d⟩
      exact ⟨⟨a, b⟩, c, d⟩
  · simp only [Bool.and_eq_true, beq_iff_eq] at hc
    simp only [Bool.false_eq_true, false_iff]
    rintro ⟨-, a, b, -⟩
    exact hc ⟨a, b⟩

/-! ## Typed option setters -/

theorem padding8_spec (n : Nat) : (n + padding8 n) % 8 = 0 ∧ padding8 n < 8 := by
  unfold padding8
  dsimp only
  split_ifs <;> omega

theorem appends_padded_add (p : ICMPv6) (o : PDUOption) (h : (o.data.length + 2) % 8 = 0) :
    appends_padded p (p.add_option o) := ⟨o, rfl, h⟩

theorem addr_list_length (l : List ipaddress_type) (buf : List Nat) :
    (l.foldl (fun buf it => buf ++ it.data) buf).length = buf.length + 16 * l.length := by
  induction l generalizing buf with
  | nil => simp
  | cons a l ih =>
    rw [List.foldl_cons, ih]
    simp only [List.length_append, a.size_eq, List.length_cons]
    omega

theorem dns_servers_length (l : List ipaddress_type) (acc : List Nat × Nat) :
    (l.foldl (fun (acc : List Nat × Nat) it => (store acc.1 acc.2 it.data, acc.2 + 16)) acc).1.length
      = acc.1.length := by
  induction l generalizing acc with
  | nil => rfl
  | cons a l ih =>
    rw [List.foldl_cons, ih]
    exact store_length _ _ _

/-- C5 (amended): every typed option setter other than `redirect_header`, `nonce`,
`route_info`, `handover_assist_info` and `mobile_node_identifier` appends, for every argument
it accepts, one record whose size `|payload| + 2` is a multiple of eight; `redirect_header`
and `nonce` append their argument verbatim as payload. -/
theorem typed_setters_append_padded (p : ICMPv6) :
    (∀ v, appends_padded p (p.source_link_layer_addr v))
    ∧ (∀ v, appends_padded p (p.target_link_layer_addr v))
    ∧ (∀ v, appends_padded p (p.prefix_info v))
    ∧ (∀ v, appends_padded p (p.mtu v))
    ∧ (∀ v, appends_padded p (p.shortcut_limit v))
    ∧ (∀ v, appends_padded p (p.new_advert_interval v))
    ∧ (∀ v q, p.new_home_agent_info v = .ok q → appends_padded p q)
    ∧ (∀ v, appends_padded p (p.source_addr_list v))
    ∧ (∀ v, appends_padded p (p.target_addr_list v))
    ∧ (∀ v, appends_padded p (p.rsa_signature v))
    ∧ (∀ v, appends_padded p (p.timestamp v))
    ∧ (∀ v, appends_padded p ( ICMPv6.ip_prefix p v))
    ∧ (∀ v, appends_padded p (p.link_layer_addr v))
    ∧ (∀ v, appends_padded p (p.naack v))
    ∧ (∀ v, appends_padded p (p.map v))
    ∧ (∀ v, appends_padded p (p.recursive_dns_servers v))
    ∧ (∀ v, appends_padded p (p.handover_key_request v))
    ∧ (∀ v, appends_padded p (p.handover_key_reply v))
    ∧ (∀ v, appends_padded p (p.dns_search_list v))
    ∧ (∀ v, (p.redirect_header v).options
        = p.options ++ [⟨OptionTypes.REDIRECT_HEADER.code, v⟩])
    ∧ (∀ v, (p.nonce v).options = p.options ++ [⟨OptionTypes.NONCE.code, v⟩]) := by
  refine ⟨?_, ?_, ?_, ?_, ?_, ?_, ?_, ?_, ?_, ?_, ?_, ?_, ?_, ?_, ?_, ?_, ?_, ?_, ?_, ?_, ?_⟩
  · intro v
    exact appends_padded_add p _ (by simp [v.size_eq])
  · intro v
    exact appends_padded_add p _ (by simp [v.size_eq])
  · intro v
    exact appends_padded_add p _ (by simp [host_to_be32, v.prefix_.size_eq])
  · intro v
    exact appends_padded_add p _ (by simp)
  · intro v
    exact appends_padded_add p _ (by simp)
  · intro v
    exact appends_padded_add p _ (by simp)
  · intro v q h
    unfold new_home_agent_info at h
    split_ifs at h
    simp only [Except.ok.injEq] at h
    rw [← h]
    exact appends_padded_add p _ (by simp [store_length])
  · intro v
    exact appends_padded_add p _ (by
      simp only [addr_list_length, v.reserved.size_eq]; omega)
  · intro v
    exact appends_padded_add p _ (by
      simp only [addr_list_length, v.reserved.size_eq]; omega)
  · intro v
    refine appends_padded_add p _ ?_
    have := (padding8_spec ((4 + 16 + v.signature.length) % 4294967296)).1
    simp only [List.length_append, List.length_replicate, v.key_hash.size_eq]
    omega
  · intro v
    exact appends_padded_add p _ (by
      simp [host_to_be64, host_to_be32, v.reserved.size_eq])
  · intro v
    exact appends_padded_add p _ (by simp [v.address.size_eq])
  · intro v
    refine appends_padded_add p _ ?_
    have := (padding8_spec (2 + (v.option_code % 256 :: v.address).length)).1
    simp only [List.length_append, List.length_replicate, List.length_cons] at this ⊢
    omega
  · intro v
    exact appends_padded_add p _ (by simp [v.reserved.size_eq])
  · intro v
    exact appends_padded_add p _ (by simp [host_to_be32, v.address.size_eq])
  · intro v
    refine appends_padded_add p _ ?_
    simp only [dns_servers_length, store_length, List.length_replicate]
    omega
  · intro v
    refine appends_padded_add p _ ?_
    have := (padding8_spec (v.key.length + 4)).1
    simp only [List.length_append, List.length_take, store_length, List.length_replicate]
    omega
  · intro v
    refine appends_padded_add p _ ?_
    have := (padding8_spec ((v.key.length + 2 + 2) % 4294967296 + 2)).1
    simp only [List.length_append, List.length_take, store_length, List.length_replicate]
    omega
  · intro v
    refine appends_padded_add p _ ?_
    simp only [List.length_append, List.length_replicate]
    generalize (List.foldl (fun buf it => buf ++ encode_labels it [] ++ [0])
      (store (List.replicate (2 + 4) 0) 2 (host_to_be32 v.lifetime)) v.domains).length = n
    have := (padding8_spec (n + 2)).1
    omega
  · intro v; rfl
  · intro v; rfl

/-- C5 (counterexample): the `nonce` setter called with three bytes appends a record of
five octets, not a multiple of eight. -/
theorem nonce_record_not_padded :
    ¬ appends_padded (from_type ROUTER_ADVERT) ((from_type ROUTER_ADVERT).nonce [1, 2, 3]) := by
  rintro ⟨rec, h1, h2⟩
  simp only [nonce, add_option, internal_add_option, from_type, List.nil_append,
    List.cons.injEq, and_true] at h1
  rw [← h1] at h2
  simp at h2

/-! ## Length of the serialized PDU -/

theorem store_getElem?_lt (buf : List Nat) (off : Nat) (bs : List Nat) (i : Nat) (h : i < off) :
    (store buf off bs)[i]? = buf[i]? := by
  unfold store
  by_cases hi : i < buf.length
  · rw [List.getElem?_take_of_lt hi, List.append_assoc,
      List.getElem?_append_left (by simp [List.length_take]; omega),
      List.getElem?_take_of_lt h]
  · rw [List.getElem?_eq_none (by simp [List.length_take]; omega),
      List.getElem?_eq_none (by omega)]

theorem store_getElem?_ge (buf : List Nat) (off : Nat) (bs : List Nat) (i : Nat)
    (h : off + bs.length ≤ i) : (store buf off bs)[i]? = buf[i]? := by
  unfold store
  by_cases hi : i < buf.length
  · have h1 : (buf.take off ++ bs).length = off + bs.length := by
      simp [List.length_take]; omega
    rw [List.getElem?_take_of_lt hi, List.getElem?_append_right (by omega), h1,
      List.getElem?_drop]
    congr 1
    omega
  · rw [List.getElem?_eq_none (by simp [List.length_take]; omega),
      List.getElem?_eq_none (by omega)]


theorem write_extensions_length (p : ICMPv6) (s : OutputMemoryStream) :
    (write_extensions p s).length = s.buffer.length := by
  unfold write_extensions
  dsimp only
  split_ifs <;> simp only [store_length]

theorem write_serialization_ok (p : ICMPv6) (buffer : List Nat) (parent : Option IPv6)
    (hl : p.fields_wire.length ≤ buffer.length) :
    ∃ p' out, p.write_serialization buffer parent = .ok (p', out)
      ∧ out.length = buffer.length ∧ p'.length = p.set_length_field.length
      ∧ p'.type = p.type := by
  rw [write_serialization_eq, if_pos hl]
  have hlen := prepared_fields_length p
  cases parent with
  | none =>
    refine ⟨_, _, rfl, ?_, rfl, set_length_field_type p⟩
    rw [write_extensions_length]
    simp only [List.length_append, List.length_drop, hlen]
    omega
  | some ipv6 =>
    refine ⟨_, _, rfl, ?_, rfl, set_length_field_type p⟩
    rw [store_length, write_extensions_length]
    simp only [List.length_append, List.length_drop, hlen]
    omega

theorem write_serialization_fields (p : ICMPv6) (buffer : List Nat) (parent : Option IPv6)
    (p' : ICMPv6) (out : List Nat) (h : p.write_serialization buffer parent = .ok (p', out)) :
    p.fields_wire.length ≤ buffer.length ∧ out.length = buffer.length
      ∧ p'.length = p.set_length_field.length ∧ p'.type = p.type := by
  have hl : p.fields_wire.length ≤ buffer.length := by
    by_contra hn
    rw [write_serialization_eq, if_neg hn] at h
    simp at h
  obtain ⟨q, o, hq, h1, h2, h3⟩ := write_serialization_ok p buffer parent hl
  rw [hq] at h
  simp only [Except.ok.injEq, Prod.mk.injEq] at h
  rw [← h.1, ← h.2]
  exact ⟨hl, h1, h2, h3⟩

/-- C4: for a PDU whose counter agrees with its option list and whose serialized form fits
a 32-bit buffer, `header_size` is 8 + `options_size` + 8 for ROUTER_ADVERT + 16 with a target
address + 16 with a destination address; the output stream of `write_serialization` has
advanced by exactly that many bytes when the options are written; and serialization succeeds
with `header_size + |inner payload| + trailer_size` bytes of output. -/
theorem header_size_matches_output (p : ICMPv6) (parent : Option IPv6)
    (hc : p.counter_ok) (hw : p.wire_size < 4294967296) :
    p.header_size = 8 + p.options_size + (if p.type = ROUTER_ADVERT then 8 else 0)
        + (if p.has_target_addr then 16 else 0) + (if p.has_dest_addr then 16 else 0)
    ∧ (∀ buffer s, write_fields p.set_length_field.zero_cksum ⟨buffer, 0⟩ = .ok s →
        s.pos = p.header_size)
    ∧ ∃ p' out, p.serialize parent = .ok (p', out)
        ∧ out.length = p.header_size + p.inner_bytes.length + p.trailer_size := by
  have hf : p.fields_wire.length < 4294967296 := by unfold wire_size at hw; omega
  have hhs := header_size_eq p hc hf
  refine ⟨?_, ?_, ?_⟩
  · have h1 := header_size_formula p
    rw [hhs, fields_wire_length] at h1
    rw [hhs, fields_wire_length]
    unfold counter_ok at hc
    rw [fields_wire_length] at hf
    have h2 : p.options_size = options_total p.options := by rw [hc]; omega
    rw [h2]
    unfold fixed_part_size has_target_addr has_dest_addr
    simp only [NEIGHBOUR_SOLICIT, NEIGHBOUR_ADVERT, REDIRECT, ROUTER_ADVERT, Bool.or_eq_true,
      beq_iff_eq]
    split_ifs <;> omega
  · intro buffer s hs
    rw [write_fields_eq] at hs
    have hwa := write_append [] p.set_length_field.zero_cksum.fields_wire buffer
    simp only [List.nil_append, List.length_nil] at hwa
    rw [hwa] at hs
    split_ifs at hs
    simp only [Except.ok.injEq] at hs
    rw [← hs, hhs]
    exact prepared_fields_length p
  · rw [serialize_eq p parent hc hw]
    obtain ⟨p', out, h1, h2, -, -⟩ := write_serialization_ok p
      (List.replicate p.fields_wire.length 0 ++ p.inner_bytes
        ++ List.replicate p.trailer_size 0) parent (by simp)
    refine ⟨p', out, h1, ?_⟩
    rw [h2, hhs]
    simp only [List.length_append, List.length_replicate]

theorem header_size_matches_output_witness :
    ((from_type REDIRECT).source_link_layer_addr ⟨[0, 17, 34, 51, 68, 85], rfl⟩).header_size
        = 8 + 8 + 0 + 16 + 16
    ∧ ∃ p' out,
        ((from_type REDIRECT).source_link_layer_addr ⟨[0, 17, 34, 51, 68, 85], rfl⟩).serialize none
          = .ok (p', out)
        ∧ out.length = 48 + 0 + 0 :=
  ⟨(header_size_matches_output
      ((from_type REDIRECT).source_link_layer_addr ⟨[0, 17, 34, 51, 68, 85], rfl⟩) none
      (by decide) (by decide)).1,
   (header_size_matches_output
      ((from_type REDIRECT).source_link_layer_addr ⟨[0, 17, 34, 51, 68, 85], rfl⟩) none
      (by decide) (by decide)).2.2⟩

theorem write_extensions_getElem?_lt (p : ICMPv6) (s : OutputMemoryStream) (i : Nat)
    (h : i < s.pos) : (write_extensions p s)[i]? = s.buffer[i]? := by
  unfold write_extensions
  dsimp only
  split_ifs
  · rw [store_getElem?_lt _ _ _ _ (by omega), store_getElem?_lt _ _ _ _ (by omega)]
  · rw [store_getElem?_lt _ _ _ _ (by omega), store_getElem?_lt _ _ _ _ (by omega)]
  · rw [store_getElem?_lt _ _ _ _ (by omega)]
  · rfl

/-- After `write_serialization` the octet at offset 4 of the output is the RFC 4884 length
octet of the stored header. -/
theorem write_serialization_length_octet (p : ICMPv6) (buffer : List Nat)
    (parent : Option IPv6) (p' : ICMPv6) (out : List Nat)
    (h : p.write_serialization buffer parent = .ok (p', out)) :
    out.getD 4 0 = p'.length ∧ p'.length = p.set_length_field.length := by
  have hl := (write_serialization_fields p buffer parent p' out h).1
  rw [write_serialization_eq, if_pos hl] at h
  have h8 : 8 ≤ p.set_length_field.zero_cksum.fields_wire.length := by
    rw [fields_wire_length]; unfold fixed_part_size; omega
  have hb : ∀ rest : List Nat,
      (p.set_length_field.zero_cksum.fields_wire ++ rest)[4]?
        = some p.set_length_field.length := by
    intro rest
    rw [List.getElem?_append_left (by omega)]
    unfold fields_wire fixed_wire icmp6hdr.bytes
    rfl
  cases parent with
  | none =>
    simp only [Except.ok.injEq, Prod.mk.injEq] at h
    obtain ⟨rfl, rfl⟩ := h
    refine ⟨?_, rfl⟩
    rw [List.getD_eq_getElem?_getD, write_extensions_getElem?_lt _ _ _ (by simp only; omega)]
    simp only [hb]
    rfl
  | some ipv6 =>
    simp only [Except.ok.injEq, Prod.mk.injEq] at h
    obtain ⟨rfl, rfl⟩ := h
    refine ⟨?_, rfl⟩
    rw [List.getD_eq_getElem?_getD, store_getElem?_ge _ _ _ _ (by simp),
      write_extensions_getElem?_lt _ _ _ (by simp only; omega)]
    simp only [hb]
    rfl

/-! ## The RFC 4884 length octet -/

theorem adjusted_size_padded (p : ICMPv6) (h32 : p.inner_bytes.length + 8 ≤ 4294967296) :
    p.get_adjusted_inner_pdu_size = p.padded_inner := by
  unfold get_adjusted_inner_pdu_size get_padded_icmp_inner_pdu_size padded_inner pad8
  unfold inner_bytes at h32
  cases hi : p.inner_pdu with
  | none => rfl
  | some inner =>
    rw [hi] at h32
    simp only [Option.getD_some] at h32 ⊢
    split_ifs <;> omega

/-- C7 (amended): for a TIME_EXCEEDED PDU with padded inner payload size `pad`, if
`pad > 128`, or `pad > 0` and the length flag was set with `use_length_field(true)`, then
after `write_serialization` the length octet of the header, also written at offset 4 of the
output, is `max(pad, 128) / 8` reduced to eight bits; if the flag was set and `pad = 0`
the length octet is 0. -/
theorem rfc4884_length_after_serialization (p : ICMPv6) (buffer : List Nat)
    (parent : Option IPv6) (p' : ICMPv6) (out : List Nat)
    (hty : p.type = TIME_EXCEEDED) (h32 : p.inner_bytes.length + 8 ≤ 4294967296)
    (h : p.write_serialization buffer parent = .ok (p', out)) :
    ((128 < p.padded_inner ∨ ((∃ q : ICMPv6, p = q.use_length_field true) ∧ 0 < p.padded_inner)) →
        p'.length = max p.padded_inner 128 / 8 % 256
          ∧ out.getD 4 0 = max p.padded_inner 128 / 8 % 256)
    ∧ ((∃ q : ICMPv6, p = q.use_length_field true) → p.padded_inner = 0 →
        p'.length = 0 ∧ out.getD 4 0 = 0) := by
  obtain ⟨h4, hlen⟩ := write_serialization_length_octet p buffer parent p' out h
  rw [h4, hlen]
  have ha : p.are_extensions_allowed = true := by
    unfold are_extensions_allowed; rw [hty]; rfl
  have hflag : (∃ q : ICMPv6, p = q.use_length_field true) → p.length = 1 := by
    rintro ⟨q, rfl⟩
    rfl
  unfold set_length_field
  rw [adjusted_size_padded p h32]
  simp only [ha, if_true]
  constructor
  · intro hcond
    have hc : p.length ≠ 0 ∨ p.padded_inner > 128 := by
      rcases hcond with h1 | ⟨h1, _⟩
      · exact Or.inr h1
      · exact Or.inl (by rw [hflag h1]; omega)
    have hpos : p.padded_inner ≠ 0 := by
      rcases hcond with h1 | ⟨_, h1⟩ <;> omega
    rw [if_pos hc]
    simp only [ICMPv6.length, hpos, ne_eq, not_false_eq_true, if_true, and_self]
  · intro hq h0
    have hc : p.length ≠ 0 ∨ p.padded_inner > 128 := Or.inl (by rw [hflag hq]; omega)
    rw [if_pos hc]
    simp [ICMPv6.length, h0]

theorem rfc4884_length_after_serialization_witness :
    ∃ p' out,
      ({ (from_type TIME_EXCEEDED).use_length_field true with
          inner_pdu := some [69, 0, 0, 40, 1, 2, 3, 4, 5] } : ICMPv6).write_serialization
          [0, 0, 0, 0, 0, 0, 0, 0, 69, 0, 0, 40, 1, 2, 3, 4, 5] none
        = .ok (p', out)
      ∧ p'.length = 16 ∧ out.getD 4 0 = 16 :=
  ⟨_, _, rfl,
    ((rfc4884_length_after_serialization
      ({ (from_type TIME_EXCEEDED).use_length_field true with
          inner_pdu := some [69, 0, 0, 40, 1, 2, 3, 4, 5] } : ICMPv6)
      [0, 0, 0, 0, 0, 0, 0, 0, 69, 0, 0, 40, 1, 2, 3, 4, 5] none _ _
      (by decide) (by decide) rfl).1
      (Or.inr ⟨⟨{ from_type TIME_EXCEEDED with
          inner_pdu := some [69, 0, 0, 40, 1, 2, 3, 4, 5] }, rfl⟩, by decide⟩))⟩

/-- Serialization of a PDU that fits a 32-bit buffer succeeds; the length octet of the result
is the one `set_length_field` computes. -/
theorem serialize_length_octet (p : ICMPv6) (parent : Option IPv6) (hc : p.counter_ok)
    (hw : p.wire_size < 4294967296) :
    ∃ p' out, p.serialize parent = .ok (p', out)
      ∧ p'.length = p.set_length_field.length ∧ out.getD 4 0 = p.set_length_field.length := by
  rw [serialize_eq p parent hc hw]
  obtain ⟨p', out, h1, -, -, -⟩ := write_serialization_ok p
    (List.replicate p.fields_wire.length 0 ++ p.inner_bytes
      ++ List.replicate p.trailer_size 0) parent (by simp)
  obtain ⟨h4, hlen⟩ := write_serialization_length_octet p _ parent p' out h1
  exact ⟨p', out, h1, hlen, by rw [h4, hlen]⟩

/-- A TIME_EXCEEDED PDU with an inner payload of 2048 bytes serializes with length octet 0. -/
theorem time_exceeded_2048 (inner : List Nat) (hn : inner.length = 2048) :
    ∃ p' out,
      ({ from_type TIME_EXCEEDED with inner_pdu := some inner } : ICMPv6).serialize none
        = .ok (p', out)
      ∧ p'.length = 0 ∧ out.getD 4 0 = 0 := by
  have hc : ({ from_type TIME_EXCEEDED with inner_pdu := some inner } : ICMPv6).counter_ok := by
    unfold counter_ok; rfl
  have hw : ({ from_type TIME_EXCEEDED with inner_pdu := some inner } : ICMPv6).wire_size
      < 4294967296 := by
    simp [wire_size, fields_wire_length, fixed_part_size, inner_bytes, has_extensions, from_type,
      options_total, ICMPv6.type, NEIGHBOUR_SOLICIT, NEIGHBOUR_ADVERT, REDIRECT, ROUTER_ADVERT,
      TIME_EXCEEDED, hn]
  have hl : ({ from_type TIME_EXCEEDED with inner_pdu := some inner }
      : ICMPv6).set_length_field.length = 0 := by
    simp [set_length_field, are_extensions_allowed, get_adjusted_inner_pdu_size,
      get_padded_icmp_inner_pdu_size, ICMPv6.length, from_type, ICMPv6.type, TIME_EXCEEDED, hn]
  obtain ⟨p', out, h1, h2, h3⟩ := serialize_length_octet _ none hc hw
  exact ⟨p', out, h1, by rw [h2, hl], by rw [h3, hl]⟩

/-- C7 (counterexample): with the length flag set and no inner payload the length octet
after serialization is 0, not `max(0, 128) / 8 = 16`; and with an inner payload of 2048
bytes it is 0, not `max(2048, 128) / 8 = 256`. -/
theorem length_octet_is_not_max_over_eight :
    (∃ p' out, ((from_type TIME_EXCEEDED).use_length_field true).serialize none = .ok (p', out)
        ∧ p'.length = 0 ∧ out.getD 4 0 = 0 ∧ max (pad8 0) 128 / 8 = 16)
    ∧ (∃ p' out,
        ({ from_type TIME_EXCEEDED with inner_pdu := some (List.replicate 2048 0) }
            : ICMPv6).serialize none = .ok (p', out)
        ∧ p'.length = 0 ∧ out.getD 4 0 = 0 ∧ max (pad8 2048) 128 / 8 = 256) := by
  refine ⟨⟨_, _, rfl, rfl, rfl, rfl⟩, ?_⟩
  obtain ⟨p', out, h1, h2, h3⟩ := time_exceeded_2048 (List.replicate 2048 0)
    (List.length_replicate 2048 0)
  exact ⟨p', out, h1, h2, h3, by decide⟩

/-! ## Checksum arithmetic -/

theorem fold_carries_spec (c : Nat) :
    fold_carries c = if c = 0 then 0 else (c - 1) % 65535 + 1 := by
  induction c using Nat.strong_induction_on with
  | _ c ih =>
    rw [fold_carries]
    by_cases h : c / 65536 = 0
    · rw [dif_pos h]
      split_ifs <;> omega
    · rw [dif_neg h, ih _ (by omega)]
      split_ifs <;> omega

theorem ones_add_spec (a b : Nat) (ha : a ≤ 65535) (hb : b ≤ 65535) :
    ones_add a b ≤ 65535 ∧ ones_add a b % 65535 = (a + b) % 65535 := by
  unfold ones_add
  omega

theorem foldl_ones_add (ws : List Nat) (acc : Nat) (hacc : acc ≤ 65535)
    (hws : ∀ w ∈ ws, w ≤ 65535) :
    ws.foldl ones_add acc ≤ 65535
      ∧ ws.foldl ones_add acc % 65535 = (acc + ws.sum) % 65535 := by
  induction ws generalizing acc with
  | nil => simp [hacc]
  | cons w ws ih =>
    have hw := hws w (by simp)
    obtain ⟨h1, h2⟩ := ones_add_spec acc w hacc hw
    obtain ⟨h3, h4⟩ := ih (ones_add acc w) h1 (fun x hx => hws x (by simp [hx]))
    rw [List.foldl_cons, List.sum_cons]
    refine ⟨h3, ?_⟩
    rw [h4]
    omega

theorem words16_le (n : Nat) : ∀ bs : List Nat, bs.length ≤ n → Bytes bs →
    ∀ w ∈ words16 bs, w ≤ 65535 := by
  induction n using Nat.strong_induction_on with
  | _ n ih =>
    intro bs hn hb w hw
    match bs, hn, hb, hw with
    | [], _, _, hw => simp [words16] at hw
    | [a], _, hb, hw =>
      simp only [words16, List.mem_singleton] at hw
      have := hb a (by simp)
      omega
    | a :: b :: rest, hn, hb, hw =>
      simp only [words16, List.mem_cons] at hw
      rcases hw with rfl | hw
      · have := hb a (by simp)
        have := hb b (by simp)
        omega
      · simp only [List.length_cons] at hn
        exact ih (n - 2) (by omega) rest (by omega)
          (fun x hx => hb x (by simp [hx])) w hw

theorem words16_sum_append (n : Nat) : ∀ a b : List Nat, a.length = 2 * n →
    (words16 (a ++ b)).sum = (words16 a).sum + (words16 b).sum := by
  induction n with
  | zero =>
    intro a b h
    have : a = [] := List.length_eq_zero.mp (by omega)
    subst this
    simp [words16]
  | succ n ih =>
    intro a b h
    match a, h with
    | x :: y :: rest, h =>
      have e := ih rest b (by simp only [List.length_cons] at h; omega)
      simp only [List.cons_append, words16, List.sum_cons, List.append_eq]
      rw [e]
      omega

theorem do_checksum_spec (bs : List Nat) (hb : Bytes bs) :
    do_checksum bs ≤ 65535 ∧ do_checksum bs % 65535 = (words16 bs).sum % 65535 := by
  unfold do_checksum
  have := foldl_ones_add (words16 bs) 0 (by omega) (words16_le bs.length bs (le_refl _) hb)
  simpa using this

/-! ## The checksum written by `write_serialization` -/

theorem store_shift (w rest : List Nat) (off : Nat) (bs : List Nat) :
    store (w ++ rest) (w.length + off) bs = w ++ store rest off bs := by
  unfold store
  have h1 : w.length + off + bs.length = w.length + (off + bs.length) := by omega
  rw [List.take_append, List.length_append, h1, List.drop_append]
  have h2 : w ++ List.take off rest ++ bs ++ List.drop (off + bs.length) rest
      = w ++ (List.take off rest ++ bs ++ List.drop (off + bs.length) rest) := by
    simp only [List.append_assoc]
  rw [h2, List.take_append]

theorem bytes_append (a b : List Nat) : Bytes (a ++ b) ↔ Bytes a ∧ Bytes b := by
  unfold Bytes
  simp only [List.mem_append]
  constructor
  · intro h
    exact ⟨fun x hx => h x (Or.inl hx), fun x hx => h x (Or.inr hx)⟩
  · rintro ⟨h1, h2⟩ x (hx | hx)
    · exact h1 x hx
    · exact h2 x hx

theorem bytes_take (a : List Nat) (n : Nat) (h : Bytes a) : Bytes (a.take n) :=
  fun x hx => h x (List.mem_of_mem_take hx)

theorem bytes_drop (a : List Nat) (n : Nat) (h : Bytes a) : Bytes (a.drop n) :=
  fun x hx => h x (List.mem_of_mem_drop hx)

theorem bytes_replicate_zero (n : Nat) : Bytes (List.replicate n 0) := by
  intro x hx
  rw [List.eq_of_mem_replicate hx]
  omega

theorem bytes_store (buf : List Nat) (off : Nat) (bs : List Nat) (h1 : Bytes buf)
    (h2 : Bytes bs) : Bytes (store buf off bs) := by
  unfold store
  apply bytes_take
  rw [bytes_append, bytes_append]
  exact ⟨⟨bytes_take _ _ h1, h2⟩, bytes_drop _ _ h1⟩

/-- The extension part leaves the emitted fields in place. -/
theorem write_extensions_prefix (p : ICMPv6) (w rest : List Nat) (hr : Bytes rest)
    (he : Bytes p.extensions.serialized) :
    ∃ rest', write_extensions p ⟨w ++ rest, w.length⟩ = w ++ rest' ∧ Bytes rest' := by
  unfold write_extensions
  dsimp only
  split_ifs
  · refine ⟨store (store rest p.get_adjusted_inner_pdu_size
      (List.replicate (128 - p.get_adjusted_inner_pdu_size) 0)) 128 p.extensions.serialized, ?_,
      bytes_store _ _ _ (bytes_store _ _ _ hr (bytes_replicate_zero _)) he⟩
    rw [store_shift, store_shift]
  · refine ⟨store (store rest p.get_adjusted_inner_pdu_size
      (List.replicate (p.get_adjusted_inner_pdu_size - p.inner_size) 0))
      p.get_adjusted_inner_pdu_size p.extensions.serialized, ?_,
      bytes_store _ _ _ (bytes_store _ _ _ hr (bytes_replicate_zero _)) he⟩
    rw [store_shift, store_shift]
  · refine ⟨store rest 0 p.extensions.serialized, ?_, bytes_store _ _ _ hr he⟩
    have := store_shift w rest 0 p.extensions.serialized
    simpa using this
  · exact ⟨rest, rfl, hr⟩

theorem prepared_size (p : ICMPv6) : p.set_length_field.zero_cksum.size = p.size := by
  rw [set_length_field_eq]
  rfl

theorem set_length_field_u0_lt (p : ICMPv6) (h : p.header.u0 < 256) :
    p.set_length_field.header.u0 < 256 := by
  unfold set_length_field
  dsimp only
  split_ifs <;> first | exact h | (dsimp only; omega)

theorem bytes_options_wire (os : List PDUOption) (h : ∀ o ∈ os, o.option < 256 ∧ Bytes o.data) :
    Bytes (options_wire os) := by
  induction os with
  | nil => intro x hx; simp [options_wire] at hx
  | cons o os ih =>
    unfold options_wire option_wire
    rw [bytes_append, bytes_append]
    refine ⟨⟨?_, (h o (by simp)).2⟩, ih (fun o' ho' => h o' (by simp [ho']))⟩
    intro x hx
    simp only [List.mem_cons, List.mem_singleton, List.not_mem_nil, or_false] at hx
    rcases hx with rfl | rfl
    · exact (h o (by simp)).1
    · omega

/-- The fields emitted by `write_serialization` start with type, code and a zero checksum,
and are octets when the PDU holds octets. -/
theorem prepared_fields_shape (p : ICMPv6) (ho : p.octets) :
    ∃ t c tl, p.set_length_field.zero_cksum.fields_wire = t :: c :: 0 :: 0 :: tl
      ∧ t < 256 ∧ c < 256 ∧ Bytes tl := by
  obtain ⟨hh, ht, hd, hr, hrt, hopt, -, -⟩ := ho
  have hu := set_length_field_u0_lt p (hh p.header.u0 (by simp [icmp6hdr.bytes]))
  have e : p.set_length_field.zero_cksum.fields_wire =
      p.header.type :: p.header.code :: 0 :: 0 ::
        ([p.set_length_field.header.u0, p.header.u1, p.header.u2, p.header.u3]
          ++ (if p.has_target_addr then p.target_address.data else [])
          ++ (if p.has_dest_addr then p.dest_address.data else [])
          ++ (if p.type == ROUTER_ADVERT then p.reach_time.data ++ p.retrans_timer.data else [])
          ++ options_wire p.options) := by
    rw [set_length_field_eq]
    rfl
  refine ⟨_, _, _, e, hh _ (by simp [icmp6hdr.bytes]), hh _ (by simp [icmp6hdr.bytes]), ?_⟩
  rw [bytes_append, bytes_append, bytes_append, bytes_append]
  refine ⟨⟨⟨⟨?_, ?_⟩, ?_⟩, ?_⟩, bytes_options_wire _ hopt⟩
  · intro x hx
    simp only [List.mem_cons, List.mem_singleton, List.not_mem_nil, or_false] at hx
    rcases hx with rfl | rfl | rfl | rfl
    · exact hu
    · exact hh _ (by simp [icmp6hdr.bytes])
    · exact hh _ (by simp [icmp6hdr.bytes])
    · exact hh _ (by simp [icmp6hdr.bytes])
  · split_ifs
    · exact ht
    · intro x hx; simp at hx
  · split_ifs
    · exact hd
    · intro x hx; simp at hx
  · split_ifs
    · rw [bytes_append]; exact ⟨hr, hrt⟩
    · intro x hx; simp at hx

theorem words16_sum_le (n : Nat) : ∀ bs : List Nat, bs.length ≤ 2 * n → Bytes bs →
    (words16 bs).sum ≤ 65535 * n := by
  induction n with
  | zero =>
    intro bs h _
    have : bs = [] := List.length_eq_zero.mp (by omega)
    subst this
    simp [words16]
  | succ n ih =>
    intro bs h hb
    match bs, h, hb with
    | [], _, _ => simp [words16]
    | [a], _, hb =>
      have := hb a (by simp)
      simp only [words16, List.sum_cons, List.sum_nil]
      omega
    | a :: b :: rest, h, hb =>
      have := hb a (by simp)
      have := hb b (by simp)
      have := ih rest (by simp only [List.length_cons] at h; omega)
        (fun x hx => hb x (by simp [hx]))
      simp only [words16, List.sum_cons]
      omega

theorem pseudo_header_sum (src dst : ipaddress_type) (len nh : Nat) :
    (words16 (pseudo_header src dst len nh)).sum =
      (words16 src.data).sum + (words16 dst.data).sum
        + len / 65536 % 65536 + len % 65536 + nh := by
  unfold pseudo_header host_to_be32
  rw [List.append_assoc, List.append_assoc, words16_sum_append 8 _ _ (by rw [src.size_eq]),
    words16_sum_append 8 _ _ (by rw [dst.size_eq])]
  simp only [List.cons_append, List.nil_append, words16, List.sum_cons, List.sum_nil]
  omega

theorem pseudoheader_checksum_eq (src dst : ipaddress_type) (len nh : Nat)
    (hs : Bytes src.data) (hd : Bytes dst.data) (hl : len < 4294967296) (hn : nh < 65536) :
    pseudoheader_checksum src dst len nh = (words16 (pseudo_header src dst len nh)).sum
      ∧ pseudoheader_checksum src dst len nh ≤ 65535 * 19 := by
  have h1 := words16_sum_le 8 src.data (by rw [src.size_eq]) hs
  have h2 := words16_sum_le 8 dst.data (by rw [dst.size_eq]) hd
  rw [pseudo_header_sum]
  unfold pseudoheader_checksum
  have e1 : len % 4294967296 = len := Nat.mod_eq_of_lt hl
  have e2 : nh % 4294967296 = nh := Nat.mod_eq_of_lt (by omega)
  have e3 : len / 65536 < 65536 := by omega
  have e4 : len / 65536 % 65536 = len / 65536 := Nat.mod_eq_of_lt e3
  rw [e1, e2, e4]
  have e5 : len % 65536 < 65536 := Nat.mod_lt _ (by omega)
  generalize len / 65536 = q at *
  generalize len % 65536 = r at *
  omega

theorem pseudo_header_length (src dst : ipaddress_type) (len nh : Nat) :
    (pseudo_header src dst len nh).length = 2 * 20 := by
  unfold pseudo_header host_to_be32
  simp [src.size_eq, dst.size_eq]

/-- C2: for every PDU holding octets that `write_serialization` serializes into a buffer of
octets with an IPv6 parent, the 16-bit one's-complement sum of the pseudo-header (source and
destination address, upper-layer length `size()`, next header 58) followed by the output
bytes, including the checksum patched in at offsets 2 and 3, folds to 0xFFFF. -/
theorem serialized_checksum_folds_to_ffff (p : ICMPv6) (buffer : List Nat) (ipv6 : IPv6)
    (p' : ICMPv6) (out : List Nat) (ho : p.octets) (hb : Bytes buffer)
    (hs : Bytes ipv6.src_addr.data) (hd : Bytes ipv6.dst_addr.data)
    (h : p.write_serialization buffer (some ipv6) = .ok (p', out)) :
    ones_complement_sum
      (pseudo_header ipv6.src_addr ipv6.dst_addr p.size PROTO_ICMPV6 ++ out) = 65535 := by
  have hl := (write_serialization_fields p buffer (some ipv6) p' out h).1
  rw [write_serialization_eq, if_pos hl] at h
  simp only [Except.ok.injEq, Prod.mk.injEq] at h
  obtain ⟨-, hout⟩ := h
  obtain ⟨t, c, tl, hfw, ht, hc, htl⟩ := prepared_fields_shape p ho
  have hext : Bytes p.set_length_field.zero_cksum.extensions.serialized := by
    rw [set_length_field_eq]; exact ho.2.2.2.2.2.2.1
  obtain ⟨rest', hwe, hrest'⟩ := write_extensions_prefix p.set_length_field.zero_cksum
    p.set_length_field.zero_cksum.fields_wire
    (buffer.drop p.set_length_field.zero_cksum.fields_wire.length) (bytes_drop _ _ hb) hext
  rw [hwe, prepared_size, hfw] at hout
  have hsz : p.size < 4294967296 := by unfold size; omega
  obtain ⟨hps, hps19⟩ := pseudoheader_checksum_eq ipv6.src_addr ipv6.dst_addr p.size
    PROTO_ICMPV6 hs hd hsz (by decide)
  have hps58 : 58 ≤ pseudoheader_checksum ipv6.src_addr ipv6.dst_addr p.size PROTO_ICMPV6 := by
    rw [hps, pseudo_header_sum]
    have : PROTO_ICMPV6 = 58 := rfl
    omega
  have hB : Bytes (t :: c :: 0 :: 0 :: (tl ++ rest')) := by
    intro x hx
    simp only [List.mem_cons, List.mem_append] at hx
    rcases hx with rfl | rfl | rfl | rfl | hx | hx
    · exact ht
    · exact hc
    · omega
    · omega
    · exact htl x hx
    · exact hrest' x hx
  obtain ⟨hdc, hdcm⟩ := do_checksum_spec _ hB
  simp only [words16, List.sum_cons] at hdcm
  unfold ones_complement_sum
  rw [words16_sum_append 20 _ _ (pseudo_header_length _ _ _ _), ← hps, ← hout]
  simp only [checksum, List.cons_append]
  rw [fold_carries_spec, fold_carries_spec]
  have hst : ∀ a b : Nat, store (t :: c :: 0 :: 0 :: (tl ++ rest')) 2 [a, b]
      = t :: c :: a :: b :: (tl ++ rest') := by
    intro a b
    simp [store]
  rw [hst]
  simp only [words16, List.sum_cons]
  generalize (words16 (tl ++ rest')).sum = X at *
  generalize pseudoheader_checksum ipv6.src_addr ipv6.dst_addr p.size PROTO_ICMPV6 = ps at *
  generalize do_checksum (t :: c :: 0 :: 0 :: (tl ++ rest')) = dc at *
  have e1 : (ps + dc) % 4294967296 = ps + dc := Nat.mod_eq_of_lt (by omega)
  rw [e1]
  have e2 : ps + dc ≠ 0 := by omega
  rw [if_neg e2]
  generalize hf : (ps + dc - 1) % 65535 + 1 = f
  have hf1 : 1 ≤ f ∧ f ≤ 65535 := by omega
  obtain ⟨k, hk⟩ : ∃ k, ps + dc = f + 65535 * k := ⟨(ps + dc - 1) / 65535, by omega⟩
  obtain ⟨a, b, hab⟩ : ∃ a b, dc + 65535 * a = t * 256 + c + X + 65535 * b :=
    ⟨(t * 256 + c + (0 * 256 + 0 + X)) / 65535, dc / 65535, by omega⟩
  have e3 : (4294967295 - f) % 65536 = 65535 - f := by omega
  have e4 : (4294967295 - f) % 256 = (65535 - f) % 256 := by omega
  rw [e3, e4]
  have e5 : (65535 - f) / 256 % 256 * 256 + (65535 - f) % 256 = 65535 - f := by omega
  rw [e5]
  clear hdcm hf e3 e4 e5 e1 hps19 hdc
  split_ifs <;> omega

theorem echo_request_sample_serialized :
    echo_request_sample.write_serialization [0, 0, 0, 0, 0, 0, 0, 0] (some ⟨loopback, loopback⟩)
      = .ok ({ echo_request_sample with header := ⟨128, 0, 109, 128, 18, 52, 0, 7⟩ },
          [128, 0, 109, 128, 18, 52, 0, 7]) := by
  rw [write_serialization_eq, if_pos (by decide)]
  have h1 : echo_request_sample.set_length_field.zero_cksum = echo_request_sample := rfl
  rw [h1]
  have h2 : write_extensions echo_request_sample
      ⟨echo_request_sample.fields_wire
        ++ List.drop echo_request_sample.fields_wire.length [0, 0, 0, 0, 0, 0, 0, 0],
        echo_request_sample.fields_wire.length⟩ = [128, 0, 0, 0, 18, 52, 0, 7] := rfl
  have h3 : pseudoheader_checksum loopback loopback echo_request_sample.size PROTO_ICMPV6
      + do_checksum [128, 0, 0, 0, 18, 52, 0, 7] = 37503 := rfl
  simp only [h2, h3, fold_carries_spec]
  rfl

theorem serialized_checksum_folds_to_ffff_witness :
    ones_complement_sum
      (pseudo_header loopback loopback echo_request_sample.size PROTO_ICMPV6
        ++ [128, 0, 109, 128, 18, 52, 0, 7]) = 65535 :=
  serialized_checksum_folds_to_ffff echo_request_sample [0, 0, 0, 0, 0, 0, 0, 0]
    ⟨loopback, loopback⟩ _ _ (by decide) (by decide) (by decide) (by decide)
    echo_request_sample_serialized

/-! ## Option mutation -/

theorem find?_split (kind : Nat) : ∀ (l : List PDUOption) (o : PDUOption),
    l.find? (fun x => x.option == kind) = some o →
    ∃ l1 l2, l = l1 ++ o :: l2 ∧ (∀ x ∈ l1, x.option ≠ kind) ∧ o.option = kind
      ∧ l.eraseP (fun x => x.option == kind) = l1 ++ l2 := by
  intro l
  induction l with
  | nil => intro o h; simp at h
  | cons a l ih =>
    intro o h
    by_cases ha : a.option = kind
    · have hb : (a.option == kind) = true := by simpa using ha
      rw [List.find?_cons] at h
      simp only [hb, Option.some.injEq] at h
      subst h
      exact ⟨[], l, rfl, by simp, ha, by rw [List.eraseP_cons]; simp only [hb]; rfl⟩
    · have hb : ¬ (a.option == kind) = true := by simpa using ha
      rw [List.find?_cons] at h
      simp only [hb] at h
      obtain ⟨l1, l2, h1, h2, h3, h4⟩ := ih o h
      refine ⟨a :: l1, l2, by rw [h1]; rfl, ?_, h3, ?_⟩
      · intro x hx
        simp only [List.mem_cons] at hx
        rcases hx with rfl | hx
        · exact ha
        · exact h2 x hx
      · rw [List.eraseP_cons]
        simp only [hb, h4]
        rfl

theorem find?_none_iff (kind : Nat) (l : List PDUOption) :
    l.find? (fun x => x.option == kind) = none ↔ ∀ x ∈ l, x.option ≠ kind := by
  rw [List.find?_eq_none]
  simp

/-- C19: `add_option(rec)` makes the option list the old list followed by `rec`: the record
is the last element, every earlier position holds the record it held before, and the counter
`options_size` grows by exactly `|payload| + 2` (the counter is a `uint32_t`; the sum is
assumed to fit). -/
theorem add_option_appends_last (p : ICMPv6) (rec : PDUOption)
    (hfit : p.options_size + (rec.data.length + 2) < 4294967296) :
    (p.add_option rec).options = p.options ++ [rec]
    ∧ (p.add_option rec).options.getLast? = some rec
    ∧ (p.add_option rec).options.length = p.options.length + 1
    ∧ (∀ i, i < p.options.length → (p.add_option rec).options[i]? = p.options[i]?)
    ∧ (p.add_option rec).options_size = p.options_size + (rec.data.length + 2) := by
  have e : (p.add_option rec).options = p.options ++ [rec] := rfl
  refine ⟨e, ?_, ?_, ?_, ?_⟩
  · rw [e]; simp
  · rw [e]; simp
  · intro i hi
    rw [e, List.getElem?_append_left hi]
  · show (p.options_size + (rec.data_size + 2) % 4294967296) % 4294967296 = _
    unfold PDUOption.data_size
    omega

theorem add_option_appends_last_witness :
    ((from_type ROUTER_SOLICIT).add_option ⟨1, [0, 17, 34, 51, 68, 85]⟩).options
        = [] ++ [⟨1, [0, 17, 34, 51, 68, 85]⟩]
    ∧ ((from_type ROUTER_SOLICIT).add_option ⟨1, [0, 17, 34, 51, 68, 85]⟩).options_size
        = 0 + (6 + 2) :=
  ⟨(add_option_appends_last (from_type ROUTER_SOLICIT) ⟨1, [0, 17, 34, 51, 68, 85]⟩
      (by decide)).1,
   (add_option_appends_last (from_type ROUTER_SOLICIT) ⟨1, [0, 17, 34, 51, 68, 85]⟩
      (by decide)).2.2.2.2⟩

/-- C18: for a PDU whose counter agrees with its option list (below 2^32),
`remove_option(kind)` returns true exactly when some record has that kind; when it returns
true the list `l1 ++ o :: l2`, where `o` is the first record of that kind, becomes `l1 ++ l2`
and `options_size` drops by `|payload(o)| + 2`; when it returns false the PDU is unchanged. -/
theorem remove_option_first_match (p : ICMPv6) (kind : Nat) (hc : p.counter_ok)
    (hs : options_total p.options < 4294967296) :
    ((p.remove_option kind).1 = true ↔ ∃ o ∈ p.options, o.option = kind)
    ∧ ((p.remove_option kind).1 = true →
        ∃ l1 o l2, p.options = l1 ++ o :: l2 ∧ (∀ x ∈ l1, x.option ≠ kind) ∧ o.option = kind
          ∧ (p.remove_option kind).2.options = l1 ++ l2
          ∧ (p.remove_option kind).2.options_size + (o.data.length + 2) = p.options_size)
    ∧ ((p.remove_option kind).1 = false →
        (p.remove_option kind).2.options = p.options
          ∧ (p.remove_option kind).2.options_size = p.options_size
          ∧ (p.remove_option kind).2 = p) := by
  unfold remove_option
  cases hf : p.options.find? (fun o => o.option == kind) with
  | none =>
    have hn := (find?_none_iff kind p.options).1 hf
    refine ⟨?_, ?_, ?_⟩
    · constructor
      · intro h; simp at h
      · rintro ⟨o, ho, hk⟩; exact absurd hk (hn o ho)
    · intro h; simp at h
    · intro _; exact ⟨rfl, rfl, rfl⟩
  | some o =>
    obtain ⟨l1, l2, h1, h2, h3, h4⟩ := find?_split kind p.options o hf
    have ht := options_total_eraseP _ _ _ hf
    refine ⟨?_, ?_, ?_⟩
    · constructor
      · intro _
        exact ⟨o, by rw [h1]; simp, h3⟩
      · intro _; rfl
    · intro _
      refine ⟨l1, o, l2, h1, h2, h3, h4, ?_⟩
      unfold counter_ok at hc
      simp only [PDUOption.data_size]
      rw [hc]
      omega
    · intro h; simp at h

theorem remove_option_first_match_witness :
    ∃ l1 o l2,
      (((from_type ROUTER_SOLICIT).add_option ⟨5, [0, 0, 0, 0, 5, 220]⟩).add_option
          ⟨1, [0, 17, 34, 51, 68, 85]⟩).options = l1 ++ o :: l2
      ∧ (∀ x ∈ l1, x.option ≠ 1) ∧ o.option = 1
      ∧ ((((from_type ROUTER_SOLICIT).add_option ⟨5, [0, 0, 0, 0, 5, 220]⟩).add_option
          ⟨1, [0, 17, 34, 51, 68, 85]⟩).remove_option 1).2.options = l1 ++ l2
      ∧ ((((from_type ROUTER_SOLICIT).add_option ⟨5, [0, 0, 0, 0, 5, 220]⟩).add_option
          ⟨1, [0, 17, 34, 51, 68, 85]⟩).remove_option 1).2.options_size + (o.data.length + 2)
        = (((from_type ROUTER_SOLICIT).add_option ⟨5, [0, 0, 0, 0, 5, 220]⟩).add_option
          ⟨1, [0, 17, 34, 51, 68, 85]⟩).options_size :=
  (remove_option_first_match
    (((from_type ROUTER_SOLICIT).add_option ⟨5, [0, 0, 0, 0, 5, 220]⟩).add_option
      ⟨1, [0, 17, 34, 51, 68, 85]⟩) 1 (by decide) (by decide)).2.1 (by decide)

/-- C20: `search_option(kind)` returns the first record of the option list whose kind is
`kind`, and the absence indicator exactly when no record has that kind.  The function is
`const`: it yields a result and no new state. -/
theorem search_option_first_match (p : ICMPv6) (kind : Nat) :
    (p.search_option kind = none ↔ ∀ o ∈ p.options, o.option ≠ kind)
    ∧ (∀ o, p.search_option kind = some o ↔
        ∃ l1 l2, p.options = l1 ++ o :: l2 ∧ (∀ x ∈ l1, x.option ≠ kind) ∧ o.option = kind) := by
  unfold search_option
  refine ⟨find?_none_iff kind p.options, ?_⟩
  intro o
  constructor
  · intro h
    obtain ⟨l1, l2, h1, h2, h3, -⟩ := find?_split kind p.options o h
    exact ⟨l1, l2, h1, h2, h3⟩
  · rintro ⟨l1, l2, h1, h2, h3⟩
    rw [h1, List.find?_append]
    have hn : l1.find? (fun x => x.option == kind) = none :=
      (find?_none_iff kind l1).2 h2
    rw [hn]
    have hb : (o.option == kind) = true := by simpa using h3
    rw [List.find?_cons]
    simp only [hb, Option.none_or]

/-! ## Effect of `write_serialization` on the object and on the start of the buffer -/

theorem store_two (t c x y a b : Nat) (r : List Nat) :
    store (t :: c :: x :: y :: r) 2 [a, b] = t :: c :: a :: b :: r := by
  simp [store]

theorem write_extensions_shift (p : ICMPv6) (w rest : List Nat) :
    ∃ rest', write_extensions p ⟨w ++ rest, w.length⟩ = w ++ rest' := by
  unfold write_extensions
  dsimp only
  split_ifs
  · exact ⟨_, by rw [store_shift, store_shift]⟩
  · exact ⟨_, by rw [store_shift, store_shift]⟩
  · refine ⟨store rest 0 p.extensions.serialized, ?_⟩
    have := store_shift w rest 0 p.extensions.serialized
    simpa using this
  · exact ⟨rest, rfl⟩

/-- The state `write_serialization` leaves behind differs from the state before the call in
three header octets at most: the RFC 4884 length octet and the two checksum octets.  The
output starts with the emitted fields of that state. -/
theorem write_serialization_state (p : ICMPv6) (buffer : List Nat) (parent : Option IPv6)
    (hl : p.fields_wire.length ≤ buffer.length) :
    ∃ k0 k1 out,
      p.write_serialization buffer parent =
        .ok ({ p with header := { p.header with
                u0 := p.set_length_field.header.u0, cksum0 := k0, cksum1 := k1 } }, out)
      ∧ out.length = buffer.length
      ∧ out.take p.fields_wire.length =
          p.header.type :: p.header.code :: k0 :: k1 ::
            ([p.set_length_field.header.u0, p.header.u1, p.header.u2, p.header.u3]
              ++ (if p.has_target_addr then p.target_address.data else [])
              ++ (if p.has_dest_addr then p.dest_address.data else [])
              ++ (if p.type == ROUTER_ADVERT then p.reach_time.data ++ p.retrans_timer.data
                  else [])
              ++ options_wire p.options)
      ∧ (parent = none → k0 = 0 ∧ k1 = 0) := by
  have e2 : p.set_length_field.zero_cksum =
      { p with header := { p.header with
          u0 := p.set_length_field.header.u0, cksum0 := 0, cksum1 := 0 } } := by
    rw [set_length_field_eq]
    rfl
  have ew : p.set_length_field.zero_cksum.fields_wire =
      p.header.type :: p.header.code :: 0 :: 0 ::
        ([p.set_length_field.header.u0, p.header.u1, p.header.u2, p.header.u3]
          ++ (if p.has_target_addr then p.target_address.data else [])
          ++ (if p.has_dest_addr then p.dest_address.data else [])
          ++ (if p.type == ROUTER_ADVERT then p.reach_time.data ++ p.retrans_timer.data else [])
          ++ options_wire p.options) := by
    rw [set_length_field_eq]
    rfl
  have hlen := prepared_fields_length p
  obtain ⟨rest', hr⟩ := write_extensions_shift p.set_length_field.zero_cksum
    p.set_length_field.zero_cksum.fields_wire
    (buffer.drop p.set_length_field.zero_cksum.fields_wire.length)
  obtain ⟨q, o, hq, hol, -, -⟩ := write_serialization_ok p buffer parent hl
  rw [write_serialization_eq, if_pos hl] at hq ⊢
  dsimp only at hq ⊢
  rw [hr] at hq ⊢
  cases parent with
  | none =>
    refine ⟨0, 0, p.set_length_field.zero_cksum.fields_wire ++ rest', by rw [← e2], ?_, ?_,
      fun _ => ⟨rfl, rfl⟩⟩
    · simp only [Except.ok.injEq, Prod.mk.injEq] at hq
      rw [hq.2]; exact hol
    · rw [← hlen, List.take_left, ew]
  | some ipv6 =>
    dsimp only at hq ⊢
    generalize (4294967295 - fold_carries
        ((pseudoheader_checksum ipv6.src_addr ipv6.dst_addr p.set_length_field.zero_cksum.size
          PROTO_ICMPV6 + do_checksum (p.set_length_field.zero_cksum.fields_wire ++ rest'))
          % 4294967296)) = c at hq ⊢
    refine ⟨c % 65536 / 256 % 256, c % 256,
      store (p.set_length_field.zero_cksum.fields_wire ++ rest') 2
          [(p.set_length_field.zero_cksum.checksum c).header.cksum0,
           (p.set_length_field.zero_cksum.checksum c).header.cksum1],
      ?_, ?_, ?_, fun h => by simp at h⟩
    · have e3 : p.set_length_field.zero_cksum.checksum c =
          { p with header := { p.header with
              u0 := p.set_length_field.header.u0, cksum0 := c % 65536 / 256 % 256, cksum1 := c % 256 } } := by
        rw [e2]; rfl
      rw [← e3]
    · simp only [Except.ok.injEq, Prod.mk.injEq] at hq
      rw [hq.2]; exact hol
    · have hs : store (p.set_length_field.zero_cksum.fields_wire ++ rest') 2
          [(p.set_length_field.zero_cksum.checksum c).header.cksum0,
           (p.set_length_field.zero_cksum.checksum c).header.cksum1]
          = (p.header.type :: p.header.code :: (c % 65536 / 256 % 256) :: (c % 256) ::
            ([p.set_length_field.header.u0, p.header.u1, p.header.u2, p.header.u3]
              ++ (if p.has_target_addr then p.target_address.data else [])
              ++ (if p.has_dest_addr then p.dest_address.data else [])
              ++ (if p.type == ROUTER_ADVERT then p.reach_time.data ++ p.retrans_timer.data
                  else [])
              ++ options_wire p.options)) ++ rest' := by
        rw [ew]
        exact store_two _ _ _ _ _ _ _
      rw [hs]
      have hl2 : p.fields_wire.length = (p.header.type :: p.header.code ::
            (c % 65536 / 256 % 256) :: (c % 256) ::
            ([p.set_length_field.header.u0, p.header.u1, p.header.u2, p.header.u3]
              ++ (if p.has_target_addr then p.target_address.data else [])
              ++ (if p.has_dest_addr then p.dest_address.data else [])
              ++ (if p.type == ROUTER_ADVERT then p.reach_time.data ++ p.retrans_timer.data
                  else [])
              ++ options_wire p.options)).length := by
        rw [← hlen, ew]
        rfl
      rw [hl2, List.take_left]

theorem set_length_field_other (p : ICMPv6) (h : p.type ≠ TIME_EXCEEDED) :
    p.set_length_field = p := by
  have ha : p.are_extensions_allowed = false := by
    unfold are_extensions_allowed
    simpa using h
  unfold set_length_field
  simp [ha]

/-- C12 (amended): a successful `write_serialization` (it succeeds when the buffer holds the
emitted fields) leaves type, code, the last three tail octets, both addresses, both timers,
the option list and `options_size` as they were; for every type other than TIME_EXCEEDED the
first tail octet is unchanged as well.  The checksum octets and, for TIME_EXCEEDED, the
RFC 4884 length octet are the only fields that may change. -/
theorem write_serialization_frame (p : ICMPv6) (buffer : List Nat) (parent : Option IPv6)
    (hl : p.fields_wire.length ≤ buffer.length) :
    ∃ p' out, p.write_serialization buffer parent = .ok (p', out)
      ∧ p'.header.type = p.header.type ∧ p'.header.code = p.header.code
      ∧ p'.header.u1 = p.header.u1 ∧ p'.header.u2 = p.header.u2 ∧ p'.header.u3 = p.header.u3
      ∧ (p.type ≠ TIME_EXCEEDED → p'.header.u0 = p.header.u0)
      ∧ p'.target_address = p.target_address ∧ p'.dest_address = p.dest_address
      ∧ p'.reach_time = p.reach_time ∧ p'.retrans_timer = p.retrans_timer
      ∧ p'.options = p.options ∧ p'.options_size = p.options_size
      ∧ p'.extensions = p.extensions ∧ p'.inner_pdu = p.inner_pdu := by
  obtain ⟨k0, k1, out, h, -, -, -⟩ := write_serialization_state p buffer parent hl
  refine ⟨_, out, h, rfl, rfl, rfl, rfl, rfl, ?_, rfl, rfl, rfl, rfl, rfl, rfl, rfl, rfl⟩
  intro hte
  show p.set_length_field.header.u0 = p.header.u0
  rw [set_length_field_other p hte]

theorem write_serialization_frame_witness :
    ∃ p' out, neighbour_solicit_sample.write_serialization (List.replicate 32 255) none
        = .ok (p', out)
      ∧ p'.header.u0 = 0 ∧ p'.target_address = neighbour_solicit_sample.target_address
      ∧ p'.options = [⟨1, [0, 17, 34, 51, 68, 85]⟩] ∧ p'.options_size = 8 := by
  obtain ⟨p', out, h, -, -, -, -, -, h0, ht, -, -, -, ho, hs, -, -⟩ :=
    write_serialization_frame neighbour_solicit_sample (List.replicate 32 255) none (by decide)
  exact ⟨p', out, h, h0 (by decide), ht, ho, hs⟩

/-- C12 (counterexample): a TIME_EXCEEDED PDU with the length flag set and nine bytes of inner
payload holds the length octet 1 before `write_serialization` and 16 after it. -/
theorem write_serialization_rewrites_length_octet :
    ∃ p' out,
      ({ (from_type TIME_EXCEEDED).use_length_field true with
          inner_pdu := some [69, 0, 0, 40, 1, 2, 3, 4, 5] } : ICMPv6).write_serialization
          [0, 0, 0, 0, 0, 0, 0, 0, 69, 0, 0, 40, 1, 2, 3, 4, 5] none
        = .ok (p', out)
      ∧ ({ (from_type TIME_EXCEEDED).use_length_field true with
          inner_pdu := some [69, 0, 0, 40, 1, 2, 3, 4, 5] } : ICMPv6).header.u0 = 1
      ∧ p'.header.u0 = 16 :=
  ⟨_, _, rfl, rfl, rfl⟩

/-- C17: when `write_serialization` runs without IPv6 parent (it succeeds when the buffer
holds the emitted fields), the output octets at offsets 2 and 3 are zero and the checksum
stored in the PDU is zero, whatever checksum the PDU held before. -/
theorem no_parent_leaves_zero_checksum (p : ICMPv6) (buffer : List Nat)
    (hl : p.fields_wire.length ≤ buffer.length) :
    ∃ p' out, p.write_serialization buffer none = .ok (p', out)
      ∧ out[2]? = some 0 ∧ out[3]? = some 0
      ∧ p'.header.cksum0 = 0 ∧ p'.header.cksum1 = 0 := by
  obtain ⟨k0, k1, out, h, -, ht, hk⟩ := write_serialization_state p buffer none hl
  obtain ⟨rfl, rfl⟩ := hk rfl
  have h8 : 8 ≤ p.fields_wire.length := by
    rw [fields_wire_length]; unfold fixed_part_size; omega
  have h2 : (out.take p.fields_wire.length)[2]? = out[2]? :=
    List.getElem?_take_of_lt (by omega)
  have h3 : (out.take p.fields_wire.length)[3]? = out[3]? :=
    List.getElem?_take_of_lt (by omega)
  rw [ht] at h2 h3
  exact ⟨_, out, h, h2.symm, h3.symm, rfl, rfl⟩

theorem no_parent_leaves_zero_checksum_witness :
    neighbour_solicit_sample.header.cksum0 = 171
    ∧ ∃ p' out, neighbour_solicit_sample.write_serialization (List.replicate 32 255) none
        = .ok (p', out)
      ∧ out[2]? = some 0 ∧ out[3]? = some 0
      ∧ p'.header.cksum0 = 0 ∧ p'.header.cksum1 = 0 :=
  ⟨rfl, no_parent_leaves_zero_checksum neighbour_solicit_sample (List.replicate 32 255)
    (by decide)⟩

/-- C14: for a PDU whose serialized form fits a 32-bit size, `trailer_size` is 0 without
extensions; with extensions and an inner payload of `n` bytes it is
`extensions.size + (max(pad8(n), 128) - n)`, and the subtraction does not underflow, neither
on the exact sizes nor on the `uint32_t` values the code subtracts; with extensions and no
inner payload it is `extensions.size`. -/
theorem trailer_size_by_cases (p : ICMPv6) (hw : p.wire_size < 4294967296) :
    (p.has_extensions = false → p.trailer_size = 0)
    ∧ (∀ inner, p.has_extensions = true → p.inner_pdu = some inner →
        p.trailer_size = p.extensions.size + (max (pad8 inner.length) 128 - inner.length)
          ∧ inner.length ≤ max (pad8 inner.length) 128
          ∧ p.inner_size ≤ max p.get_adjusted_inner_pdu_size 128)
    ∧ (p.has_extensions = true → p.inner_pdu = none → p.trailer_size = p.extensions.size) := by
  have ht := trailer_size_eq p hw
  refine ⟨?_, ?_, ?_⟩
  · intro he
    rw [ht, he]
    rfl
  · intro inner he hi
    have hb : p.inner_bytes = inner := by unfold inner_bytes; rw [hi]; rfl
    have hp : inner.length ≤ pad8 inner.length := by unfold pad8; omega
    refine ⟨?_, by omega, ?_⟩
    · rw [ht, he, hi, hb]
      rfl
    · rw [inner_size_eq p hw, adjusted_size_eq p hw, hi, hb]
      simp only [Option.isSome_some, if_true]
      omega
  · intro he hi
    rw [ht, he, hi]
    rfl

theorem trailer_size_by_cases_witness :
    ({ time_exceeded_ext_sample with inner_pdu := some [1, 2, 3, 4, 5, 6, 7, 8, 9] }
        : ICMPv6).trailer_size = 8 + (128 - 9) :=
  ((trailer_size_by_cases
    ({ time_exceeded_ext_sample with inner_pdu := some [1, 2, 3, 4, 5, 6, 7, 8, 9] } : ICMPv6)
    (by decide)).2.1 [1, 2, 3, 4, 5, 6, 7, 8, 9] rfl rfl).1

/-- C16: `write_serialization` (it succeeds when the buffer holds the emitted fields) writes
at the start of the buffer, in this order: type, code and the two checksum octets; the four
tail octets; the target address iff `has_target_addr`; the destination address iff the type
is REDIRECT; `reach_time` and `retrans_timer` in their big-endian memory image iff the type
is ROUTER_ADVERT; then every option in list order as kind, length octet, payload.  A REDIRECT
without options has 40 such octets, and without inner payload and extensions `serialize`
yields exactly these 40 octets. -/
theorem emitted_fields_in_order (p : ICMPv6) (buffer : List Nat) (parent : Option IPv6)
    (hl : p.fields_wire.length ≤ buffer.length) :
    (∃ p' out, p.write_serialization buffer parent = .ok (p', out)
      ∧ out.take (fixed_part_size p.type + options_total p.options) =
          [p.header.type, p.header.code, p'.header.cksum0, p'.header.cksum1]
            ++ [p'.header.u0, p.header.u1, p.header.u2, p.header.u3]
            ++ (if p.has_target_addr then p.target_address.data else [])
            ++ (if p.type == REDIRECT then p.dest_address.data else [])
            ++ (if p.type == ROUTER_ADVERT then p.reach_time.data ++ p.retrans_timer.data
                else [])
            ++ options_wire p.options
      ∧ (p.type = REDIRECT → p.options = [] →
          out.take 40 =
            [p.header.type, p.header.code, p'.header.cksum0, p'.header.cksum1,
              p.header.u0, p.header.u1, p.header.u2, p.header.u3]
              ++ p.target_address.data ++ p.dest_address.data))
    ∧ (p.type = REDIRECT → p.options = [] → p.options_size = 0 → p.inner_pdu = none →
        p.has_extensions = false →
        ∃ p' out, p.serialize parent = .ok (p', out) ∧ out.length = 40
          ∧ out = [p.header.type, p.header.code, p'.header.cksum0, p'.header.cksum1,
              p.header.u0, p.header.u1, p.header.u2, p.header.u3]
              ++ p.target_address.data ++ p.dest_address.data) := by
  have hredirect : p.type = REDIRECT → p.options = [] →
      p.fields_wire.length = 40 ∧
      ∀ k0 k1, p.header.type :: p.header.code :: k0 :: k1 ::
            ([p.set_length_field.header.u0, p.header.u1, p.header.u2, p.header.u3]
              ++ (if p.has_target_addr then p.target_address.data else [])
              ++ (if p.has_dest_addr then p.dest_address.data else [])
              ++ (if p.type == ROUTER_ADVERT then p.reach_time.data ++ p.retrans_timer.data
                  else [])
              ++ options_wire p.options)
          = [p.header.type, p.header.code, k0, k1,
              p.header.u0, p.header.u1, p.header.u2, p.header.u3]
              ++ p.target_address.data ++ p.dest_address.data := by
    intro hty ho
    have hne : p.type ≠ TIME_EXCEEDED := by rw [hty]; decide
    refine ⟨?_, ?_⟩
    · rw [fields_wire_length, hty, ho]; rfl
    · intro k0 k1
      rw [set_length_field_other p hne, ho]
      unfold has_target_addr has_dest_addr
      rw [hty]
      simp [options_wire, REDIRECT, ROUTER_ADVERT, NEIGHBOUR_SOLICIT, NEIGHBOUR_ADVERT]
  constructor
  · obtain ⟨k0, k1, out, h, -, ht, -⟩ := write_serialization_state p buffer parent hl
    rw [fields_wire_length] at ht
    refine ⟨_, out, h, ?_, ?_⟩
    · rw [ht]
      rfl
    · intro hty ho
      obtain ⟨h40, heq⟩ := hredirect hty ho
      rw [fields_wire_length] at h40
      rw [← h40, ht]
      exact heq k0 k1
  · intro hty ho hos hi hx
    obtain ⟨h40, heq⟩ := hredirect hty ho
    have hc : p.counter_ok := by unfold counter_ok; rw [hos, ho]; rfl
    have hib : p.inner_bytes = [] := by unfold inner_bytes; rw [hi]; rfl
    have hw : p.wire_size < 4294967296 := by
      unfold wire_size
      rw [h40, hib, hx]
      simp
    have hts : p.trailer_size = 0 := by unfold trailer_size; simp [hx]
    obtain ⟨k0, k1, out, h, hlen, ht, -⟩ := write_serialization_state p
      (List.replicate p.fields_wire.length 0 ++ p.inner_bytes
        ++ List.replicate p.trailer_size 0) parent (by simp)
    rw [← serialize_eq p parent hc hw] at h
    have hlen40 : out.length = 40 := by
      rw [hlen, hts, hib, h40]; rfl
    refine ⟨_, out, h, hlen40, ?_⟩
    rw [h40, List.take_of_length_le (by omega)] at ht
    rw [ht]
    exact heq k0 k1

theorem emitted_fields_in_order_witness :
    ∃ p' out, redirect_sample.serialize none = .ok (p', out) ∧ out.length = 40
      ∧ out = [137, 0, 0, 0, 0, 0, 0, 0,
          254, 128, 0, 0, 0, 0, 0, 0, 0, 0, 0, 0, 0, 0, 0, 2,
          32, 1, 13, 184, 0, 0, 0, 0, 0, 0, 0, 0, 0, 0, 0, 1] := by
  obtain ⟨p', out, h, hlen, ho⟩ :=
    (emitted_fields_in_order redirect_sample (List.replicate 40 0) none (by decide)).2
      rfl rfl rfl rfl rfl
  have hk : p'.header.cksum0 = 0 ∧ p'.header.cksum1 = 0 := by
    have h2 : redirect_sample.serialize none = .ok (_, _) := rfl
    rw [h2] at h
    simp only [Except.ok.injEq, Prod.mk.injEq] at h
    rw [← h.1]
    exact ⟨rfl, rfl⟩
  refine ⟨p', out, h, hlen, ?_⟩
  rw [ho, hk.1, hk.2]
  rfl

/-! ## Padding of the inner payload and the extension structure -/

/-- Behind the emitted fields the output of `write_serialization` is what the extension part
left there: the checksum patch touches offsets 2 and 3 only. -/
theorem write_serialization_rest (p : ICMPv6) (buffer : List Nat) (parent : Option IPv6)
    (p' : ICMPv6) (out : List Nat) (h : p.write_serialization buffer parent = .ok (p', out)) :
    out.drop p.fields_wire.length =
      (write_extensions p.set_length_field.zero_cksum
        ⟨p.set_length_field.zero_cksum.fields_wire
          ++ buffer.drop p.set_length_field.zero_cksum.fields_wire.length,
         p.set_length_field.zero_cksum.fields_wire.length⟩).drop p.fields_wire.length := by
  have hl := (write_serialization_fields p buffer parent p' out h).1
  have h8 : 8 ≤ p.fields_wire.length := by
    rw [fields_wire_length]; unfold fixed_part_size; omega
  rw [write_serialization_eq, if_pos hl] at h
  cases parent with
  | none =>
    simp only [Except.ok.injEq, Prod.mk.injEq] at h
    rw [← h.2]
  | some ipv6 =>
    simp only [Except.ok.injEq, Prod.mk.injEq] at h
    rw [← h.2]
    apply List.ext_getElem?
    intro i
    rw [List.getElem?_drop, List.getElem?_drop, store_getElem?_ge _ _ _ _ (by simp; omega)]

/-- The extension part on a zeroed trailer, for an inner payload whose size is a multiple of
eight below 128: the payload is followed by zeros up to 128 octets and by the extension
structure. -/
theorem write_extensions_padded (p : ICMPv6) (w inner : List Nat)
    (hx : p.has_extensions = true) (hi : p.inner_pdu = some inner)
    (hadj : p.get_adjusted_inner_pdu_size = inner.length) (hlt : inner.length < 128) :
    write_extensions p
        ⟨w ++ (inner ++ List.replicate (128 - inner.length + p.extensions.serialized.length) 0),
          w.length⟩
      = w ++ (inner ++ List.replicate (128 - inner.length) 0 ++ p.extensions.serialized) := by
  unfold write_extensions
  simp only [hx, hi, hadj, hlt, Option.isSome_some, if_true]
  rw [store_shift, store_shift]
  congr 1
  have h1 := store_append inner (List.replicate (128 - inner.length) 0)
    (List.replicate (128 - inner.length + p.extensions.serialized.length) 0) (by simp)
  rw [h1]
  have h2 : (List.replicate (128 - inner.length + p.extensions.serialized.length) 0).drop
      (List.replicate (128 - inner.length) 0).length
        = List.replicate p.extensions.serialized.length 0 := by
    simp
  rw [h2]
  have h3 : (inner ++ List.replicate (128 - inner.length) 0).length = 128 := by
    simp; omega
  have h4 := store_append (inner ++ List.replicate (128 - inner.length) 0)
    p.extensions.serialized (List.replicate p.extensions.serialized.length 0) (by simp)
  rw [h3] at h4
  rw [h4]
  simp

/-- C15 (amended): a TIME_EXCEEDED PDU with a 40-byte inner payload and an 8-byte extension
structure that fits a 32-bit size has `trailer_size` 96; `serialize` succeeds, the inner
region of the output is the 40 payload bytes followed by 88 zero bytes, and the extension
structure follows it; the length octet is 16 after serialization when it was non-zero
before, and stays 0 when it was 0. -/
theorem time_exceeded_small_inner (p : ICMPv6) (parent : Option IPv6) (inner : List Nat)
    (hty : p.type = TIME_EXCEEDED) (hi : p.inner_pdu = some inner) (hn : inner.length = 40)
    (hx : p.has_extensions = true) (he : p.extensions.size = 8)
    (hc : p.counter_ok) (hw : p.wire_size < 4294967296) :
    p.trailer_size = 96
    ∧ ∃ p' out, p.serialize parent = .ok (p', out)
        ∧ out.length = p.header_size + 128 + 8
        ∧ (out.drop p.header_size).take 128 = inner ++ List.replicate 88 0
        ∧ out.drop (p.header_size + 128) = p.extensions.serialized
        ∧ (p.length ≠ 0 → p'.length = 16 ∧ out.getD 4 0 = 16)
        ∧ (p.length = 0 → p'.length = 0 ∧ out.getD 4 0 = 0) := by
  have hf : p.fields_wire.length < 4294967296 := by unfold wire_size at hw; omega
  have hhs := header_size_eq p hc hf
  have hib : p.inner_bytes = inner := by unfold inner_bytes; rw [hi]; rfl
  have hes : p.extensions.serialized.length = 8 := he
  have hp8 : pad8 inner.length = 40 := by rw [hn]; rfl
  have hts : p.trailer_size = 96 := by
    rw [trailer_size_eq p hw, hx, hi, hib, hes, hp8, hn]
    rfl
  refine ⟨hts, ?_⟩
  have hadj0 : p.get_adjusted_inner_pdu_size = 40 := by
    rw [adjusted_size_eq p hw, hi, hib, hp8]
    rfl
  have hp2 : p.set_length_field.zero_cksum.get_adjusted_inner_pdu_size = inner.length := by
    rw [hn, ← hadj0, set_length_field_eq]
    rfl
  have hx2 : p.set_length_field.zero_cksum.has_extensions = true := by
    rw [← hx, set_length_field_eq]
    rfl
  have hi2 : p.set_length_field.zero_cksum.inner_pdu = some inner := by
    rw [← hi, set_length_field_eq]
    rfl
  have he2 : p.set_length_field.zero_cksum.extensions = p.extensions := by
    rw [set_length_field_eq]
    rfl
  have hlen := prepared_fields_length p
  rw [serialize_eq p parent hc hw, hts, hib, hhs]
  obtain ⟨p', out, h, hol, -, -⟩ := write_serialization_ok p
    (List.replicate p.fields_wire.length 0 ++ inner ++ List.replicate 96 0) parent (by simp)
  obtain ⟨h4, hl4⟩ := write_serialization_length_octet p _ parent p' out h
  have hrest := write_serialization_rest p _ parent p' out h
  have hdrop : (List.replicate p.fields_wire.length 0 ++ inner ++ List.replicate 96 0).drop
      p.set_length_field.zero_cksum.fields_wire.length = inner ++ List.replicate 96 0 := by
    rw [hlen, List.append_assoc]
    have := List.drop_left (List.replicate p.fields_wire.length 0)
      (inner ++ List.replicate 96 0)
    simp
  have hwe := write_extensions_padded p.set_length_field.zero_cksum
    p.set_length_field.zero_cksum.fields_wire inner hx2 hi2 hp2 (by omega)
  rw [he2, hes, hn] at hwe
  rw [hdrop, hwe, ← hlen, List.drop_left, hlen] at hrest
  have hrest' : out.drop p.fields_wire.length
      = (inner ++ List.replicate 88 0) ++ p.extensions.serialized := hrest
  have h128 : (inner ++ List.replicate 88 0).length = 128 := by
    simp only [List.length_append, List.length_replicate, hn]
  refine ⟨p', out, h, ?_, ?_, ?_, ?_, ?_⟩
  · rw [hol]
    simp only [List.length_append, List.length_replicate, hn]
  · rw [hrest', List.take_left' h128]
  · rw [← List.drop_drop, hrest', List.drop_left' h128]
  · intro hne
    have : p.set_length_field.length = 16 := by
      unfold set_length_field
      have ha : p.are_extensions_allowed = true := by
        unfold are_extensions_allowed; rw [hty]; rfl
      simp only [ha, if_true, hadj0]
      rw [if_pos (Or.inl hne)]
      rfl
    rw [h4, hl4, this]
    exact ⟨rfl, rfl⟩
  · intro h0
    have : p.set_length_field.length = 0 := by
      unfold set_length_field
      have ha : p.are_extensions_allowed = true := by
        unfold are_extensions_allowed; rw [hty]; rfl
      simp only [ha, if_true, hadj0]
      rw [if_neg (by rw [h0]; omega)]
      exact h0
    rw [h4, hl4, this]
    exact ⟨rfl, rfl⟩

theorem time_exceeded_small_inner_witness :
    (time_exceeded_ext_sample.use_length_field true).trailer_size = 96
    ∧ ∃ p' out, (time_exceeded_ext_sample.use_length_field true).serialize none = .ok (p', out)
        ∧ out.length = 8 + 128 + 8
        ∧ (out.drop 8).take 128 = List.replicate 40 7 ++ List.replicate 88 0
        ∧ out.drop (8 + 128) = [32, 0, 222, 250, 0, 4, 1, 1]
        ∧ p'.length = 16 ∧ out.getD 4 0 = 16 := by
  obtain ⟨h1, p', out, h2, h3, h4, h5, h6, -⟩ :=
    time_exceeded_small_inner (time_exceeded_ext_sample.use_length_field true) none
      (List.replicate 40 7) rfl rfl rfl rfl rfl (by decide) (by decide)
  exact ⟨h1, p', out, h2, h3, h4, h5, h6 (by decide)⟩

/-- C15 (counterexample): a TIME_EXCEEDED PDU with a 40-byte inner payload and an 8-byte
extension structure whose length octet is 0 serializes with length octet 0, not 16. -/
theorem small_inner_keeps_zero_length_octet :
    time_exceeded_ext_sample.type = TIME_EXCEEDED
    ∧ time_exceeded_ext_sample.inner_bytes.length = 40
    ∧ time_exceeded_ext_sample.extensions.size = 8
    ∧ ∃ p' out, time_exceeded_ext_sample.serialize none = .ok (p', out)
        ∧ p'.length = 0 ∧ out.getD 4 0 = 0 := by
  obtain ⟨p', out, h1, h2, h3⟩ := serialize_length_octet time_exceeded_ext_sample none
    (by decide) (by decide)
  have hl : time_exceeded_ext_sample.set_length_field.length = 0 := by
    simp [set_length_field, are_extensions_allowed, get_adjusted_inner_pdu_size,
      get_padded_icmp_inner_pdu_size, ICMPv6.length, from_type, ICMPv6.type, TIME_EXCEEDED,
      time_exceeded_ext_sample]
  exact ⟨rfl, by simp [inner_bytes, time_exceeded_ext_sample], rfl, p', out, h1,
    by rw [h2, hl], by rw [h3, hl]⟩

/-! ## Parsing the serialized fields -/

theorem read_vec_append (n : Nat) (v : ByteVec n) (s : List Nat) :
    InputMemoryStream.read_vec (v.data ++ s) n = .ok (v, s) := by
  obtain ⟨d, hd⟩ := v
  unfold InputMemoryStream.read_vec
  have h : n ≤ (d ++ s).length := by simp [hd]
  rw [dif_pos h]
  subst hd
  simp

theorem read_header_append (h : icmp6hdr) (s : List Nat) :
    read_header (h.bytes ++ s) = .ok (h, s) := rfl

/-- The first part of the parsing constructor on the emitted fixed part of a PDU: the header
and the fields the type carries are read back, the others keep their initial value. -/
theorem read_fixed_wire (p : ICMPv6) (s : List Nat) :
    read_fixed (p.fixed_wire ++ s) =
      .ok ({ from_type 0 with
              header := p.header
              target_address := if p.has_target_addr then p.target_address else ByteVec.zero 16
              dest_address := if p.has_dest_addr then p.dest_address else ByteVec.zero 16
              reach_time := if p.type == ROUTER_ADVERT then p.reach_time else ByteVec.zero 4
              retrans_timer :=
                if p.type == ROUTER_ADVERT then p.retrans_timer else ByteVec.zero 4 }, s) := by
  unfold read_fixed fixed_wire
  simp only [List.append_assoc]
  rw [read_header_append]
  have e1 : ({ from_type 0 with header := p.header } : ICMPv6).has_target_addr
      = p.has_target_addr := rfl
  have e2 : ({ from_type 0 with header := p.header } : ICMPv6).has_dest_addr
      = p.has_dest_addr := rfl
  have e3 : ({ from_type 0 with header := p.header } : ICMPv6).type = p.type := rfl
  simp only [bind, Except.bind, e1, e2, e3]
  cases p.has_target_addr <;> cases p.has_dest_addr <;> cases (p.type == ROUTER_ADVERT) <;>
    simp [read_vec_append, pure, Except.pure, from_type, bind, Except.bind]

/-- The parsing constructor on the emitted fields of a PDU of an option-bearing type whose
records have the wire format: it succeeds, and the result holds the header, the fields the
type carries, and the records. -/
theorem from_buffer_fields_wire (E : ExtensionParser) (p : ICMPv6)
    (hty : option_bearing p.type = true) (hpad : ∀ o ∈ p.options, o.padded) :
    ∃ q, from_buffer E p.fields_wire = .ok q
      ∧ q.header = p.header
      ∧ q.target_address = (if p.has_target_addr then p.target_address else ByteVec.zero 16)
      ∧ q.dest_address = (if p.has_dest_addr then p.dest_address else ByteVec.zero 16)
      ∧ q.reach_time = (if p.type == ROUTER_ADVERT then p.reach_time else ByteVec.zero 4)
      ∧ q.retrans_timer = (if p.type == ROUTER_ADVERT then p.retrans_timer else ByteVec.zero 4)
      ∧ q.options = p.options ∧ q.options_size = options_total p.options % 4294967296
      ∧ q.extensions = ⟨[], []⟩ ∧ q.inner_pdu = none := by
  have hfw : p.fields_wire = p.fixed_wire ++ options_wire p.options := rfl
  have hrf := read_fixed_wire p (options_wire p.options)
  generalize hq0 : ({ from_type 0 with
      header := p.header
      target_address := if p.has_target_addr then p.target_address else ByteVec.zero 16
      dest_address := if p.has_dest_addr then p.dest_address else ByteVec.zero 16
      reach_time := if p.type == ROUTER_ADVERT then p.reach_time else ByteVec.zero 4
      retrans_timer :=
        if p.type == ROUTER_ADVERT then p.retrans_timer else ByteVec.zero 4 } : ICMPv6)
      = q0 at hrf
  have hq0t : q0.type = p.type := by rw [← hq0]; rfl
  have hq0o : q0.options = [] := by rw [← hq0]; rfl
  have hq0c : q0.counter_ok := by rw [← hq0]; unfold counter_ok; rfl
  have hho : q0.has_options = true := by rw [has_options_eq, hq0t]; exact hty
  have hpo := parse_options_wire p.options q0 hpad
  have hxq : (p.options.foldl add_option q0).are_extensions_allowed = false :=
    option_bearing_not_ext _ (by rw [foldl_add_option_type, hq0t]; exact hty)
  have hfb : from_buffer E p.fields_wire = .ok (p.options.foldl add_option q0) := by
    rw [from_buffer_eq, hfw, hrf]
    simp only [bind, Except.bind, hho, if_true, hpo, pure, Except.pure]
    rw [read_rest_plain E _ _ hxq]
    simp
  have hcq := foldl_add_option_counter p.options q0 hq0c
  have hfold := foldl_add_option p.options q0
  have hopt : (p.options.foldl add_option q0).options = p.options := by
    rw [hfold]
    show q0.options ++ p.options = p.options
    rw [hq0o]; rfl
  have hsz : (p.options.foldl add_option q0).options_size
      = options_total p.options % 4294967296 := by
    unfold counter_ok at hcq
    rw [hcq, hopt]
  refine ⟨_, hfb, ?_, ?_, ?_, ?_, ?_, hopt, hsz, ?_, ?_⟩ <;>
    (rw [hfold, ← hq0]; try rfl)

/-- C11: for a PDU of an option-bearing type without inner payload and without extension
objects, whose records all have `(|payload| + 2) mod 8 = 0` and `|payload| + 2 ≤ 2040`, whose
counter agrees with the option list and whose size fits 32 bits, `serialize` succeeds (with
or without IPv6 parent), the parsing constructor succeeds on the output, and the parsed PDU
has the same type, code and 4-octet tail, the same option list in the same order and the
same `options_size`; the target address, the destination address and the timers are those
of the PDU where the type carries them, and the initial zero value where it does not. -/
theorem serialize_parse_roundtrip (E : ExtensionParser) (p : ICMPv6) (parent : Option IPv6)
    (hty : option_bearing p.type = true) (hi : p.inner_pdu = none)
    (hx : p.has_extensions = false) (hpad : ∀ o ∈ p.options, o.padded)
    (hc : p.counter_ok) (hw : p.wire_size < 4294967296) :
    ∃ p' out q, p.serialize parent = .ok (p', out) ∧ from_buffer E out = .ok q
      ∧ q.header.type = p.header.type ∧ q.header.code = p.header.code
      ∧ q.header.u0 = p.header.u0 ∧ q.header.u1 = p.header.u1
      ∧ q.header.u2 = p.header.u2 ∧ q.header.u3 = p.header.u3
      ∧ q.target_address = (if p.has_target_addr then p.target_address else ByteVec.zero 16)
      ∧ q.dest_address = (if p.has_dest_addr then p.dest_address else ByteVec.zero 16)
      ∧ q.reach_time = (if p.type == ROUTER_ADVERT then p.reach_time else ByteVec.zero 4)
      ∧ q.retrans_timer = (if p.type == ROUTER_ADVERT then p.retrans_timer else ByteVec.zero 4)
      ∧ q.options = p.options ∧ q.options_size = p.options_size
      ∧ q.inner_pdu = none := by
  have ha := option_bearing_not_ext p hty
  have hne : p.type ≠ TIME_EXCEEDED := by
    intro h
    unfold are_extensions_allowed at ha
    rw [h] at ha
    simp at ha
  have hib : p.inner_bytes = [] := by unfold inner_bytes; rw [hi]; rfl
  have hts : p.trailer_size = 0 := by unfold trailer_size; simp [hx]
  obtain ⟨k0, k1, out, h, hlen, ht, -⟩ := write_serialization_state p
    (List.replicate p.fields_wire.length 0 ++ p.inner_bytes
      ++ List.replicate p.trailer_size 0) parent (by simp)
  rw [← serialize_eq p parent hc hw] at h
  have hlo : out.length ≤ p.fields_wire.length := by
    rw [hlen, hts, hib]; simp
  rw [List.take_of_length_le hlo, set_length_field_other p hne] at ht
  generalize hP : ({ p with header := { p.header with
      u0 := p.set_length_field.header.u0, cksum0 := k0, cksum1 := k1 } } : ICMPv6) = P at h
  have hPh : P.header = { p.header with cksum0 := k0, cksum1 := k1 } := by
    rw [← hP, set_length_field_other p hne]
  have hPw : out = P.fields_wire := by
    rw [ht, ← hP, set_length_field_other p hne]
    rfl
  have hPt : P.type = p.type := by rw [← hP]; rfl
  obtain ⟨q, hq, h1, h2, h3, h4, h5, h6, h7, -, h9⟩ := from_buffer_fields_wire E P
    (by rw [hPt]; exact hty) (by rw [← hP]; exact hpad)
  rw [← hPw] at hq
  have hsz : q.options_size = p.options_size := by
    unfold counter_ok at hc
    rw [h7, hc, ← hP]
  refine ⟨P, out, q, h, hq, ?_, ?_, ?_, ?_, ?_, ?_, ?_, ?_, ?_, ?_, ?_, hsz, h9⟩
  · rw [h1, hPh]
  · rw [h1, hPh]
  · rw [h1, hPh]
  · rw [h1, hPh]
  · rw [h1, hPh]
  · rw [h1, hPh]
  · rw [h2, ← hP]; rfl
  · rw [h3, ← hP]; rfl
  · rw [h4, ← hP]; rfl
  · rw [h5, ← hP]; rfl
  · rw [h6, ← hP]

theorem serialize_parse_roundtrip_witness :
    ∃ p' out q, neighbour_solicit_sample.serialize none = .ok (p', out)
      ∧ from_buffer ExtensionParser.none out = .ok q
      ∧ q.header.type = 135
      ∧ q.target_address = neighbour_solicit_sample.target_address
      ∧ q.options = [⟨1, [0, 17, 34, 51, 68, 85]⟩] ∧ q.options_size = 8 := by
  obtain ⟨p', out, q, h1, h2, h3, -, -, -, -, -, h4, -, -, -, h5, h6, -⟩ :=
    serialize_parse_roundtrip ExtensionParser.none neighbour_solicit_sample none
      (by decide) rfl rfl (by decide) (by decide) (by decide)
  exact ⟨p', out, q, h1, h2, h3, h4, h5, h6⟩

set_option maxRecDepth 100000 in
/-- C13 (evaluation): on a buffer whose bytes behind the inner payload are 255, the bytes
between the end of the payload and its padded end keep the value 255.  With one payload byte
(`header_size` 8, `pad8(1)` = 8) the offsets 9 to 15 hold 255, the zeros start at offset 16
and the extension structure starts at offset 8 + 128; with 129 payload bytes (`pad8(129)` =
136) the offsets 137 to 143 hold 255 and the extension structure starts at offset 8 + 136. -/
theorem padding_gap_keeps_buffer_bytes :
    (∃ p' out,
      time_exceeded_one_byte.write_serialization
          ([0, 0, 0, 0, 0, 0, 0, 0, 69] ++ List.replicate 135 255) none = .ok (p', out)
      ∧ time_exceeded_one_byte.header_size = 8
      ∧ out = [3, 0, 0, 0, 0, 0, 0, 0, 69] ++ List.replicate 7 255 ++ List.replicate 120 0
              ++ [32, 0, 222, 250, 0, 4, 1, 1])
    ∧ (∃ p' out,
      time_exceeded_129_bytes.write_serialization
          ([0, 0, 0, 0, 0, 0, 0, 0] ++ List.replicate 129 69 ++ List.replicate 15 255) none
        = .ok (p', out)
      ∧ time_exceeded_129_bytes.header_size = 8
      ∧ out = [3, 0, 0, 0, 17, 0, 0, 0] ++ List.replicate 129 69 ++ List.replicate 7 255
              ++ [32, 0, 222, 250, 0, 4, 1, 1]) :=
  ⟨⟨_, _, rfl, rfl, rfl⟩, ⟨_, _, rfl, rfl, rfl⟩⟩

/-! ## Typed option values: setter followed by decoder -/

theorem be_to_host_be32 (v : Nat) : be_to_host (host_to_be32 v) = v % 4294967296 := by
  simp only [be_to_host, host_to_be32, List.foldl_cons, List.foldl_nil]
  omega

theorem be_to_host_be16 (v : Nat) : be_to_host (host_to_be16 v) = v % 65536 := by
  simp only [be_to_host, host_to_be16, List.foldl_cons, List.foldl_nil]
  omega

theorem read_append (n : Nat) (v : ByteVec n) (s : List Nat) :
    ByteVec.read n (v.data ++ s) = v := by
  obtain ⟨d, hd⟩ := v
  unfold ByteVec.read
  subst hd
  simp

theorem search_option_add_option (p : ICMPv6) (o : PDUOption)
    (h : p.search_option o.option = none) :
    (p.add_option o).search_option o.option = some o := by
  unfold search_option at *
  rw [add_option_options, List.find?_append, h]
  simp

theorem flag_bits : ∀ L ≤ 1, ∀ A ≤ 1,
    ((L <<< 7) ||| (A <<< 6)) % 256 = L * 128 + A * 64
    ∧ ((L * 128 + A * 64) >>> 7) &&& 1 = L
    ∧ ((L * 128 + A * 64) >>> 6) &&& 1 = A := by
  decide

/-- The payload the `prefix_info` setter stores. -/
theorem prefix_info_payload (p : ICMPv6) (info : prefix_info_type)
    (hl : info.prefix_len < 256) (hA : info.A ≤ 1) (hL : info.L ≤ 1) :
    ICMPv6.prefix_info p info = p.add_option ⟨OptionTypes.PREFIX_INFO.code,
      [info.prefix_len, info.L * 128 + info.A * 64]
        ++ host_to_be32 info.valid_lifetime ++ host_to_be32 info.preferred_lifetime
        ++ [0, 0, 0, 0] ++ info.prefix_.data⟩ := by
  unfold ICMPv6.prefix_info
  dsimp only
  rw [(flag_bits info.L hL info.A hA).1, Nat.mod_eq_of_lt hl]
  rfl

/-- C21: for a `prefix_info` value within the ranges of its field types, the setter called
on a PDU without PREFIX_INFO option stores a record that `search_option` finds, with the
30-octet payload prefix_len, flags (L in bit 7, A in bit 6), big-endian valid_lifetime,
big-endian preferred_lifetime, four zero octets, prefix; `prefix_info_type::from_option` on
that record returns the value. -/
theorem prefix_info_roundtrip (p : ICMPv6) (info : prefix_info_type)
    (hn : p.search_option OptionTypes.PREFIX_INFO.code = none)
    (hl : info.prefix_len < 256) (hA : info.A ≤ 1) (hL : info.L ≤ 1)
    (hv : info.valid_lifetime < 4294967296) (hp : info.preferred_lifetime < 4294967296) :
    ∃ rec, (ICMPv6.prefix_info p info).search_option OptionTypes.PREFIX_INFO.code = some rec
      ∧ rec.data.length = 30
      ∧ rec.data = [info.prefix_len, info.L * 128 + info.A * 64]
          ++ host_to_be32 info.valid_lifetime ++ host_to_be32 info.preferred_lifetime
          ++ [0, 0, 0, 0] ++ info.prefix_.data
      ∧ prefix_info_type.from_option rec = .ok info := by
  rw [prefix_info_payload p info hl hA hL]
  refine ⟨_, search_option_add_option p _ hn, ?_, rfl, ?_⟩
  · simp [host_to_be32, info.prefix_.size_eq]
  · obtain ⟨h1, h2, h3⟩ := flag_bits info.L hL info.A hA
    have hsz : (⟨OptionTypes.PREFIX_INFO.code,
      [info.prefix_len, info.L * 128 + info.A * 64]
        ++ host_to_be32 info.valid_lifetime ++ host_to_be32 info.preferred_lifetime
        ++ [0, 0, 0, 0] ++ info.prefix_.data⟩ : PDUOption).data_size = 2 + 4 * 3 + 16 := by
      simp [PDUOption.data_size, host_to_be32, info.prefix_.size_eq]
    unfold prefix_info_type.from_option
    rw [if_neg (by rw [hsz]; simp)]
    have e1 := be_to_host_be32 info.valid_lifetime
    have e2 := be_to_host_be32 info.preferred_lifetime
    rw [Nat.mod_eq_of_lt hv] at e1
    rw [Nat.mod_eq_of_lt hp] at e2
    have e3 := read_append 16 info.prefix_ []
    simp only [List.append_nil] at e3
    simp only [host_to_be32] at e1 e2 ⊢
    simp only [List.cons_append, List.nil_append, List.getD_cons_zero, List.drop_succ_cons,
      List.drop_zero, List.take_succ_cons, List.take_zero, e1, e2, h2, h3, e3]

theorem prefix_info_roundtrip_witness :
    ∃ rec, (ICMPv6.prefix_info (from_type ROUTER_ADVERT)
        ⟨64, 1, 1, 2592000, 604800,
          ⟨[32, 1, 13, 184, 0, 0, 0, 0, 0, 0, 0, 0, 0, 0, 0, 0], rfl⟩⟩).search_option 3 = some rec
      ∧ rec.data = [64, 192, 0, 39, 141, 0, 0, 9, 58, 128, 0, 0, 0, 0,
          32, 1, 13, 184, 0, 0, 0, 0, 0, 0, 0, 0, 0, 0, 0, 0]
      ∧ prefix_info_type.from_option rec = .ok ⟨64, 1, 1, 2592000, 604800,
          ⟨[32, 1, 13, 184, 0, 0, 0, 0, 0, 0, 0, 0, 0, 0, 0, 0], rfl⟩⟩ := by
  obtain ⟨rec, h1, -, h2, h3⟩ := prefix_info_roundtrip (from_type ROUTER_ADVERT)
    ⟨64, 1, 1, 2592000, 604800, ⟨[32, 1, 13, 184, 0, 0, 0, 0, 0, 0, 0, 0, 0, 0, 0, 0], rfl⟩⟩
    rfl (by decide) (by decide) (by decide) (by decide) (by decide)
  exact ⟨rec, h1, h2, h3⟩

theorem nibble_bits : ∀ d < 16, ∀ q < 16,
    ((((d <<< 4) ||| q) % 256) >>> 4) &&& 0x0f = d ∧ (((d <<< 4) ||| q) % 256) &&& 0x0f = q := by
  decide

theorem top_bit : ∀ r ≤ 1, (((r <<< 7) % 256) >>> 7) &&& 0x01 = r := by
  decide

/-- The `map` setter followed by `map_type::from_option`: `dist`, `pref`, `r` and the address
come back; the lifetime comes back as the host reading of its big-endian memory image, which
is the lifetime on a big-endian host only. -/
theorem map_decoded (le : Bool) (p : ICMPv6) (value : map_type)
    (hd : value.dist < 16) (hq : value.pref < 16) (hr : value.r ≤ 1) :
    ∃ rec, (ICMPv6.map p value).options = p.options ++ [rec]
      ∧ rec.data.drop 2 = host_to_be32 value.valid_lifetime ++ value.address.data
      ∧ map_type.from_option le rec =
          .ok { value with
                valid_lifetime := memcpy_uint le (host_to_be32 value.valid_lifetime) } := by
  refine ⟨_, rfl, rfl, ?_⟩
  obtain ⟨h1, h2⟩ := nibble_bits value.dist hd value.pref hq
  have h3 := top_bit value.r hr
  have e3 := read_append 16 value.address []
  simp only [List.append_nil] at e3
  unfold map_type.from_option
  rw [if_neg (by simp [PDUOption.data_size, host_to_be32, value.address.size_eq])]
  simp only [host_to_be32]
  simp only [List.cons_append, List.nil_append, List.getD_cons_zero, List.drop_succ_cons,
    List.drop_zero, List.take_succ_cons, List.take_zero, h1, h2, h3, e3]

theorem memcpy_big_endian (v : Nat) (h : v < 4294967296) :
    memcpy_uint false (host_to_be32 v) = v := by
  unfold memcpy_uint
  simp only [Bool.false_eq_true, if_false]
  rw [be_to_host_be32, Nat.mod_eq_of_lt h]

/-- C22 (evaluation): the `map` setter stores the lifetime 1 as `00 00 00 01`; on a
little-endian host `map_type::from_option` returns the lifetime 16777216 for that record, on
a big-endian host it returns 1. -/
theorem map_lifetime_not_converted :
    ∃ rec, (ICMPv6.map (from_type ROUTER_ADVERT) ⟨1, 2, 1, 1, loopback⟩).options = [rec]
      ∧ rec.data = [18, 128, 0, 0, 0, 1] ++ loopback.data
      ∧ map_type.from_option true rec = .ok ⟨1, 2, 1, 16777216, loopback⟩
      ∧ map_type.from_option false rec = .ok ⟨1, 2, 1, 1, loopback⟩ :=
  ⟨_, rfl, rfl, rfl, rfl⟩

/-- The setter `new_home_agent_info` raises `malformed_option` exactly when the value does
not have three elements. -/
theorem new_home_agent_info_error (p : ICMPv6) (value : List Nat) :
    (p.new_home_agent_info value = .error .malformed_option ↔ value.length ≠ 3)
    ∧ ((∃ q, p.new_home_agent_info value = .ok q) ↔ value.length = 3) := by
  unfold new_home_agent_info
  by_cases h : value.length = 3 <;> simp [h]

/-- C23 (evaluation): for the value (1, 2, 3) the stored HOME_AGENT_INFO payload is
`00 00 00 02 00 03`: the first value is overwritten by the second at payload offset 2, and
payload offset 0 stays zero. -/
theorem home_agent_info_loses_first_value :
    (from_type ROUTER_ADVERT).new_home_agent_info [1, 2, 3]
      = .ok ((from_type ROUTER_ADVERT).add_option ⟨8, [0, 0, 0, 2, 0, 3]⟩) :=
  rfl

/-- C24 (evaluation): for a prefix of one byte the stored ROUTE_INFO payload holds the prefix
byte followed by 14 zero bytes, twice the 7 bytes of padding, and `|payload| + 2 = 23` is not
a multiple of 8. -/
theorem route_info_pads_twice :
    (ICMPv6.route_info (from_type ROUTER_ADVERT) ⟨8, 1, 600, [32]⟩).options
      = [⟨24, [8, 8, 0, 0, 2, 88, 32] ++ List.replicate 14 0⟩]
    ∧ (([8, 8, 0, 0, 2, 88, 32] ++ List.replicate 14 0).length + 2) % 8 = 7 := by
  decide

theorem padding8_eq (n : Nat) : padding8 n = (8 - n % 8) % 8 := by
  unfold padding8
  dsimp only
  split_ifs <;> omega

theorem padding8_mod32 (n : Nat) : padding8 (n % 4294967296) = padding8 n := by
  rw [padding8_eq, padding8_eq]
  omega

/-- C25 (amended): for an RSA signature value with a non-empty signature, the record stored
by the `rsa_signature` setter decodes to the same key hash and to the signature followed by
the zero bytes the setter padded with, `(8 - (|signature| + 20) mod 8) mod 8` of them; the
decoded value is the original one when `(|signature| + 20) mod 8 = 0`. -/
theorem rsa_signature_decoded (p : ICMPv6) (value : rsa_sign_type)
    (hs : value.signature ≠ []) :
    ∃ rec, (p.rsa_signature value).options = p.options ++ [rec]
      ∧ rsa_sign_type.from_option rec =
          .ok ⟨value.key_hash, value.signature
            ++ List.replicate ((8 - (value.signature.length + 20) % 8) % 8) 0⟩
      ∧ ((value.signature.length + 20) % 8 = 0 → rsa_sign_type.from_option rec = .ok value) := by
  have hpad : padding8 ((4 + 16 + value.signature.length) % 4294967296)
      = (8 - (value.signature.length + 20) % 8) % 8 := by
    rw [padding8_mod32, padding8_eq]
    omega
  have hrec : p.rsa_signature value = p.add_option ⟨OptionTypes.RSA_SIGN.code,
      [0, 0] ++ (value.key_hash.data ++ (value.signature
        ++ List.replicate ((8 - (value.signature.length + 20) % 8) % 8) 0))⟩ := by
    unfold rsa_signature
    dsimp only
    rw [hpad]
    simp [List.replicate]
  have hlen : 0 < value.signature.length := List.length_pos.2 hs
  have hdec : rsa_sign_type.from_option ⟨OptionTypes.RSA_SIGN.code,
      [0, 0] ++ (value.key_hash.data ++ (value.signature
        ++ List.replicate ((8 - (value.signature.length + 20) % 8) % 8) 0))⟩
      = .ok ⟨value.key_hash, value.signature
            ++ List.replicate ((8 - (value.signature.length + 20) % 8) % 8) 0⟩ := by
    unfold rsa_sign_type.from_option
    rw [if_neg (by
      simp only [PDUOption.data_size, List.length_append, List.length_cons, List.length_nil,
        value.key_hash.size_eq, List.length_replicate]
      omega)]
    have hk := value.key_hash.size_eq
    simp only [List.cons_append, List.nil_append, List.drop_succ_cons, List.drop_zero,
      read_append]
    rw [List.drop_left' hk]
  rw [hrec]
  refine ⟨_, rfl, hdec, ?_⟩
  intro h0
  rw [hdec, h0]
  simp

theorem rsa_signature_decoded_witness :
    ∃ rec, ((from_type NEIGHBOUR_ADVERT).rsa_signature
        ⟨ByteVec.zero 16, [1, 2, 3, 4]⟩).options = [] ++ [rec]
      ∧ rsa_sign_type.from_option rec = .ok ⟨ByteVec.zero 16, [1, 2, 3, 4]⟩ := by
  obtain ⟨rec, h1, -, h3⟩ := rsa_signature_decoded (from_type NEIGHBOUR_ADVERT)
    ⟨ByteVec.zero 16, [1, 2, 3, 4]⟩ (by decide)
  exact ⟨rec, h1, h3 (by decide)⟩

/-- C25 (counterexample): for the one-byte signature `05` the record stored by the setter
decodes to the four-byte signature `05 00 00 00`. -/
theorem rsa_signature_returns_padding :
    ∃ rec, ((from_type NEIGHBOUR_ADVERT).rsa_signature ⟨ByteVec.zero 16, [5]⟩).options = [rec]
      ∧ rsa_sign_type.from_option rec = .ok ⟨ByteVec.zero 16, [5, 0, 0, 0]⟩
      ∧ ([5, 0, 0, 0] : List Nat) ≠ [5] :=
  ⟨_, rfl, rfl, by decide⟩

theorem read_data (n : Nat) (s : List Nat) (h : n ≤ s.length) :
    (ByteVec.read n s).data = s.take n := by
  unfold ByteVec.read
  simp only
  rw [List.take_append_of_le_length h]

theorem read_addresses_spec (n : Nat) : ∀ s : List Nat, s.length = 16 * n →
    (read_addresses s).length = n
      ∧ ((read_addresses s).map ByteVec.data).flatten = s := by
  induction n with
  | zero =>
    intro s hs
    have : s = [] := List.length_eq_zero.1 (by omega)
    subst this
    simp [read_addresses]
  | succ n ih =>
    intro s hs
    cases s with
    | nil => simp at hs
    | cons b rest =>
      rw [read_addresses]
      have hd : ((b :: rest).drop 16).length = 16 * n := by
        rw [List.length_drop, hs]; omega
      obtain ⟨h1, h2⟩ := ih _ hd
      refine ⟨by rw [List.length_cons, h1], ?_⟩
      rw [List.map_cons, List.flatten_cons, h2, read_data 16 _ (by rw [hs]; omega),
        List.take_append_drop]

/-- C26 (amended): `addr_list_type::from_option` succeeds exactly when the payload has at
least 22 octets (six reserved octets and one address) and `(|payload| - 6) mod 16 = 0`; it
then returns the six reserved octets and the `(|payload| - 6) / 16` addresses in wire order;
for every other payload length it raises `malformed_option`. -/
theorem addr_list_from_option_iff (opt : PDUOption) :
    ((∃ v, addr_list_type.from_option opt = .ok v)
        ↔ (22 ≤ opt.data.length ∧ (opt.data.length - 6) % 16 = 0))
    ∧ (∀ v, addr_list_type.from_option opt = .ok v →
        v.reserved.data = opt.data.take 6
          ∧ v.addresses.length = (opt.data.length - 6) / 16
          ∧ (v.addresses.map ByteVec.data).flatten = opt.data.drop 6)
    ∧ (¬ (22 ≤ opt.data.length ∧ (opt.data.length - 6) % 16 = 0) →
        addr_list_type.from_option opt = .error .malformed_option) := by
  unfold addr_list_type.from_option PDUOption.data_size
  by_cases h : opt.data.length < 6 + 16 ∨ (opt.data.length - 6) % 16 ≠ 0
  · rw [if_pos h]
    refine ⟨?_, ?_, ?_⟩
    · constructor
      · rintro ⟨v, hv⟩; simp at hv
      · intro h2; omega
    · intro v hv; simp at hv
    · intro _; rfl
  · rw [if_neg h]
    have h22 : 22 ≤ opt.data.length := by omega
    have h16 : (opt.data.length - 6) % 16 = 0 := by omega
    refine ⟨?_, ?_, ?_⟩
    · constructor
      · intro _; exact ⟨h22, h16⟩
      · intro _; exact ⟨_, rfl⟩
    · intro v hv
      simp only [Except.ok.injEq] at hv
      subst hv
      have hl : (opt.data.drop 6).length = 16 * ((opt.data.length - 6) / 16) := by
        rw [List.length_drop]; omega
      obtain ⟨h1, h2⟩ := read_addresses_spec _ _ hl
      exact ⟨read_data 6 _ (by omega), h1, h2⟩
    · intro hn; exact absurd ⟨h22, h16⟩ hn

/-- C26 (counterexample): a payload of six octets has at least six octets and
`(6 - 6) mod 16 = 0`, and the decoder raises `malformed_option` on it; the `source_addr_list`
setter stores such a payload for an empty address list. -/
theorem addr_list_rejects_empty_list :
    addr_list_type.from_option ⟨9, [0, 0, 0, 0, 0, 0]⟩ = .error .malformed_option
    ∧ ((from_type NEIGHBOUR_ADVERT).source_addr_list ⟨ByteVec.zero 6, []⟩).options
        = [⟨9, [0, 0, 0, 0, 0, 0]⟩] :=
  ⟨rfl, rfl⟩

theorem at_bits : ∀ a ≤ 3, (a <<< 4) % 256 = a * 16 ∧ ((a * 16) >>> 4) &&& 0x3 = a := by
  decide

/-- The payload the `handover_key_request` setter stores. -/
theorem handover_key_request_payload (p : ICMPv6) (value : handover_key_req_type)
    (hAT : value.AT ≤ 3) :
    p.handover_key_request value = p.add_option ⟨OptionTypes.HANDOVER_KEY_REQ.code,
      [padding8 (value.key.length + 4), value.AT * 16] ++ value.key
        ++ List.replicate (padding8 (value.key.length + 4)) 0⟩ := by
  unfold handover_key_request
  dsimp only
  rw [(at_bits value.AT hAT).1]
  generalize padding8 (value.key.length + 4) = pad
  have hr : List.replicate (2 + value.key.length + pad) 0
      = 0 :: 0 :: List.replicate (value.key.length + pad) 0 := by
    rw [show 2 + value.key.length + pad = (value.key.length + pad) + 1 + 1 by omega]
    rfl
  rw [hr]
  have h0 : store (0 :: 0 :: List.replicate (value.key.length + pad) 0) 0 [pad]
      = pad :: 0 :: List.replicate (value.key.length + pad) 0 := by
    simp [store]
  have h1 : store (pad :: 0 :: List.replicate (value.key.length + pad) 0) 1 [value.AT * 16]
      = pad :: (value.AT * 16) :: List.replicate (value.key.length + pad) 0 := by
    simp [store]
  have h2 := store_append [pad, value.AT * 16] value.key
    (List.replicate (value.key.length + pad) 0) (by simp)
  have h3 : (List.replicate (value.key.length + pad) 0).drop value.key.length
      = List.replicate pad 0 := by
    simp
  rw [h3] at h2
  simp only [List.cons_append, List.nil_append, List.length_cons, List.length_nil] at h2
  rw [h0, h1, h2]
  have h4 : (pad :: (value.AT * 16) :: (value.key ++ List.replicate pad 0)).take
      (2 + value.key.length) = pad :: (value.AT * 16) :: value.key := by
    rw [show 2 + value.key.length = value.key.length + 1 + 1 by omega]
    simp
  rw [h4]
  have h5 : (pad :: (value.AT * 16) :: (value.key ++ List.replicate pad 0)).length
      - (2 + value.key.length) = pad := by
    simp only [List.length_cons, List.length_append, List.length_replicate]
    omega
  rw [h5]
  simp

/-- C30: for every key and every `AT` in 0..3 the `handover_key_request` setter stores the
payload `p`, `AT << 4`, key, `p` zero bytes, where `0 ≤ p ≤ 7` makes `|payload| + 2` a
multiple of 8; `handover_key_req_type::from_option` on that record succeeds and returns the
same `AT` and exactly the original key. -/
theorem handover_key_request_roundtrip (p : ICMPv6) (value : handover_key_req_type)
    (hAT : value.AT ≤ 3) :
    ∃ rec pad, (p.handover_key_request value).options = p.options ++ [rec]
      ∧ pad ≤ 7
      ∧ rec.data = [pad, value.AT * 16] ++ value.key ++ List.replicate pad 0
      ∧ (rec.data.length + 2) % 8 = 0
      ∧ handover_key_req_type.from_option rec = .ok value := by
  rw [handover_key_request_payload p value hAT]
  obtain ⟨hp1, hp2⟩ := padding8_spec (value.key.length + 4)
  generalize padding8 (value.key.length + 4) = pad at hp1 hp2 ⊢
  have hlen : ([pad, value.AT * 16] ++ value.key ++ List.replicate pad 0).length
      = 2 + value.key.length + pad := by
    simp only [List.length_append, List.length_cons, List.length_nil, List.length_replicate]
  refine ⟨_, pad, rfl, by omega, rfl, ?_, ?_⟩
  · show (([pad, value.AT * 16] ++ value.key ++ List.replicate pad 0).length + 2) % 8 = 0
    rw [hlen]
    omega
  · unfold handover_key_req_type.from_option
    rw [if_neg (by
      show ¬ ([pad, value.AT * 16] ++ value.key ++ List.replicate pad 0).length < 2 + 4
      rw [hlen]; omega)]
    simp only [List.cons_append, List.nil_append, List.drop_succ_cons, List.drop_zero,
      List.getD_cons_zero, (at_bits value.AT hAT).2, List.length_append, List.length_replicate]
    rw [if_neg (by omega)]
    rw [show value.key.length + pad - pad = value.key.length by omega, List.take_left]

theorem handover_key_request_roundtrip_witness :
    ∃ rec pad, ((from_type ROUTER_SOLICIT).handover_key_request ⟨2, [9, 8, 7]⟩).options
        = [] ++ [rec]
      ∧ pad ≤ 7 ∧ rec.data = [pad, 2 * 16] ++ [9, 8, 7] ++ List.replicate pad 0
      ∧ (rec.data.length + 2) % 8 = 0
      ∧ handover_key_req_type.from_option rec = .ok ⟨2, [9, 8, 7]⟩ :=
  handover_key_request_roundtrip (from_type ROUTER_SOLICIT) ⟨2, [9, 8, 7]⟩ (by decide)

/-- The decoders other than `recursive_dns_type`, `handover_key_req_type` and
`dns_search_list_type` raise `malformed_option` and nothing else. -/
theorem decoders_raise_malformed_option (opt : PDUOption) (e : Error) :
    (addr_list_type.from_option opt = .error e → e = .malformed_option)
    ∧ (naack_type.from_option opt = .error e → e = .malformed_option)
    ∧ (lladdr_type.from_option opt = .error e → e = .malformed_option)
    ∧ (prefix_info_type.from_option opt = .error e → e = .malformed_option)
    ∧ (rsa_sign_type.from_option opt = .error e → e = .malformed_option)
    ∧ (ip_prefix_type.from_option opt = .error e → e = .malformed_option)
    ∧ (∀ le, map_type.from_option le opt = .error e → e = .malformed_option)
    ∧ (route_info_type.from_option opt = .error e → e = .malformed_option)
    ∧ (handover_key_reply_type.from_option opt = .error e → e = .malformed_option)
    ∧ (handover_assist_info_type.from_option opt = .error e → e = .malformed_option)
    ∧ (mobile_node_id_type.from_option opt = .error e → e = .malformed_option)
    ∧ (timestamp_type.from_option opt = .error e → e = .malformed_option)
    ∧ (shortcut_limit_type.from_option opt = .error e → e = .malformed_option)
    ∧ (new_advert_interval_type.from_option opt = .error e → e = .malformed_option) := by
  refine ⟨?_, ?_, ?_, ?_, ?_, ?_, ?_, ?_, ?_, ?_, ?_, ?_, ?_, ?_⟩
  · unfold addr_list_type.from_option; intro h; split_ifs at h; simp at h; exact h.symm
  · unfold naack_type.from_option; intro h; split_ifs at h; simp at h; exact h.symm
  · unfold lladdr_type.from_option; intro h; split_ifs at h; simp at h; exact h.symm
  · unfold prefix_info_type.from_option; intro h; split_ifs at h; simp at h; exact h.symm
  · unfold rsa_sign_type.from_option; intro h; split_ifs at h; simp at h; exact h.symm
  · unfold ip_prefix_type.from_option; intro h; split_ifs at h; simp at h; exact h.symm
  · intro le; unfold map_type.from_option; intro h; split_ifs at h; simp at h; exact h.symm
  · unfold route_info_type.from_option; intro h; split_ifs at h; simp at h; exact h.symm
  · unfold handover_key_reply_type.from_option; intro h; dsimp only at h
    split_ifs at h <;> simp at h <;> exact h.symm
  · unfold handover_assist_info_type.from_option; intro h; dsimp only at h
    split_ifs at h <;> simp at h <;> exact h.symm
  · unfold mobile_node_id_type.from_option; intro h; dsimp only at h
    split_ifs at h <;> simp at h <;> exact h.symm
  · unfold timestamp_type.from_option; intro h; split_ifs at h; simp at h; exact h.symm
  · unfold shortcut_limit_type.from_option; intro h; split_ifs at h; simp at h; exact h.symm
  · unfold new_advert_interval_type.from_option; intro h; split_ifs at h; simp at h
    exact h.symm

/-- C27 (evaluation): three decoders raise `option_not_found` on a payload that is present:
`handover_key_req_type` on a payload of five octets, `recursive_dns_type` on a payload whose
address bytes are not a whole number of addresses (23 octets), and `dns_search_list_type` on
a payload whose last label is cut short. -/
theorem decoders_raise_option_not_found :
    handover_key_req_type.from_option ⟨27, [0, 0, 0, 0, 0]⟩ = .error .option_not_found
    ∧ recursive_dns_type.from_option ⟨25, List.replicate 23 0⟩ = .error .option_not_found
    ∧ dns_search_list_type.from_option ⟨31, [0, 0, 0, 0, 0, 60, 5, 97]⟩
        = .error .option_not_found := by
  refine ⟨rfl, ?_, ?_⟩
  · simp [recursive_dns_type.from_option, PDUOption.data_size, read_servers, List.replicate]
  · simp [dns_search_list_type.from_option, PDUOption.data_size, read_domains]

/-! ## DNS search list -/

/-- One turn of the inner loop of the decoder: a label that is present in full. -/
theorem read_domains_label (l s : List Nat) (st : Option (List Nat)) (pre : List Nat)
    (out : List (List Nat)) (hl : l ≠ [])
    (hst : (st = none ∧ pre = []) ∨ (∃ d, d ≠ [] ∧ st = some d ∧ pre = d ++ [46])) :
    read_domains (l.length :: (l ++ s)) st out = read_domains s (some (pre ++ l)) out := by
  have hpos : 0 < l.length := List.length_pos.2 hl
  have hne : l.length ≠ 0 := by omega
  have hlt : l.length < (l.length :: (l ++ s)).length := by
    simp only [List.length_cons, List.length_append]; omega
  rcases hst with ⟨rfl, rfl⟩ | ⟨d, hd, rfl, rfl⟩
  · rw [read_domains]
    rw [if_neg hne, if_pos hlt, List.drop_left, List.take_left]
    rfl
  · rw [read_domains]
    rw [if_pos ⟨hne, hlt⟩, List.drop_left, List.take_left, if_pos hd]

theorem read_domains_delimiter (s d : List Nat) (out : List (List Nat)) :
    read_domains (0 :: s) (some d) out = read_domains s none (out ++ [d]) := by
  rw [read_domains]
  simp

theorem read_domains_padding (k : Nat) (out : List (List Nat)) :
    read_domains (List.replicate k 0) none out = .ok out := by
  cases k with
  | zero => simp [read_domains]
  | succ k => rw [List.replicate_succ, read_domains]; simp

/-- The decoder on the labels the setter writes for the rest of a name. -/
theorem read_domains_labels : ∀ (rest cur : List Nat) (st : Option (List Nat))
    (pre s : List Nat) (out : List (List Nat)),
    well_formed_name rest cur.length = true →
    ((st = none ∧ pre = []) ∨ (∃ d, d ≠ [] ∧ st = some d ∧ pre = d ++ [46])) →
    read_domains (encode_labels rest cur ++ s) st out
      = read_domains s (some (pre ++ cur ++ rest)) out := by
  intro rest
  induction rest with
  | nil =>
    intro cur st pre s out hw hst
    simp only [well_formed_name, decide_eq_true_eq] at hw
    have hc : cur ≠ [] := List.length_pos.1 hw.1
    simp only [encode_labels, Nat.mod_eq_of_lt hw.2, List.cons_append, List.append_nil]
    exact read_domains_label cur s st pre out hc hst
  | cons c r ih =>
    intro cur st pre s out hw hst
    by_cases h46 : c = 46
    · subst h46
      simp only [well_formed_name, if_true, Bool.and_eq_true, decide_eq_true_eq] at hw
      obtain ⟨⟨h0, h256⟩, hwr⟩ := hw
      have hc : cur ≠ [] := List.length_pos.1 h0
      simp only [encode_labels, if_true, Nat.mod_eq_of_lt h256, List.cons_append,
        List.append_assoc]
      rw [read_domains_label cur _ st pre out hc hst]
      have hne : pre ++ cur ≠ [] := by simp [hc]
      rw [ih [] (some (pre ++ cur)) (pre ++ cur ++ [46]) s out hwr
        (Or.inr ⟨pre ++ cur, hne, rfl, rfl⟩)]
      simp
    · simp only [well_formed_name, if_neg h46] at hw
      simp only [encode_labels, if_neg h46]
      have hw2 : well_formed_name r (cur ++ [c]).length = true := by
        rw [List.length_append]; exact hw
      rw [ih (cur ++ [c]) st pre s out hw2 hst]
      simp

theorem read_domains_names : ∀ (ds : List (List Nat)) (s : List Nat) (out : List (List Nat)),
    (∀ d ∈ ds, well_formed_name d 0 = true) →
    read_domains (names_wire ds ++ s) none out = read_domains s none (out ++ ds) := by
  intro ds
  induction ds with
  | nil => intro s out _; simp [names_wire]
  | cons d ds ih =>
    intro s out h
    simp only [names_wire, List.append_assoc]
    rw [read_domains_labels d [] none [] _ out (h d (by simp)) (Or.inl ⟨rfl, rfl⟩)]
    simp only [List.nil_append, List.singleton_append]
    rw [read_domains_delimiter, ih s _ (fun d' hd' => h d' (by simp [hd']))]
    simp

theorem foldl_names_wire (ds : List (List Nat)) (buffer : List Nat) :
    ds.foldl (fun buf it => buf ++ encode_labels it [] ++ [0]) buffer
      = buffer ++ names_wire ds := by
  induction ds generalizing buffer with
  | nil => simp [names_wire]
  | cons d ds ih => rw [List.foldl_cons, ih]; simp [names_wire]

/-- The payload the `dns_search_list` setter stores. -/
theorem dns_search_list_payload (p : ICMPv6) (value : dns_search_list_type) :
    p.dns_search_list value = p.add_option ⟨OptionTypes.DNS_SEARCH_LIST.code,
      [0, 0] ++ host_to_be32 value.lifetime ++ names_wire value.domains
        ++ List.replicate (padding8 (6 + (names_wire value.domains).length + 2)) 0⟩ := by
  unfold dns_search_list
  dsimp only
  have h0 : store (List.replicate (2 + 4) 0) 2 (host_to_be32 value.lifetime)
      = [0, 0] ++ host_to_be32 value.lifetime := by
    simp [store, host_to_be32, List.replicate]
  rw [h0, foldl_names_wire]
  have hl : ([0, 0] ++ host_to_be32 value.lifetime ++ names_wire value.domains).length
      = 6 + (names_wire value.domains).length := by
    simp [host_to_be32]; omega
  rw [hl]

/-- The decoder on a payload made of two reserved octets, a big-endian lifetime and any
further bytes. -/
theorem dns_search_list_from_option (kind r0 r1 lifetime : Nat) (body : List Nat)
    (hl : lifetime < 4294967296) :
    dns_search_list_type.from_option ⟨kind, [r0, r1] ++ host_to_be32 lifetime ++ body⟩
      = match read_domains body none [] with
        | .error e => .error e
        | .ok domains => .ok ⟨lifetime, domains⟩ := by
  have e1 := be_to_host_be32 lifetime
  rw [Nat.mod_eq_of_lt hl] at e1
  unfold dns_search_list_type.from_option
  rw [if_neg (by simp [PDUOption.data_size, host_to_be32])]
  simp only [host_to_be32] at e1 ⊢
  simp only [List.cons_append, List.nil_append, List.drop_succ_cons, List.drop_zero,
    List.take_succ_cons, List.take_zero, e1]
  try rfl

/-- C29: for every lifetime below 2^32 and every list of domain names that are non-empty,
have no empty label and only labels shorter than 256 bytes, the record stored by the
`dns_search_list` setter decodes with `dns_search_list_type::from_option` to the same
lifetime and the same names in the same order. -/
theorem dns_search_list_roundtrip (p : ICMPv6) (value : dns_search_list_type)
    (hl : value.lifetime < 4294967296)
    (hd : ∀ d ∈ value.domains, well_formed_name d 0 = true) :
    ∃ rec, (p.dns_search_list value).options = p.options ++ [rec]
      ∧ rec.option = OptionTypes.DNS_SEARCH_LIST.code
      ∧ dns_search_list_type.from_option rec = .ok value := by
  rw [dns_search_list_payload]
  refine ⟨_, rfl, rfl, ?_⟩
  rw [List.append_assoc, dns_search_list_from_option _ 0 0 _ _ hl,
    read_domains_names value.domains _ [] hd, read_domains_padding]
  simp

theorem dns_search_list_roundtrip_witness :
    ∃ rec, ((from_type ROUTER_ADVERT).dns_search_list
        ⟨60, [[97, 46, 98, 99], [100]]⟩).options = [] ++ [rec]
      ∧ rec.option = 31
      ∧ dns_search_list_type.from_option rec = .ok ⟨60, [[97, 46, 98, 99], [100]]⟩ :=
  dns_search_list_roundtrip (from_type ROUTER_ADVERT) ⟨60, [[97, 46, 98, 99], [100]]⟩
    (by decide) (by decide)

/-- C28 (amended): `dns_search_list_type::from_option` accepts a payload in which, after
well-formed names, a label with length octet `L ≥ 1` is followed by exactly `L` label bytes
that end the payload: the label is returned as the last name, or, when labels of the same
name precede it, as the last label of the last name. -/
theorem dns_search_list_accepts_final_label (kind r0 r1 lifetime : Nat)
    (domains : List (List Nat)) (label : List Nat)
    (hl : lifetime < 4294967296) (hd : ∀ d ∈ domains, well_formed_name d 0 = true)
    (h1 : 1 ≤ label.length) :
    dns_search_list_type.from_option
        ⟨kind, [r0, r1] ++ host_to_be32 lifetime
          ++ (names_wire domains ++ (label.length :: label))⟩
      = .ok ⟨lifetime, domains ++ [label]⟩
    ∧ ∀ name, well_formed_name name 0 = true →
        dns_search_list_type.from_option
          ⟨kind, [r0, r1] ++ host_to_be32 lifetime
            ++ (names_wire domains ++ (encode_labels name [] ++ (label.length :: label)))⟩
        = .ok ⟨lifetime, domains ++ [name ++ [46] ++ label]⟩ := by
  have hne : label ≠ [] := List.length_pos.1 h1
  have hlast : ∀ st pre out,
      ((st = none ∧ pre = []) ∨ (∃ d, d ≠ [] ∧ st = some d ∧ pre = d ++ [46])) →
      read_domains (label.length :: label) st out = .ok (out ++ [pre ++ label]) := by
    intro st pre out hst
    have h := read_domains_label label [] st pre out hne hst
    rw [List.append_nil] at h
    rw [h]
    simp [read_domains]
  constructor
  · rw [dns_search_list_from_option _ _ _ _ _ hl, read_domains_names domains _ [] hd,
      hlast none [] _ (Or.inl ⟨rfl, rfl⟩)]
    simp
  · intro name hn
    have hnn : name ≠ [] := by
      intro h; subst h; simp [well_formed_name] at hn
    rw [dns_search_list_from_option _ _ _ _ _ hl, read_domains_names domains _ [] hd,
      read_domains_labels name [] none [] _ _ hn (Or.inl ⟨rfl, rfl⟩)]
    simp only [List.nil_append]
    rw [hlast (some name) (name ++ [46]) _ (Or.inr ⟨name, hnn, rfl, rfl⟩)]

theorem dns_search_list_accepts_final_label_witness :
    dns_search_list_type.from_option ⟨31, [0, 0, 0, 0, 0, 60, 1, 97, 0, 2, 98, 99]⟩
      = .ok ⟨60, [[97], [98, 99]]⟩ :=
  (dns_search_list_accepts_final_label 31 0 0 60 [[97]] [98, 99] (by decide) (by decide)
    (by decide)).1

/-- C28 (counterexample): the payload `00 00 00 00 00 3c 03 61 62 63`, whose label of length 3
is followed by exactly three bytes that end the payload, is accepted and decodes to the single
name `abc`. -/
theorem dns_search_list_final_label_not_rejected :
    dns_search_list_type.from_option ⟨31, [0, 0, 0, 0, 0, 60, 3, 97, 98, 99]⟩
      = .ok ⟨60, [[97, 98, 99]]⟩ := by
  simp [dns_search_list_type.from_option, PDUOption.data_size, read_domains, be_to_host]

/-! ## Padding of the handover options -/

/-- C31 (evaluation): for a `hai` of one byte the stored HANDOVER_ASSIST_INFO payload holds
six zero bytes behind it, twice the three bytes of padding, and `|payload| + 2 = 11` is not a
multiple of 8; for a `hai` of five bytes the payload ends in 14 zero bytes.  The
`mobile_node_identifier` setter stores the same bytes for the same `mn`. -/
theorem handover_assist_info_pads_twice :
    ((from_type ROUTER_ADVERT).handover_assist_info ⟨1, [7]⟩).options
        = [⟨29, [1, 1, 7] ++ List.replicate 6 0⟩]
    ∧ (([1, 1, 7] ++ List.replicate 6 0).length + 2) % 8 = 3
    ∧ ((from_type ROUTER_ADVERT).handover_assist_info ⟨1, [7, 7, 7, 7, 7]⟩).options
        = [⟨29, [1, 5, 7, 7, 7, 7, 7] ++ List.replicate 14 0⟩]
    ∧ ((from_type ROUTER_ADVERT).mobile_node_identifier ⟨1, [7]⟩).options
        = [⟨30, [1, 1, 7] ++ List.replicate 6 0⟩]
    ∧ ((from_type ROUTER_ADVERT).mobile_node_identifier ⟨1, [7, 7, 7, 7, 7]⟩).options
        = [⟨30, [1, 5, 7, 7, 7, 7, 7] ++ List.replicate 14 0⟩] := by
  decide

/-! ## Serializing twice -/

theorem set_length_field_u0 (p : ICMPv6) :
    p.set_length_field.header.u0 =
      if p.are_extensions_allowed = true
          ∧ (p.header.u0 ≠ 0 ∨ p.get_adjusted_inner_pdu_size > 128) then
        (if p.get_adjusted_inner_pdu_size ≠ 0 then max p.get_adjusted_inner_pdu_size 128 else 0)
          / 8 % 256
      else p.header.u0 := by
  unfold set_length_field ICMPv6.length
  dsimp only
  by_cases ha : p.are_extensions_allowed = true
  · by_cases hc : p.header.u0 ≠ 0 ∨ p.get_adjusted_inner_pdu_size > 128
    · simp only [ha, hc, and_self, if_true]
    · simp only [ha, hc, and_false, if_true, if_false]
  · simp only [ha, Bool.false_eq_true, false_and, if_false]

/-- The length octet `set_length_field` computes is a fixed point: after it is stored,
`set_length_field` computes it again. -/
theorem set_length_field_stable (p : ICMPv6) (k0 k1 : Nat) :
    ({ p with header := { p.header with
        u0 := p.set_length_field.header.u0, cksum0 := k0, cksum1 := k1 } }
      : ICMPv6).set_length_field.zero_cksum = p.set_length_field.zero_cksum := by
  have e2 : p.set_length_field.zero_cksum =
      { p with header := { p.header with
          u0 := p.set_length_field.header.u0, cksum0 := 0, cksum1 := 0 } } := by
    rw [set_length_field_eq]
    rfl
  rw [e2]
  generalize hq : ({ p with header := { p.header with
        u0 := p.set_length_field.header.u0, cksum0 := k0, cksum1 := k1 } } : ICMPv6) = q
  have ha : q.are_extensions_allowed = p.are_extensions_allowed := by rw [← hq]; rfl
  have hv : q.get_adjusted_inner_pdu_size = p.get_adjusted_inner_pdu_size := by
    rw [← hq]; rfl
  have hqu : q.header.u0 = p.set_length_field.header.u0 := by rw [← hq]
  have hu : q.set_length_field.header.u0 = p.set_length_field.header.u0 := by
    have hX := set_length_field_u0 p
    rw [set_length_field_u0 q, ha, hv, hqu]
    generalize p.set_length_field.header.u0 = X at hX ⊢
    generalize (if p.get_adjusted_inner_pdu_size ≠ 0 then max p.get_adjusted_inner_pdu_size 128
      else 0) / 8 % 256 = V at hX ⊢
    by_cases h1 : p.are_extensions_allowed = true
        ∧ (p.header.u0 ≠ 0 ∨ p.get_adjusted_inner_pdu_size > 128)
    · rw [if_pos h1] at hX
      subst hX
      split_ifs <;> rfl
    · rw [if_neg h1] at hX
      subst hX
      rw [if_neg h1]
  rw [set_length_field_eq q, hu, ← hq]
  rfl

/-- A second `write_serialization` on the state the first one left, over the same buffer,
gives the same output and leaves the state as it is. -/
theorem write_serialization_again (p : ICMPv6) (buffer : List Nat) (parent : Option IPv6)
    (p1 : ICMPv6) (out : List Nat) (h : p.write_serialization buffer parent = .ok (p1, out)) :
    p1.write_serialization buffer parent = .ok (p1, out)
      ∧ p1.size = p.size ∧ p1.header_size = p.header_size ∧ p1.inner_pdu = p.inner_pdu := by
  have hl := (write_serialization_fields p buffer parent p1 out h).1
  obtain ⟨k0, k1, out', hs, -, -, -⟩ := write_serialization_state p buffer parent hl
  have hst := set_length_field_stable p k0 k1
  generalize hq : ({ p with header := { p.header with
        u0 := p.set_length_field.header.u0, cksum0 := k0, cksum1 := k1 } } : ICMPv6) = q
    at hs hst
  rw [h] at hs
  simp only [Except.ok.injEq, Prod.mk.injEq] at hs
  obtain ⟨rfl, rfl⟩ := hs
  have hfl : p1.fields_wire.length = p.fields_wire.length := by
    rw [fields_wire_length, fields_wire_length, ← hq]
    rfl
  refine ⟨?_, by rw [← hq]; rfl, by rw [← hq]; rfl, by rw [← hq]⟩
  rw [write_serialization_eq] at h ⊢
  rw [hfl, hst]
  exact h

/-- C33: a second serialization right after a first one, with the same parent, gives the same
bytes and leaves every field of the PDU as the first one left it, for `write_serialization`
over the same buffer and for `serialize`; and `serialize` succeeds for a PDU whose counter
agrees with its option list and whose size fits 32 bits. -/
theorem serialize_twice (p : ICMPv6) (parent : Option IPv6) :
    (∀ buffer p1 out, p.write_serialization buffer parent = .ok (p1, out) →
        p1.write_serialization buffer parent = .ok (p1, out))
    ∧ (∀ p1 out, p.serialize parent = .ok (p1, out) → p1.serialize parent = .ok (p1, out))
    ∧ (p.counter_ok → p.wire_size < 4294967296 →
        ∃ p1 out, p.serialize parent = .ok (p1, out) ∧ p1.serialize parent = .ok (p1, out)) := by
  have h2 : ∀ p1 out, p.serialize parent = .ok (p1, out) →
      p1.serialize parent = .ok (p1, out) := by
    intro p1 out h
    unfold serialize at h ⊢
    dsimp only at h ⊢
    obtain ⟨ha, hsz, hhs, hin⟩ := write_serialization_again p _ parent p1 out h
    rw [hsz, hhs, hin]
    exact ha
  refine ⟨fun buffer p1 out h => (write_serialization_again p buffer parent p1 out h).1, h2, ?_⟩
  intro hc hw
  obtain ⟨p1, out, h, -, -⟩ := serialize_length_octet p parent hc hw
  exact ⟨p1, out, h, h2 p1 out h⟩

/-! ## The option loop of the parser -/

theorem padded_total (os : List PDUOption) (h : ∀ o ∈ os, o.padded) :
    options_total os % 8 = 0 ∧ 8 * os.length ≤ options_total os
      ∧ ∀ o ∈ os, 8 ≤ o.data.length + 2 := by
  induction os with
  | nil => simp [options_total]
  | cons o os ih =>
    obtain ⟨h1, h2, h3⟩ := ih (fun o' ho' => h o' (by simp [ho']))
    have hp := h o (by simp)
    unfold PDUOption.padded at hp
    have h8 : 8 ≤ o.data.length + 2 := by omega
    refine ⟨?_, ?_, ?_⟩
    · simp only [options_total]; omega
    · simp only [options_total, List.length_cons]; omega
    · intro o' ho'
      simp only [List.mem_cons] at ho'
      rcases ho' with rfl | ho'
      · exact h8
      · exact h3 o' ho'

theorem parse_options_error (n : Nat) : ∀ (s : List Nat) (p : ICMPv6) (e : Error),
    s.length ≤ n → parse_options s p = .error e → e = .malformed_packet := by
  induction n with
  | zero =>
    intro s p e hn h
    have hs : s = [] := List.length_eq_zero.mp (by omega)
    subst hs
    rw [parse_options] at h
    simp at h
  | succ n ih =>
    intro s p e hn h
    match s, h with
    | [], h => rw [parse_options] at h; simp at h
    | [_], h =>
      rw [parse_options] at h
      simp only [Except.error.injEq] at h
      exact h.symm
    | opt_type :: len :: stream, h =>
      rw [parse_options] at h
      dsimp only at h
      split_ifs at h with h1 h2
      · simp only [Except.error.injEq] at h; exact h.symm
      · simp only [Except.error.injEq] at h; exact h.symm
      · refine ih _ _ e ?_ h
        simp only [List.length_drop, List.length_cons] at hn ⊢
        omega

/-- C34: `parse_options` returns on every stream of octets, either with `malformed_packet`
or with the stream empty; in the second case the options it appended account for all bytes
of the stream, each of them for at least 8 bytes, so their number is at most a eighth of the
stream length. -/
theorem parse_options_terminates (s : List Nat) (p : ICMPv6) (hb : Bytes s) :
    parse_options s p = .error .malformed_packet
    ∨ ∃ p' os, parse_options s p = .ok (p', []) ∧ p'.options = p.options ++ os
        ∧ (∀ o ∈ os, 8 ≤ o.data.length + 2) ∧ options_total os = s.length
        ∧ os.length ≤ s.length / 8 := by
  cases h : parse_options s p with
  | error e =>
    left
    rw [parse_options_error s.length s p e (Nat.le_refl _) h]
  | ok r =>
    right
    obtain ⟨p', s'⟩ := r
    obtain ⟨os, hpad, hs, hp', hs'⟩ := parse_options_inv s.length s p p' s' (Nat.le_refl _) hb h
    obtain ⟨-, h2, h3⟩ := padded_total os hpad
    have hlen : options_total os = s.length := by rw [hs, options_wire_length]
    refine ⟨p', os, by rw [hs'], ?_, h3, hlen, ?_⟩
    · rw [hp', foldl_add_option]
    · omega

theorem parse_options_terminates_witness :
    parse_options [1, 1, 0, 17, 34, 51, 68, 85, 5, 1, 0, 0, 0, 0, 5, 220]
        (from_type ROUTER_SOLICIT) = .error .malformed_packet
    ∨ ∃ p' os, parse_options [1, 1, 0, 17, 34, 51, 68, 85, 5, 1, 0, 0, 0, 0, 5, 220]
          (from_type ROUTER_SOLICIT) = .ok (p', [])
        ∧ p'.options = (from_type ROUTER_SOLICIT).options ++ os
        ∧ (∀ o ∈ os, 8 ≤ o.data.length + 2)
        ∧ options_total os
            = [1, 1, 0, 17, 34, 51, 68, 85, 5, 1, 0, 0, 0, 0, 5, 220].length
        ∧ os.length ≤ [1, 1, 0, 17, 34, 51, 68, 85, 5, 1, 0, 0, 0, 0, 5, 220].length / 8 :=
  parse_options_terminates [1, 1, 0, 17, 34, 51, 68, 85, 5, 1, 0, 0, 0, 0, 5, 220]
    (from_type ROUTER_SOLICIT) (by decide)

/-- C32: for a buffer of octets shorter than 2^32 whose type octet is option-bearing and on
which the parsing constructor succeeds, the parsed PDU has no inner payload and no
extensions, the number of bytes behind the fixed part is a multiple of 8, and `header_size`
of the parsed PDU is the buffer length. -/
theorem parsed_options_fill_buffer (E : ExtensionParser) (b : List Nat) (p : ICMPv6)
    (hb : Bytes b) (hl : b.length < 4294967296)
    (hty : option_bearing (b.headD 0) = true) (h : from_buffer E b = .ok p) :
    p.inner_pdu = none ∧ p.has_extensions = false
      ∧ (b.length - fixed_part_size (b.headD 0)) % 8 = 0
      ∧ p.header_size = b.length := by
  have hte : b.headD 0 ≠ TIME_EXCEEDED := by
    intro h3
    rw [h3] at hty
    revert hty
    decide
  obtain ⟨hshape, hc, hext, htp⟩ := from_buffer_shape E b p h hb hte
  have hfix : fixed_part_size (b.headD 0) ≤ b.length := by
    have := congrArg List.length hshape
    rw [List.length_append, fields_wire_length, htp] at this
    omega
  obtain ⟨p1, hp1t, hb1, ho1, -, -, hi1, hf⟩ := from_buffer_options E b hty hfix
  rw [h] at hf
  obtain ⟨⟨p2, s4⟩, hpo, hrr⟩ := bind_ok _ _ _ hf.symm
  have hbd : Bytes (b.drop (fixed_part_size (b.headD 0))) := bytes_drop b _ hb
  obtain ⟨os, hpad, hwire, hp2, hs4⟩ :=
    parse_options_inv _ _ p1 p2 s4 (Nat.le_refl _) hbd hpo
  have hx2 : p2.are_extensions_allowed = false := by
    rw [hp2]
    exact option_bearing_not_ext _ (by rw [foldl_add_option_type, hp1t]; exact hty)
  simp only [pure, Except.pure, Except.ok.injEq] at hrr
  rw [read_rest_plain E _ _ hx2, hs4] at hrr
  simp only [ne_eq, not_true_eq_false, if_false] at hrr
  have hin : p.inner_pdu = none := by
    rw [← hrr, hp2, foldl_add_option]
    exact hi1
  have hib : p.inner_bytes = [] := by unfold inner_bytes; rw [hin]; rfl
  have hlen : b.length = p.fields_wire.length := by
    have := congrArg List.length hshape
    rw [List.length_append, hib] at this
    simpa using this
  refine ⟨hin, ?_, ?_, ?_⟩
  · unfold has_extensions; rw [hext]; rfl
  · have h8 := (padded_total os hpad).1
    rw [← options_wire_length, ← hwire, List.length_drop] at h8
    exact h8
  · rw [header_size_eq p hc (by rw [← hlen]; exact hl), hlen]

theorem parsed_options_fill_buffer_witness :
    ∃ p, from_buffer ExtensionParser.none
        [133, 0, 0, 0, 0, 0, 0, 0, 1, 1, 0, 17, 34, 51, 68, 85] = .ok p
      ∧ p.inner_pdu = none ∧ p.has_extensions = false
      ∧ (16 - 8) % 8 = 0 ∧ p.header_size = 16 := by
  have hp : from_buffer ExtensionParser.none
      [133, 0, 0, 0, 0, 0, 0, 0, 1, 1, 0, 17, 34, 51, 68, 85]
      = .ok ⟨⟨133, 0, 0, 0, 0, 0, 0, 0⟩, ByteVec.zero 16, ByteVec.zero 16,
          [⟨1, [0, 17, 34, 51, 68, 85]⟩], 8, ByteVec.zero 4, ByteVec.zero 4, ⟨[], []⟩, none⟩ := by
    simp [from_buffer, read_header, from_type, has_target_addr, has_dest_addr, has_options,
      ICMPv6.type, InputMemoryStream.read_vec, parse_options, try_parse_extensions,
      are_extensions_allowed, add_option, internal_add_option, InputMemoryStream.can_read,
      PDUOption.data_size, ByteVec.zero,
      NEIGHBOUR_SOLICIT, NEIGHBOUR_ADVERT, REDIRECT, ROUTER_ADVERT, ROUTER_SOLICIT, TIME_EXCEEDED,
      bind, Except.bind, pure, Except.pure]
  exact ⟨_, hp, parsed_options_fill_buffer ExtensionParser.none
    [133, 0, 0, 0, 0, 0, 0, 0, 1, 1, 0, 17, 34, 51, 68, 85] _ (by decide) (by decide)
    (by decide) hp⟩

/-! ## Memory reads of the DNS search list decoder -/

theorem drop_at (data : List Nat) (ptr : Nat) (h : ptr < data.length) :
    ∃ x, data.drop ptr = x :: data.drop (ptr + 1) ∧ data.getD ptr 0 = x
      ∧ (x :: data.drop (ptr + 1)).length = data.length - ptr
      ∧ ∀ len, (data.drop (ptr + 1)).drop len = data.drop (ptr + len + 1) := by
  refine ⟨data[ptr], ?_, ?_, ?_, ?_⟩
  · exact List.drop_eq_getElem_cons h
  · rw [List.getD_eq_getElem?_getD, List.getElem?_eq_getElem h]; rfl
  · simp only [List.length_cons, List.length_drop]; omega
  · intro len
    rw [List.drop_drop]
    congr 1
    omega

/-- The indexed loops compute what the loops over the remaining bytes compute. -/
theorem read_domains_at_eq (k : Nat) : ∀ (data : List Nat) (ptr : Nat)
    (st : Option (List Nat)) (out : List (List Nat)) (log : List Nat),
    data.length + 1 - ptr ≤ k →
    (read_domains_at data ptr st out log).1 = read_domains (data.drop ptr) st out := by
  induction k with
  | zero =>
    intro data ptr st out log hk
    have h : ¬ ptr < data.length := by omega
    rw [read_domains_at.eq_def, dif_neg h, List.drop_eq_nil_of_le (by omega)]
    cases st <;> rw [read_domains]
  | succ k ih =>
    intro data ptr st out log hk
    by_cases h : ptr < data.length
    · obtain ⟨x, hd, hx, hlen, hdd⟩ := drop_at data ptr h
      rw [read_domains_at.eq_def, dif_pos h, hd, hx]
      cases st with
      | none =>
        rw [read_domains, hlen]
        dsimp only
        by_cases h0 : x = 0
        · rw [if_pos h0, if_pos h0]
        · rw [if_neg h0, if_neg h0]
          by_cases h1 : x < data.length - ptr
          · rw [if_pos h1, if_pos h1, ih _ _ _ _ _ (by omega), hdd]
          · rw [if_neg h1, if_neg h1]
      | some d =>
        rw [read_domains, hlen]
        dsimp only
        by_cases h1 : x ≠ 0 ∧ x < data.length - ptr
        · rw [if_pos h1, if_pos h1, ih _ _ _ _ _ (by omega), hdd]
        · rw [if_neg h1, if_neg h1]
          by_cases h0 : x ≠ 0
          · rw [if_pos h0, if_pos h0]
          · rw [if_neg h0, if_neg h0, ih _ _ _ _ _ (by omega)]
    · rw [read_domains_at.eq_def, dif_neg h, List.drop_eq_nil_of_le (by omega)]
      cases st <;> rw [read_domains]

/-- Every index the indexed loops read lies inside the payload. -/
theorem read_domains_at_bounds (k : Nat) : ∀ (data : List Nat) (ptr : Nat)
    (st : Option (List Nat)) (out : List (List Nat)) (log : List Nat),
    data.length + 1 - ptr ≤ k → (∀ i ∈ log, i < data.length) →
    ∀ i ∈ (read_domains_at data ptr st out log).2, i < data.length := by
  induction k with
  | zero =>
    intro data ptr st out log hk hlog
    have h : ¬ ptr < data.length := by omega
    rw [read_domains_at.eq_def, dif_neg h]
    cases st <;> exact hlog
  | succ k ih =>
    intro data ptr st out log hk hlog
    by_cases h : ptr < data.length
    · have hlog1 : ∀ i ∈ log ++ [ptr], i < data.length := by
        intro i hi
        simp only [List.mem_append, List.mem_singleton] at hi
        rcases hi with hi | rfl
        · exact hlog i hi
        · exact h
      have hlog2 : ∀ len, len < data.length - ptr →
          ∀ i ∈ log ++ [ptr] ++ List.range' (ptr + 1) len, i < data.length := by
        intro len hlen i hi
        rw [List.mem_append] at hi
        rcases hi with hi | hi
        · exact hlog1 i hi
        · rw [List.mem_range'_1] at hi
          omega
      rw [read_domains_at.eq_def, dif_pos h]
      cases st with
      | none =>
        dsimp only
        split_ifs with h0 h1
        · exact hlog1
        · exact ih _ _ _ _ _ (by omega) (hlog2 _ h1)
        · exact hlog1
      | some d =>
        dsimp only
        by_cases h1 : data.getD ptr 0 ≠ 0 ∧ data.getD ptr 0 < data.length - ptr
        · rw [if_pos h1]
          exact ih _ _ _ _ _ (by omega) (hlog2 _ h1.2)
        · rw [if_neg h1]
          by_cases h0 : data.getD ptr 0 ≠ 0
          · rw [if_pos h0]
            exact hlog1
          · rw [if_neg h0]
            exact ih _ _ _ _ _ (by omega) hlog1
    · rw [read_domains_at.eq_def, dif_neg h]
      cases st <;> exact hlog

theorem read_domains_error (n : Nat) : ∀ (s : List Nat) (st : Option (List Nat))
    (out : List (List Nat)) (e : Error),
    s.length ≤ n → read_domains s st out = .error e → e = .option_not_found := by
  induction n with
  | zero =>
    intro s st out e hn h
    have hs : s = [] := List.length_eq_zero.mp (by omega)
    subst hs
    cases st <;> (rw [read_domains] at h; simp at h)
  | succ n ih =>
    intro s st out e hn h
    cases s with
    | nil => cases st <;> (rw [read_domains] at h; simp at h)
    | cons len rest =>
      cases st with
      | none =>
        rw [read_domains] at h
        split_ifs at h <;>
          first
          | (simp only [Except.error.injEq] at h; exact h.symm)
          | exact ih _ _ _ e (by simp only [List.length_drop, List.length_cons] at *; omega) h
      | some d =>
        rw [read_domains] at h
        split_ifs at h <;>
          first
          | (simp only [Except.error.injEq] at h; exact h.symm)
          | exact ih _ _ _ e (by simp only [List.length_drop, List.length_cons] at *; omega) h

/-- C35: on a payload of at least 6 octets `dns_search_list_type::from_option` reads only
indices below the payload size: the decoder with its reads returns the result of the decoder,
which is a value or `option_not_found`, and every index in its list of reads is below
`|payload|`. -/
theorem dns_search_list_reads_in_bounds (opt : PDUOption) (h6 : 6 ≤ opt.data.length) :
    (dns_search_list_type.from_option_reads opt).1 = dns_search_list_type.from_option opt
    ∧ (∀ i ∈ (dns_search_list_type.from_option_reads opt).2, i < opt.data.length)
    ∧ ((∃ v, dns_search_list_type.from_option opt = .ok v)
        ∨ dns_search_list_type.from_option opt = .error .option_not_found) := by
  have hsz : ¬ opt.data_size < 2 + 4 := by unfold PDUOption.data_size; omega
  have heq := read_domains_at_eq _ opt.data (2 + 4) none [] [2, 3, 4, 5] (Nat.le_refl _)
  have hbd := read_domains_at_bounds _ opt.data (2 + 4) none [] [2, 3, 4, 5] (Nat.le_refl _)
    (by
      intro i hi
      simp only [List.mem_cons, List.mem_singleton, List.not_mem_nil, or_false] at hi
      omega)
  unfold dns_search_list_type.from_option_reads dns_search_list_type.from_option
  rw [if_neg hsz, if_neg hsz]
  dsimp only
  rw [heq]
  cases hr : read_domains (opt.data.drop (2 + 4)) none [] with
  | error e =>
    have he := read_domains_error _ _ _ _ e (Nat.le_refl _) hr
    subst he
    exact ⟨rfl, hbd, Or.inr rfl⟩
  | ok ds => exact ⟨rfl, hbd, Or.inl ⟨_, rfl⟩⟩

theorem dns_search_list_reads_in_bounds_witness :
    (∀ i ∈ (dns_search_list_type.from_option_reads
        ⟨31, [0, 0, 0, 0, 0, 60, 3, 97, 98, 99]⟩).2, i < 10)
    ∧ ((∃ v, dns_search_list_type.from_option ⟨31, [0, 0, 0, 0, 0, 60, 3, 97, 98, 99]⟩ = .ok v)
        ∨ dns_search_list_type.from_option ⟨31, [0, 0, 0, 0, 0, 60, 3, 97, 98, 99]⟩
            = .error .option_not_found) :=
  (dns_search_list_reads_in_bounds ⟨31, [0, 0, 0, 0, 0, 60, 3, 97, 98, 99]⟩ (by decide)).2

end Tins
